import Mathlib

/-!
Verification of the hierarchical grid summarizer
(`geolocation_summarizer/hierarchical_summarizer.py`).

The Python source is shallowly embedded below.  Conventions of the embedding:

* Python floats are modelled as exact rationals (`ℚ`); the binary
  floating-point rounding of the source is abstracted away, the arithmetic
  structure (who is subtracted from whom, which division is truncating) is
  kept exactly.
* Python dicts are modelled as insertion-ordered association lists
  (`List (κ × ν)`); `aset` is dict assignment (replace in place or append),
  `amodify` is in-place mutation of a stored object, `alookup` is `d[k]` /
  `k in d`.
* Python `int(x)` on a float is truncation toward zero: `pyInt`.
  Python `//` on ints is floor division, which for the positive divisors
  used here equals `Int`'s `/` (Euclidean division).
* The external summarization provider (`summary_providers.py`, out of scope
  per the spec) is a parameter: a function from the batch call's arguments to
  either a failure (a raised exception) or a mapping from stringified
  ordinals to summaries.  Exceptions are modelled with `Except`.
* `asyncio` is sequential await in this program (one provider call in flight
  at a time), so the embedding is direct sequential code.
-/

/-! ## Association lists (Python dicts, insertion ordered) -/

/-- Lookup in an insertion-ordered association list (Python `d[k]` / `k in d`). -/
def alookup {κ ν : Type} [DecidableEq κ] : List (κ × ν) → κ → Option ν
  | [], _ => none
  | (k, v) :: rest, k' => if k' = k then some v else alookup rest k'

/-- Dict assignment `d[k] = v`: replace the stored value in place if the key is
present, otherwise append the new entry at the end (Python insertion order). -/
def aset {κ ν : Type} [DecidableEq κ] : List (κ × ν) → κ → ν → List (κ × ν)
  | [], k, v => [(k, v)]
  | (k0, v0) :: rest, k, v =>
    if k = k0 then (k0, v) :: rest else (k0, v0) :: aset rest k v

/-- In-place mutation of the object stored at `k` (no effect if absent). -/
def amodify {κ ν : Type} [DecidableEq κ] : List (κ × ν) → κ → (ν → ν) → List (κ × ν)
  | [], _, _ => []
  | (k0, v0) :: rest, k, f =>
    if k = k0 then (k0, f v0) :: rest else (k0, v0) :: amodify rest k f

/-- Python `min` over a list (the callers below never apply it to `[]`;
the `[]` case is junk standing in for the `ValueError` Python would raise). -/
def listMin {α : Type} [Inhabited α] [LinearOrder α] : List α → α
  | [] => default
  | x :: xs => xs.foldl min x

/-- Python `max` over a list, same conventions as `listMin`. -/
def listMax {α : Type} [Inhabited α] [LinearOrder α] : List α → α
  | [] => default
  | x :: xs => xs.foldl max x

/-- Partition a list into consecutive batches of size `bs`: the
`for batch_idx in range(0, len(cells), batch_size)` loop with the slice
`cells[batch_idx : batch_idx + batch_size]` (`bs = 0` is junk standing in for
the `ValueError` Python's `range` would raise on step 0). -/
def chunks {α : Type} (bs : ℕ) (l : List α) : List (List α) :=
  if bs = 0 then []
  else (List.range ((l.length + bs - 1) / bs)).map (fun i => (l.drop (i * bs)).take bs)

/-! ## Numeric helpers -/

/-- Python `int()` applied to a real number: truncation toward zero. -/
def pyInt (q : ℚ) : ℤ := Int.tdiv q.num q.den

/-- Decimal rendering of a coordinate with three fractional digits, standing in
for Python's `f"{x:.3f}"` (binary-float formatting abstracted; only used to
build the description strings handed to the external provider). -/
def fmt3 (q : ℚ) : String :=
  let m : ℤ := |pyInt (q * 1000)|
  let sgn : String := if q < 0 then ("-") else ("")
  let frac : ℤ := m % 1000
  let fracStr : String :=
    if frac < 10 then ("00") ++ toString frac
    else if frac < 100 then ("0") ++ toString frac
    else toString frac
  sgn ++ toString (m / 1000) ++ (".") ++ fracStr

/-! ## Data model (`Tag`, `GridCell`) -/

/-- A location tag (dataclass `Tag`). -/
structure Tag where
  lat : ℚ
  lon : ℚ
  text : String
  votes : ℤ
deriving DecidableEq

/-- The value stored in a `combined_tag` slot: the source lets it silently hold
either a plain string or a `{"summary": ..., "confidence": ...}` dict coming
back from the provider. -/
inductive CombinedTag where
  | str (s : String)
  | dict (summary : String) (confidence : ℚ)
deriving DecidableEq

instance : Inhabited CombinedTag := ⟨.str ("")⟩

/-- A grid cell (dataclass `GridCell`). -/
structure GridCell where
  lat : ℚ
  lon : ℚ
  combined_tag : CombinedTag
  level : ℤ
  kernel_size : ℤ
  min_lat : ℚ
  max_lat : ℚ
  min_lon : ℚ
  max_lon : ℚ
  x : ℤ
  y : ℤ
deriving DecidableEq

/-- A pyramid level: a dict from `(grid_lat, grid_lon)` tuples to cells. -/
abbrev Coord := ℤ × ℤ

abbrev Level := List (Coord × GridCell)

/-- Checker `_has_valid_tag`: non-blank content, both formats. -/
def has_valid_tag : CombinedTag → Bool
  | .str s => s.trim ≠ ("")
  | .dict summary _ => summary ≠ ("") && summary.trim ≠ ("")

/-- Checker `_has_multiple_tags`: content containing a `';'` character
(note: the bare semicolon, not the two-character separator `"; "`). -/
def has_multiple_tags : CombinedTag → Bool
  | .str s => s ≠ ("") && s.data.contains (';')
  | .dict summary _ => summary ≠ ("") && summary.data.contains (';')

/-- Accessor `_get_tag_text`. -/
def get_tag_text : CombinedTag → String
  | .str s => s
  | .dict summary _ => summary

/-- Accessor `_get_tag_list`: split the text on the `"; "` separator. -/
def get_tag_list (ct : CombinedTag) : List String :=
  let text := get_tag_text ct
  if text = ("") then [] else text.splitOn ("; ")

/-- Python truthiness of a `combined_tag` value (`if existing_tag:`): a string
is truthy iff non-empty; the dict form always has keys, hence is truthy. -/
def py_truthy : CombinedTag → Bool
  | .str s => s ≠ ("")
  | .dict _ _ => true

/-- Python `f"{value}"` on a `combined_tag` slot: identity on strings; on the
dict form Python would interpolate the dict's repr (that branch is never
relevant to the theorems below; float repr abstracted by `toString` on `ℚ`). -/
def py_fstr : CombinedTag → String
  | .str s => s
  | .dict summary confidence =>
    ("\x7b'summary': '") ++ summary ++ ("', 'confidence': ") ++ toString confidence ++ ("\x7d")

/-! ## Provider contract -/

/-- The response of one provider batch call: Python dict from stringified
0-based ordinal to a summary (string, or structured summary/confidence). -/
abbrev Summaries := String → Option CombinedTag

/-- The external provider's `summarize_batch(cell_descriptions, level,
kernel_size)`; `Except.error` models a raised exception. -/
abbrev Provider := List String → ℤ → ℤ → Except Unit Summaries

/-! ## Boundary computation (`define_boundaries`) -/

/-- A boundary rectangle `(min_lat, max_lat, min_lon, max_lon)`. -/
structure Boundaries where
  min_lat : ℚ
  max_lat : ℚ
  min_lon : ℚ
  max_lon : ℚ
deriving DecidableEq

/-- Method `define_boundaries`: a supplied custom rectangle is returned
unchanged; otherwise min/max over the tags padded by one grid delta. -/
def define_boundaries (grid_delta : ℚ) (tags : List Tag)
    (custom_boundaries : Option Boundaries) : Boundaries :=
  match custom_boundaries with
  | some b => b
  | none =>
    let lats := tags.map Tag.lat
    let lons := tags.map Tag.lon
    { min_lat := listMin lats - grid_delta
      max_lat := listMax lats + grid_delta
      min_lon := listMin lons - grid_delta
      max_lon := listMax lons + grid_delta }

/-! ## Base grid construction (`create_base_grid`) -/

/-- The level-0 grid index along one axis: `int((coord - min_coord) / delta)`
(lines 173-174 of the source; also recomputed by the updater, lines 472-473). -/
def gridIndex (coord min_coord delta : ℚ) : ℤ :=
  pyInt ((coord - min_coord) / delta)

/-- The fresh level-0 cell created when the first tag lands in a bucket
(lines 177-199): center and exact sub-rectangle from the grid indices. -/
def baseCell (b : Boundaries) (delta : ℚ) (grid_lat grid_lon : ℤ) : GridCell :=
  { lat := b.min_lat + ((grid_lat : ℚ) + 1/2) * delta
    lon := b.min_lon + ((grid_lon : ℚ) + 1/2) * delta
    combined_tag := .str ("")
    level := 0
    kernel_size := 1
    min_lat := b.min_lat + (grid_lat : ℚ) * delta
    max_lat := b.min_lat + ((grid_lat : ℚ) + 1) * delta
    min_lon := b.min_lon + (grid_lon : ℚ) * delta
    max_lon := b.min_lon + ((grid_lon : ℚ) + 1) * delta
    x := grid_lat
    y := grid_lon }

/-- The tag-append step (lines 202-206): `combined_tag += "; " + text` when the
stored text is truthy, else the bare text.  The dict branch is unreachable
during a build (base cells are created with a string). -/
def appendTagText (ct : CombinedTag) (text : String) : CombinedTag :=
  match ct with
  | .str s => .str (if s ≠ ("") then s ++ ("; ") ++ text else text)
  | .dict summary confidence => .dict summary confidence

/-- The key a tag buckets into: the pair of level-0 grid indices. -/
def tagKey (b : Boundaries) (delta : ℚ) (t : Tag) : Coord :=
  (gridIndex t.lat b.min_lat delta, gridIndex t.lon b.min_lon delta)

/-- Placing one tag into the grid (one iteration of the loop at lines 171-206):
create the cell if the bucket is new, then append the tag's text. -/
def placeTag (b : Boundaries) (delta : ℚ) (grid : Level) (t : Tag) : Level :=
  amodify
    (if (alookup grid (tagKey b delta t)).isSome then grid
     else aset grid (tagKey b delta t)
       (baseCell b delta (tagKey b delta t).1 (tagKey b delta t).2))
    (tagKey b delta t)
    (fun c => { c with combined_tag := appendTagText c.combined_tag t.text })

/-- The per-level normalization (lines 209-216 and 350-357): shift every cell's
`x`/`y` so that the minimum becomes `(0, 0)`.  Dict keys are not touched by the
source's normalization, only the cells' `x`/`y` fields. -/
def normalizeLevel (lvl : Level) : Level :=
  match lvl with
  | [] => []
  | _ =>
    let min_x := listMin (lvl.map (fun kc => kc.2.x))
    let min_y := listMin (lvl.map (fun kc => kc.2.y))
    lvl.map (fun kc => (kc.1, { kc.2 with x := kc.2.x - min_x, y := kc.2.y - min_y }))

/-- Method `create_base_grid`: bucket every tag, then normalize coordinates. -/
def create_base_grid (tags : List Tag) (b : Boundaries) (delta : ℚ) : Level :=
  normalizeLevel (tags.foldl (placeTag b delta) [])

/-! ## Batched summarization passes -/

/-- The description strings of one cell-level batch (lines 254-257):
`"Cell {i+1} (lat: .., lon: ..): {', '.join(tags)}"`. -/
def cellPassDescriptions (batch : List (Coord × GridCell)) : List String :=
  batch.enum.map (fun ikc =>
    ("Cell ") ++ toString (ikc.1 + 1) ++ (" (lat: ") ++ fmt3 ikc.2.2.lat ++
    (", lon: ") ++ fmt3 ikc.2.2.lon ++ ("): ") ++
    String.intercalate (", ") (get_tag_list ikc.2.2.combined_tag))

/-- The description strings of one per-level batch (lines 387-389). -/
def levelPassDescriptions (batch : List (Coord × GridCell)) : List String :=
  batch.enum.map (fun ikc =>
    ("Cell ") ++ toString (ikc.1 + 1) ++ (" (lat: ") ++ fmt3 ikc.2.2.lat ++
    (", lon: ") ++ fmt3 ikc.2.2.lon ++ ("): ") ++ get_tag_text ikc.2.2.combined_tag)

/-- The kernel size reported to the provider for a level
(`2 ** level if level > 0 else 1`, line 365). -/
def levelKernelSize (level : ℤ) : ℤ :=
  if level > 0 then 2 ^ level.toNat else 1

/-- One step of applying a provider response: for ordinal `i` of the batch,
`if str(i) in summaries: cell.combined_tag = summaries[str(i)]` (lines 265-268
and 397-399; the mutation of the cell object is an in-place update of the dict
entry holding it). -/
def applyStep (summaries : Summaries) (acc : Level) (ikc : ℕ × (Coord × GridCell)) : Level :=
  match summaries (toString ikc.1) with
  | some s => amodify acc ikc.2.1 (fun c => { c with combined_tag := s })
  | none => acc

/-- Applying one successful provider response to the whole batch. -/
def applySummaries (summaries : Summaries) (batch : List (Coord × GridCell))
    (lvl : Level) : Level :=
  (batch.enum).foldl (applyStep summaries) lvl

/-- One batch of the cell-level pass (lines 247-273): description strings are
`"Cell {i+1} (lat: .., lon: ..): {', '.join(tags)}"`; a provider exception is
caught and leaves the batch untouched. -/
def cellPassBatch (provider : Provider) (lvl : Level)
    (batch : List (Coord × GridCell)) : Level :=
  match provider (cellPassDescriptions batch) (-1) 1 with
  | .error _ => lvl
  | .ok summaries => applySummaries summaries batch lvl

/-- Method `summarize_cell_tags` (lines 228-276): select the cells whose raw
text holds a `';'`, batch them, and summarize each batch with level marker -1. -/
def summarize_cell_tags (provider : Provider) (grid : Level) (batch_size : ℕ) : Level :=
  let cells_with_multiple_tags :=
    grid.filter (fun kc => has_multiple_tags kc.2.combined_tag)
  if cells_with_multiple_tags.isEmpty then grid
  else (chunks batch_size cells_with_multiple_tags).foldl (cellPassBatch provider) grid

/-- One batch of the per-level pass (lines 380-405): descriptions carry the
cell's current text; a provider exception is caught and leaves the batch
untouched. -/
def levelPassBatch (provider : Provider) (level : ℤ) (kernel_size : ℤ)
    (lvl : Level) (batch : List (Coord × GridCell)) : Level :=
  match provider (levelPassDescriptions batch) level kernel_size with
  | .error _ => lvl
  | .ok summaries => applySummaries summaries batch lvl

/-- Method `batch_summarize_level` (lines 361-408): select every cell with a
non-blank tag — regardless of how many fragments it holds — and summarize in
batches. -/
def batch_summarize_level (provider : Provider) (level_data : Level) (level : ℤ)
    (batch_size : ℕ) : Level :=
  let kernel_size : ℤ := levelKernelSize level
  let cells_with_tags :=
    level_data.filter (fun kc => has_valid_tag kc.2.combined_tag)
  if cells_with_tags.isEmpty then level_data
  else (chunks batch_size cells_with_tags).foldl
    (levelPassBatch provider level kernel_size) level_data

/-! ## Pyramid derivation (`create_next_level`) -/

/-- The Python `range(lo, hi + 1, stride)` of kernel start coordinates
(`hi ≥ lo` always holds at the call sites). -/
def startsList (lo hi : ℤ) (stride : ℕ) : List ℤ :=
  (List.range ((hi - lo).toNat / stride + 1)).map (fun (i : ℕ) => lo + (stride : ℤ) * (i : ℤ))

/-- Collect the cells present in the `kernel_size × kernel_size` window with
start corner `(start_lat, start_lon)` (lines 301-306), in the source's
row-major probe order. -/
def kernelWindow (current_level : Level) (kernel_size : ℕ)
    (start_lat start_lon : ℤ) : List GridCell :=
  (List.range kernel_size).flatMap (fun (i : ℕ) =>
    (List.range kernel_size).filterMap (fun (j : ℕ) =>
      alookup current_level (start_lat + (i : ℤ), start_lon + (j : ℤ))))

/-- The parent cell built from a non-empty kernel (lines 308-344): mean center,
min/max bounds envelope, semicolon-join of the children's valid texts. -/
def mkKernelCell (level_num : ℕ) (kernel_size : ℕ) (kernel_x kernel_y : ℤ)
    (cells : List GridCell) : GridCell :=
  let combined_tags := (cells.filter (fun c => has_valid_tag c.combined_tag)).map
    (fun c => get_tag_text c.combined_tag)
  { lat := (cells.map GridCell.lat).sum / (cells.length : ℚ)
    lon := (cells.map GridCell.lon).sum / (cells.length : ℚ)
    combined_tag := .str (String.intercalate ("; ") combined_tags)
    level := level_num
    kernel_size := kernel_size
    min_lat := listMin (cells.map GridCell.min_lat)
    max_lat := listMax (cells.map GridCell.max_lat)
    min_lon := listMin (cells.map GridCell.min_lon)
    max_lon := listMax (cells.map GridCell.max_lon)
    x := kernel_x
    y := kernel_y }

/-- The body of `create_next_level`'s kernel loop for one window start pair
(lines 299-345): skip an empty window, else store the derived parent cell at
the kernel key `(start_lat // kernel_size, start_lon // kernel_size)`. -/
def windowStep (current_level : Level) (level_num : ℕ) (acc : Level)
    (s : ℤ × ℤ) : Level :=
  if (kernelWindow current_level (2 ^ level_num) s.1 s.2).isEmpty then acc
  else
    aset acc (s.1 / (2 ^ level_num : ℤ), s.2 / (2 ^ level_num : ℤ))
      (mkKernelCell level_num (2 ^ level_num) (s.1 / (2 ^ level_num : ℤ))
        (s.2 / (2 ^ level_num : ℤ))
        (kernelWindow current_level (2 ^ level_num) s.1 s.2))

/-- The window start pairs visited by `create_next_level`'s two nested `for`
loops, outer latitude then inner longitude, flattened in visit order. -/
def windowPairs (current_level : Level) (kernel_size : ℕ) : List (ℤ × ℤ) :=
  let coords := current_level.map Prod.fst
  (startsList (listMin (coords.map Prod.fst)) (listMax (coords.map Prod.fst))
      kernel_size).flatMap (fun a =>
    (startsList (listMin (coords.map Prod.snd)) (listMax (coords.map Prod.snd))
        kernel_size).map (fun b => (a, b)))

/-- Method `create_next_level` (lines 278-359): iterate non-overlapping kernel
windows over the coordinate range of the current level's keys, keep the
non-empty ones, then normalize `x`/`y`.  The `[]` case is junk standing in for
the `ValueError` Python's `min()` would raise (never reached: the pipeline
only calls this on non-empty levels). -/
def create_next_level (current_level : Level) (level_num : ℕ) : Level :=
  match current_level with
  | [] => []
  | _ =>
    normalizeLevel
      ((startsList (listMin ((current_level.map Prod.fst).map Prod.fst))
          (listMax ((current_level.map Prod.fst).map Prod.fst)) (2 ^ level_num)).foldl
        (fun acc start_lat =>
          (startsList (listMin ((current_level.map Prod.fst).map Prod.snd))
              (listMax ((current_level.map Prod.fst).map Prod.snd)) (2 ^ level_num)).foldl
            (fun acc start_lon =>
              windowStep current_level level_num acc (start_lat, start_lon)) acc) [])

/-! ## The persisted pyramid document (`save_results` and the update input) -/

/-- One serialized cell: `{"kernel_boundaries": {...}, "combined_tag": ...}`. -/
structure CellDoc where
  min_lat : ℚ
  max_lat : ℚ
  min_lon : ℚ
  max_lon : ℚ
  combined_tag : CombinedTag
deriving DecidableEq

/-- A serialized level: a dict from `"{x}_{y}"` string keys to cells. -/
abbrev DocLevel := List (String × CellDoc)

/-- The document metadata block. -/
structure Metadata where
  grid_delta : ℚ
  total_levels : ℕ
deriving DecidableEq

/-- The persisted pyramid document (`results` in the source). -/
structure Document where
  metadata : Metadata
  levels : List (String × DocLevel)
deriving DecidableEq

/-- The cell key `f"{x}_{y}"` (line 425 and lines 481, 549). -/
def keyStr (x y : ℤ) : String := toString x ++ ("_") ++ toString y

/-- Serialization of one cell (lines 426-434). -/
def cellToDoc (c : GridCell) : CellDoc :=
  { min_lat := c.min_lat
    max_lat := c.max_lat
    min_lon := c.min_lon
    max_lon := c.max_lon
    combined_tag := c.combined_tag }

/-- Method `save_results` (lines 411-443): metadata carries the grid delta and
the number of levels; each level is keyed by `str(level)` and each cell by its
normalized `"{x}_{y}"` coordinates. -/
def save_results (grid_delta : ℚ) (levels : List (ℕ × Level)) : Document :=
  { metadata := { grid_delta := grid_delta, total_levels := levels.length }
    levels := levels.map (fun ld =>
      (toString ld.1, ld.2.map (fun kc => (keyStr kc.2.x kc.2.y, cellToDoc kc.2)))) }

/-! ## The incremental updater (`update_with_new_tag`) -/

/-- Python `int(s)` on the decimal strings produced by the key format (digits
with an optional leading minus; other inputs are junk standing in for the
`ValueError` Python would raise). -/
def strToNat (l : List Char) : ℕ :=
  l.foldl (fun a c => a * 10 + (c.toNat - 48)) 0

/-- Python `int(s)` for a possibly negative decimal string. -/
def strToInt (s : String) : ℤ :=
  match s.data with
  | '-' :: rest => -(strToNat rest : ℤ)
  | l => (strToNat l : ℤ)

/-- The key parse `map(int, key.split('_'))` (lines 476-477 and 557): the keys
written by `save_results` always split into exactly two pieces. -/
def parseKey (s : String) : ℤ × ℤ :=
  match s.splitOn ("_") with
  | [a, b] => (strToInt a, strToInt b)
  | _ => (0, 0)

/-- Python `','.join` over a list of `combined_tag` values (line 564): raises
`TypeError` — modelled as `Except.error` — if any value is the dict form. -/
def pyJoinComma (l : List CombinedTag) : Except Unit String := do
  let ss ← l.mapM (fun ct =>
    match ct with
    | .str s => Except.ok s
    | .dict _ _ => Except.error ())
  pure (String.intercalate (", ") ss)

/-- The new level-0 cell created by an update (lines 497-518). -/
def updateNewCell (min_lat min_lon grid_delta : ℚ) (grid_lat grid_lon : ℤ) : CellDoc :=
  { min_lat := min_lat + (grid_lat : ℚ) * grid_delta
    max_lat := min_lat + ((grid_lat : ℚ) + 1) * grid_delta
    min_lon := min_lon + (grid_lon : ℚ) * grid_delta
    max_lon := min_lon + ((grid_lon : ℚ) + 1) * grid_delta
    combined_tag := .str ("") }

/-- The kernel key `f"{nx // 2**q}_{ny // 2**q}"` the updater probes at level
`q` (lines 546-549). -/
def upperKernelKey (q : ℕ) (nx ny : ℤ) : String :=
  keyStr (nx / (2 ^ q : ℤ)) (ny / (2 ^ q : ℤ))

/-- The texts of all current level-0 cells whose key maps into the level-`q`
kernel of `(nx, ny)` (lines 554-560). -/
def kernelCellsOf (level_0 : DocLevel) (q : ℕ) (nx ny : ℤ) : List CombinedTag :=
  level_0.filterMap (fun kc =>
    if (parseKey kc.1).1 / (2 ^ q : ℤ) = nx / (2 ^ q : ℤ) ∧
       (parseKey kc.1).2 / (2 ^ q : ℤ) = ny / (2 ^ q : ℤ) then
      some kc.2.combined_tag
    else none)

/-- One iteration of the upper-level propagation loop (lines 537-571) at level
`level_num = q`: look up the kernel containing the affected normalized level-0
coordinate `(nx, ny)`; if present, re-summarize the texts of all current
level-0 cells mapping into that kernel (an uncaught provider exception
propagates, modelled by the explicit error matches); if absent, only a warning
is printed and the loop continues. -/
def updateLevelStep (provider : Provider) (lat lon : ℚ) (nx ny : ℤ)
    (level_0 : DocLevel) (levels : List (String × DocLevel)) (q : ℕ) :
    Except Unit (List (String × DocLevel)) :=
  match alookup levels (toString q) with
  | none => .ok levels
  | some level_data =>
    match alookup level_data (upperKernelKey q nx ny) with
    | none => .ok levels
    | some _ =>
      if (kernelCellsOf level_0 q nx ny).isEmpty then .ok levels
      else
        match pyJoinComma (kernelCellsOf level_0 q nx ny) with
        | .error e => .error e
        | .ok body =>
          match provider
              [("Cell 1 (lat: ") ++ fmt3 lat ++ (", lon: ") ++ fmt3 lon ++ ("): ") ++ body]
              (q : ℤ) (2 ^ q : ℤ) with
          | .error e => .error e
          | .ok summaries =>
            match summaries ("0") with
            | some s =>
              .ok (aset levels (toString q)
                (amodify level_data (upperKernelKey q nx ny)
                  (fun c => { c with combined_tag := s })))
            | none => .ok levels

/-- The upper-level propagation loop (`for level_num in range(1, len(results['levels']))`). -/
def updateLevelsLoop (provider : Provider) (lat lon : ℚ) (nx ny : ℤ)
    (level_0 : DocLevel) : List ℕ → List (String × DocLevel) →
    Except Unit (List (String × DocLevel))
  | [], levels => .ok levels
  | q :: rest, levels =>
    match updateLevelStep provider lat lon nx ny level_0 levels q with
    | .error e => .error e
    | .ok levels' => updateLevelsLoop provider lat lon nx ny level_0 rest levels'

/-- Step 1 of the updater (lines 459-479): reconstruct the normalized level-0
coordinate of the new observation from the minimum boundary recoverable from
the existing cells and the minimum existing key. -/
def locateInLevel0 (grid_delta lat lon : ℚ) (level_0 : DocLevel) : ℤ × ℤ :=
  (pyInt ((lat - listMin (level_0.map (fun kc => kc.2.min_lat))) / grid_delta)
     - listMin (level_0.map (fun kc => (parseKey kc.1).1)),
   pyInt ((lon - listMin (level_0.map (fun kc => kc.2.min_lon))) / grid_delta)
     - listMin (level_0.map (fun kc => (parseKey kc.1).2)))

/-- The document key of the located cell, `f"{normalized_x}_{normalized_y}"`
(line 481). -/
def updatePlaceKey (grid_delta lat lon : ℚ) (level_0 : DocLevel) : String :=
  keyStr (locateInLevel0 grid_delta lat lon level_0).1
    (locateInLevel0 grid_delta lat lon level_0).2

/-- The merged combined string (lines 486-507): `"{existing}; {new}"` when the
located cell exists and its stored value is truthy, else the bare new text. -/
def updateMergedText (tag_text : String) (level_0 : DocLevel) (cell_key : String) : String :=
  match alookup level_0 cell_key with
  | some c =>
    if py_truthy c.combined_tag then py_fstr c.combined_tag ++ ("; ") ++ tag_text
    else tag_text
  | none => tag_text

/-- The fresh cell document created for an out-of-grid observation
(lines 497-518), with bounds from the unnormalized grid indices. -/
def updateNewCellAt (grid_delta lat lon : ℚ) (level_0 : DocLevel) : CellDoc :=
  updateNewCell (listMin (level_0.map (fun kc => kc.2.min_lat)))
    (listMin (level_0.map (fun kc => kc.2.min_lon))) grid_delta
    (pyInt ((lat - listMin (level_0.map (fun kc => kc.2.min_lat))) / grid_delta))
    (pyInt ((lon - listMin (level_0.map (fun kc => kc.2.min_lon))) / grid_delta))

/-- Step 2 of the updater (lines 486-521): merge the new text into the located
cell or create the cell, then store the merged string (line 521); returns the
updated level 0 together with the merged string. -/
def updatePlaceCell (grid_delta lat lon : ℚ) (tag_text : String) (level_0 : DocLevel) :
    DocLevel × String :=
  (amodify
    (match alookup level_0 (updatePlaceKey grid_delta lat lon level_0) with
     | some _ => level_0
     | none =>
       aset level_0 (updatePlaceKey grid_delta lat lon level_0)
         (updateNewCellAt grid_delta lat lon level_0))
    (updatePlaceKey grid_delta lat lon level_0)
    (fun c => { c with combined_tag := .str (updateMergedText tag_text level_0
      (updatePlaceKey grid_delta lat lon level_0)) }),
   updateMergedText tag_text level_0 (updatePlaceKey grid_delta lat lon level_0))

/-- The level-0 re-summarization of an update (lines 526-534): UNGUARDED — a
provider exception propagates.  Runs only when the merged text has a `';'`. -/
def updateSummarizeCell (provider : Provider) (lat lon : ℚ) (cell_key : String)
    (combined_tag : String) (level_0 : DocLevel) : Except Unit DocLevel :=
  if combined_tag.data.contains (';') then
    match provider
        [("Cell 1 (lat: ") ++ fmt3 lat ++ (", lon: ") ++ fmt3 lon ++ ("): ") ++ combined_tag]
        (-1) 1 with
    | .error e => .error e
    | .ok summaries =>
      .ok (match summaries ("0") with
        | some s => amodify level_0 cell_key (fun c => { c with combined_tag := s })
        | none => level_0)
  else .ok level_0

/-- Method `update_with_new_tag` (lines 445-579).  `Except.error` models an
uncaught Python exception reaching the caller (`KeyError` for a document with
no level `"0"`, `ValueError` for an empty level 0, any exception raised by the
two unguarded provider calls, `TypeError` from joining dict-form tags). -/
def update_with_new_tag (provider : Provider) (lat lon : ℚ) (tag_text : String)
    (doc : Document) : Except Unit Document :=
  match alookup doc.levels ("0") with
  | none => .error ()
  | some level_0 =>
    if level_0.isEmpty then .error ()
    else
      match updateSummarizeCell provider lat lon
          (keyStr (locateInLevel0 doc.metadata.grid_delta lat lon level_0).1
            (locateInLevel0 doc.metadata.grid_delta lat lon level_0).2)
          (updatePlaceCell doc.metadata.grid_delta lat lon tag_text level_0).2
          (updatePlaceCell doc.metadata.grid_delta lat lon tag_text level_0).1 with
      | .error e => .error e
      | .ok final_l0 =>
        match updateLevelsLoop provider lat lon
            (locateInLevel0 doc.metadata.grid_delta lat lon level_0).1
            (locateInLevel0 doc.metadata.grid_delta lat lon level_0).2
            final_l0
            (List.range' 1 ((aset doc.levels ("0") final_l0).length - 1))
            (aset doc.levels ("0") final_l0) with
        | .error e => .error e
        | .ok levels' => .ok { doc with levels := levels' }

/-! ## The build pipeline (`summarize_data`) -/

/-- The iterative level-construction loop of `summarize_data` (lines 665-681):
summarize the current level, record it, derive the next level, advance.  The
loop is embedded with an explicit iteration bound (`fuel`); reaching `0` stops
mid-loop and models only a cut-off, never the Python control flow — the
termination theorem below proves that the bound chosen by `summarizeDataLevels`
is never reached. -/
def buildLoop (provider : Provider) (batch_size : ℕ) :
    ℕ → List (ℕ × Level) → Level → ℕ → List (ℕ × Level) × Level × ℕ
  | 0, levels, current_level, level_num => (levels, current_level, level_num)
  | fuel + 1, levels, current_level, level_num =>
    if current_level.length > 1 then
      if (create_next_level (batch_summarize_level provider current_level
          ((level_num : ℤ) - 1) batch_size) level_num).isEmpty then
        (aset levels (level_num - 1)
          (batch_summarize_level provider current_level ((level_num : ℤ) - 1) batch_size),
         batch_summarize_level provider current_level ((level_num : ℤ) - 1) batch_size,
         level_num)
      else
        buildLoop provider batch_size fuel
          (aset (aset levels (level_num - 1)
              (batch_summarize_level provider current_level ((level_num : ℤ) - 1) batch_size))
            level_num
            (create_next_level (batch_summarize_level provider current_level
              ((level_num : ℤ) - 1) batch_size) level_num))
          (create_next_level (batch_summarize_level provider current_level
            ((level_num : ℤ) - 1) batch_size) level_num)
          (level_num + 1)
    else (levels, current_level, level_num)

/-- Sum of the coordinate spans of a level's keys along both axes; an upper
bound related to how many derivation steps the pyramid can take. -/
def spanMeasure (lvl : Level) : ℕ :=
  let xs := lvl.map (fun kc => kc.1.1)
  let ys := lvl.map (fun kc => kc.1.2)
  (listMax xs - listMin xs).toNat + (listMax ys - listMin ys).toNat

/-- The full build pipeline (`summarize_data`, lines 621-701) up to — but not
including — `save_results`: load boundaries, bucket the base grid, run the
cell-level pass, iterate the level loop, then summarize the final level. -/
def buildBase (provider : Provider) (tags : List Tag) (grid_delta : ℚ)
    (custom_boundaries : Option Boundaries) (batch_size : ℕ) : Level :=
  summarize_cell_tags provider
    (create_base_grid tags (define_boundaries grid_delta tags custom_boundaries) grid_delta)
    batch_size

/-- The loop state after the iterative phase, with the fuel bound chosen from
the base grid's coordinate span (proved sufficient below). -/
def buildState (provider : Provider) (tags : List Tag) (grid_delta : ℚ)
    (custom_boundaries : Option Boundaries) (batch_size : ℕ) :
    List (ℕ × Level) × Level × ℕ :=
  buildLoop provider batch_size
    (spanMeasure (buildBase provider tags grid_delta custom_boundaries batch_size) + 1)
    [(0, buildBase provider tags grid_delta custom_boundaries batch_size)]
    (buildBase provider tags grid_delta custom_boundaries batch_size) 1

def summarizeDataLevels (provider : Provider) (tags : List Tag) (grid_delta : ℚ)
    (custom_boundaries : Option Boundaries) (batch_size : ℕ) : List (ℕ × Level) :=
  if (buildState provider tags grid_delta custom_boundaries batch_size).2.1.length > 0 then
    aset (buildState provider tags grid_delta custom_boundaries batch_size).1
      ((buildState provider tags grid_delta custom_boundaries batch_size).2.2 - 1)
      (batch_summarize_level provider
        (buildState provider tags grid_delta custom_boundaries batch_size).2.1
        (((buildState provider tags grid_delta custom_boundaries batch_size).2.2 : ℤ) - 1)
        batch_size)
  else (buildState provider tags grid_delta custom_boundaries batch_size).1

/-- Entry point `summarize_data`: build the levels and serialize them. -/
def summarize_data (provider : Provider) (tags : List Tag) (grid_delta : ℚ)
    (custom_boundaries : Option Boundaries) (batch_size : ℕ) : Document :=
  save_results grid_delta
    (summarizeDataLevels provider tags grid_delta custom_boundaries batch_size)

/-! ## Derived locations used in the update theorems -/

/-- The normalized level-0 coordinate the updater computes for a new
observation (lines 459-479), extracted for use in statements. -/
def located_cell (doc : Document) (lat lon : ℚ) : ℤ × ℤ :=
  match alookup doc.levels ("0") with
  | none => (0, 0)
  | some level_0 => locateInLevel0 doc.metadata.grid_delta lat lon level_0

/-- The single document key an update may touch at the level named
`toString p` (`p = 0` is level 0 itself; above that, the kernel key
`(nx // 2^p, ny // 2^p)` of lines 546-549). -/
def ancestorKey (doc : Document) (lat lon : ℚ) (p : ℕ) : String :=
  upperKernelKey p (located_cell doc lat lon).1 (located_cell doc lat lon).2

/-! ## JSON value layer (`json.dump` / `json.load`) -/

/-- A JSON value, with numbers as exact rationals (binary float↔decimal
round-tripping abstracted; Python's `json` round-trips finite floats exactly). -/
inductive Json where
  | num (q : ℚ)
  | str (s : String)
  | obj (fields : List (String × Json))

/-- The JSON value of a `combined_tag`: a bare string or the structured
`{"summary", "confidence"}` object. -/
def ctToJson : CombinedTag → Json
  | .str s => .str s
  | .dict summary confidence =>
    .obj [(("summary"), .str summary), (("confidence"), .num confidence)]

/-- The JSON value of one serialized cell, exactly the shape written by
`save_results` (lines 426-434). -/
def cellToJson (c : CellDoc) : Json :=
  .obj [(("kernel_boundaries"), .obj
          [(("min_lat"), .num c.min_lat), (("max_lat"), .num c.max_lat),
           (("min_lon"), .num c.min_lon), (("max_lon"), .num c.max_lon)]),
        (("combined_tag"), ctToJson c.combined_tag)]

/-- The JSON value of the whole document handed to `json.dump` (lines 413-439). -/
def docToJson (d : Document) : Json :=
  .obj [(("metadata"), .obj
          [(("grid_delta"), .num d.metadata.grid_delta),
           (("total_levels"), .num (d.metadata.total_levels : ℚ))]),
        (("levels"), .obj (d.levels.map (fun nl =>
          (nl.1, Json.obj (nl.2.map (fun kc => (kc.1, cellToJson kc.2)))))))]

/-- Modelled from the spec: decoding of a `combined_tag` JSON value.  The
repository contains no decoder (reading back is `json.load`, external to the
source); this follows the spec's document schema (§6). -/
def jsonToCT : Json → Option CombinedTag
  | .str s => some (.str s)
  | .obj [(k1, .str summary), (k2, .num confidence)] =>
    if k1 = ("summary") ∧ k2 = ("confidence") then some (.dict summary confidence) else none
  | _ => none

/-- Modelled from the spec: decoding of one serialized cell per the spec's
document schema (§6). -/
def jsonToCell : Json → Option CellDoc
  | .obj [(k1, .obj [(a1, .num min_lat), (a2, .num max_lat),
                     (a3, .num min_lon), (a4, .num max_lon)]), (k2, jt)] =>
    if k1 = ("kernel_boundaries") ∧ k2 = ("combined_tag") ∧ a1 = ("min_lat") ∧
       a2 = ("max_lat") ∧ a3 = ("min_lon") ∧ a4 = ("max_lon") then
      (jsonToCT jt).map (fun ct =>
        { min_lat := min_lat, max_lat := max_lat, min_lon := min_lon,
          max_lon := max_lon, combined_tag := ct })
    else none
  | _ => none

/-- Modelled from the spec: decoding of one serialized level. -/
def jsonToLevel : Json → Option DocLevel
  | .obj fields => fields.mapM (fun kj => (jsonToCell kj.2).map (fun c => (kj.1, c)))
  | _ => none

/-- Modelled from the spec: decoding of a whole persisted document per the
spec's schema (§6); `total_levels` must be a non-negative integer. -/
def jsonToDoc : Json → Option Document
  | .obj [(k1, .obj [(m1, .num grid_delta), (m2, .num total)]), (k2, .obj levelFields)] =>
    if k1 = ("metadata") ∧ k2 = ("levels") ∧ m1 = ("grid_delta") ∧
       m2 = ("total_levels") ∧ 0 ≤ total.num ∧ total.den = 1 then
      (levelFields.mapM (fun nj => (jsonToLevel nj.2).map (fun l => (nj.1, l)))).map
        (fun lvls =>
          { metadata := { grid_delta := grid_delta, total_levels := total.num.toNat }
            levels := lvls })
    else none
  | _ => none

/-! ## Property definitions used in the theorem statements -/

/-- The parent coordinate of a child key under the derivation of
`create_next_level`: windows are anchored at the minimum key of the child
level and the parent key of the window starting at `min + ks*i` is
`min/ks + i` (lines 298-330). -/
def parentCoord (min_lat min_lon : ℤ) (kernel_size : ℕ) (c : Coord) : Coord :=
  (min_lat / (kernel_size : ℤ) + (c.1 - min_lat) / (kernel_size : ℤ),
   min_lon / (kernel_size : ℤ) + (c.2 - min_lon) / (kernel_size : ℤ))

/-- The children of the parent key `K`: cells of the child level whose key maps
to `K` under the kernel partition of `create_next_level`. -/
def childCells (child_level : Level) (kernel_size : ℕ) (K : Coord) : List GridCell :=
  let min_lat := listMin (child_level.map (fun kc => kc.1.1))
  let min_lon := listMin (child_level.map (fun kc => kc.1.2))
  child_level.filterMap (fun kc =>
    if parentCoord min_lat min_lon kernel_size kc.1 = K then some kc.2 else none)

/-- The bounds-envelope property between a child level and its derived parent
level: every parent cell has at least one present child and its bounds are
exactly the min/max envelope of its children's bounds. -/
def EnvelopeRel (child_level parent_level : Level) (level_num : ℕ) : Prop :=
  ∀ K cell, alookup parent_level K = some cell →
    childCells child_level (2 ^ level_num) K ≠ [] ∧
    cell.min_lat = listMin ((childCells child_level (2 ^ level_num) K).map GridCell.min_lat) ∧
    cell.max_lat = listMax ((childCells child_level (2 ^ level_num) K).map GridCell.max_lat) ∧
    cell.min_lon = listMin ((childCells child_level (2 ^ level_num) K).map GridCell.min_lon) ∧
    cell.max_lon = listMax ((childCells child_level (2 ^ level_num) K).map GridCell.max_lon)

/-- The level stored in a document under a name (empty if absent). -/
def docLevel (d : Document) (name : String) : DocLevel :=
  (alookup d.levels name).getD []

/-- Executable bounds-envelope check on a persisted document: at every level
`p ≥ 1` (canonically named `str(p)`), each cell's bounds must equal the
envelope of the level-`p-1` cells whose normalized key maps into it under the
updater's own kernel arithmetic `key // 2^p` (lines 546-559). -/
def docEnvelopeB (d : Document) : Bool :=
  (List.range' 1 (d.levels.length - 1)).all (fun p =>
    let parent := docLevel d (toString p)
    let child := docLevel d (toString (p - 1))
    let ks : ℤ := 2 ^ p
    parent.all (fun kc =>
      let K := parseKey kc.1
      let children := child.filter (fun ckc =>
        (parseKey ckc.1).1 / ks == K.1 && (parseKey ckc.1).2 / ks == K.2)
      !children.isEmpty &&
      kc.2.min_lat == listMin (children.map (fun c => c.2.min_lat)) &&
      kc.2.max_lat == listMax (children.map (fun c => c.2.max_lat)) &&
      kc.2.min_lon == listMin (children.map (fun c => c.2.min_lon)) &&
      kc.2.max_lon == listMax (children.map (fun c => c.2.max_lon))))

/-- Unpack an `Except.ok` result, with a fallback for the error case. -/
def okOr (e : Except Unit Document) (d : Document) : Document :=
  match e with
  | .ok x => x
  | .error _ => d

/-! ## Concrete providers and documents for the witnesses and counterexamples -/

/-- A provider that succeeds and returns no summaries (every ordinal absent). -/
def provNone : Provider := fun _ _ _ => .ok (fun _ => none)

/-- A provider whose calls always raise. -/
def provFail : Provider := fun _ _ _ => .error ()

/-- A provider that succeeds and answers only ordinal `"0"`, with `t`. -/
def provZero (t : CombinedTag) : Provider :=
  fun _ _ _ => .ok (fun s => if s = ("0") then some t else none)

/-- A one-cell serialized level-0 cell on the unit square `[x, x+1] × [y, y+1]`. -/
def unitCellDoc (x y : ℤ) (text : String) : CellDoc :=
  { min_lat := (x : ℚ), max_lat := (x : ℚ) + 1, min_lon := (y : ℚ),
    max_lon := (y : ℚ) + 1, combined_tag := .str text }

/-- A two-level document with two level-0 cells and one level-1 kernel,
`grid_delta = 1`; used to exercise a successful in-coverage update. -/
def docA : Document :=
  { metadata := { grid_delta := 1, total_levels := 2 }
    levels :=
      [(("0"), [(("0_0"), unitCellDoc 0 0 ("a")), (("1_1"), unitCellDoc 1 1 ("b"))]),
       (("1"), [(("0_0"),
         { min_lat := 0, max_lat := 2, min_lon := 0, max_lon := 2,
           combined_tag := .str ("a; b") })])] }

/-- The result of updating `docA` at `(1/2, 1/2)` with text `"t"` under a
provider answering ordinal 0 with `"A"`. -/
def docARes : Document :=
  okOr (update_with_new_tag (provZero (.str ("A"))) (1/2) (1/2) ("t") docA) docA

/-- A three-level document whose level-1 coverage has a gap at kernel `5_0`
while level 2 still covers kernel `2_0`: level 0 holds cells `x = 0..7` and
`x = 16, 17` (all `y = 0`), level 1 holds kernels `0..3` and `8`, level 2
holds kernels `0` and `2`; `grid_delta = 1`. -/
def docB : Document :=
  { metadata := { grid_delta := 1, total_levels := 3 }
    levels :=
      [(("0"),
        [(("0_0"), unitCellDoc 0 0 ("t0")), (("1_0"), unitCellDoc 1 0 ("t1")),
         (("2_0"), unitCellDoc 2 0 ("t2")), (("3_0"), unitCellDoc 3 0 ("t3")),
         (("4_0"), unitCellDoc 4 0 ("t4")), (("5_0"), unitCellDoc 5 0 ("t5")),
         (("6_0"), unitCellDoc 6 0 ("t6")), (("7_0"), unitCellDoc 7 0 ("t7")),
         (("16_0"), unitCellDoc 16 0 ("t16")), (("17_0"), unitCellDoc 17 0 ("t17"))]),
       (("1"),
        [(("0_0"), { min_lat := 0, max_lat := 2, min_lon := 0, max_lon := 1,
                     combined_tag := .str ("u0") }),
         (("1_0"), { min_lat := 2, max_lat := 4, min_lon := 0, max_lon := 1,
                     combined_tag := .str ("u1") }),
         (("2_0"), { min_lat := 4, max_lat := 6, min_lon := 0, max_lon := 1,
                     combined_tag := .str ("u2") }),
         (("3_0"), { min_lat := 6, max_lat := 8, min_lon := 0, max_lon := 1,
                     combined_tag := .str ("u3") }),
         (("8_0"), { min_lat := 16, max_lat := 18, min_lon := 0, max_lon := 1,
                     combined_tag := .str ("u8") })]),
       (("2"),
        [(("0_0"), { min_lat := 0, max_lat := 8, min_lon := 0, max_lon := 1,
                     combined_tag := .str ("v0") }),
         (("2_0"), { min_lat := 16, max_lat := 18, min_lon := 0, max_lon := 1,
                     combined_tag := .str ("v2") })])] }

/-- The result of updating `docB` at `(41/4, 1/2)` with text `"new"`:
the located normalized coordinate is `(10, 0)`, whose level-1 kernel `5_0`
is missing while its level-2 kernel `2_0` exists. -/
def docBRes : Document :=
  okOr (update_with_new_tag (provZero (.str ("UPDATED"))) (41/4) (1/2) ("new") docB) docB

/-- A two-level, one-cell document satisfying the bounds envelope; used to
show an update that creates a new level-0 cell under the existing level-1
kernel without refreshing that kernel's bounds. -/
def docC : Document :=
  { metadata := { grid_delta := 1, total_levels := 2 }
    levels :=
      [(("0"), [(("0_0"), unitCellDoc 0 0 ("a"))]),
       (("1"), [(("0_0"), unitCellDoc 0 0 ("a"))])] }

/-- The result of updating `docC` at `(3/2, 1/2)` with text `"b"` under a
provider that returns no summaries. -/
def docCRes : Document :=
  okOr (update_with_new_tag provNone (3/2) (1/2) ("b") docC) docC

/-- A one-level, one-cell document used to show that a provider failure during
an update propagates to the caller. -/
def docD : Document :=
  { metadata := { grid_delta := 1, total_levels := 1 }
    levels := [(("0"), [(("0_0"), unitCellDoc 0 0 ("a"))])] }

/-- A single-cell level whose text holds one fragment (no separator). -/
def parkCell : GridCell :=
  { lat := 1/2, lon := 1/2, combined_tag := .str ("park"), level := 0,
    kernel_size := 1, min_lat := 0, max_lat := 1, min_lon := 0, max_lon := 1,
    x := 0, y := 0 }

/-- The one-cell level holding `parkCell`. -/
def parkLevel : Level := [((0, 0), parkCell)]

/-- A single-cell level with a two-fragment text, used for the batch-failure
witness. -/
def xyCell : GridCell :=
  { lat := 1/2, lon := 1/2, combined_tag := .str ("x; y"), level := 0,
    kernel_size := 1, min_lat := 0, max_lat := 1, min_lon := 0, max_lon := 1,
    x := 0, y := 0 }

/-- The one-cell level holding `xyCell`. -/
def xyLevel : Level := [((0, 0), xyCell)]

/-- Tags for the truncation-versus-floor counterexample: one tag lying below
the custom boundary's minimum. -/
def tagsBelow : List Tag := [{ lat := -1/2, lon := 1/2, text := ("a"), votes := 1 }]

/-- The custom unit-square boundary for the truncation counterexample. -/
def unitBoundary : Boundaries :=
  { min_lat := 0, max_lat := 1, min_lon := 0, max_lon := 1 }

/-- Two tags landing in the same bucket, the first with empty text; breaks the
plain "; "-join description of the combined text. -/
def tagsEmptyFirst : List Tag :=
  [{ lat := 1/2, lon := 1/2, text := (""), votes := 1 },
   { lat := 1/2, lon := 1/2, text := ("b"), votes := 1 }]

/-- Two tags with the same location, used to exercise same-bucket joining. -/
def tagsAB : List Tag :=
  [{ lat := 1/2, lon := 1/2, text := ("a"), votes := 1 },
   { lat := 1/2, lon := 1/2, text := ("b"), votes := 1 }]

/-- Two far-apart tags used to exercise the full build pipeline. -/
def tagsTwo : List Tag :=
  [{ lat := 0, lon := 0, text := ("a"), votes := 1 },
   { lat := 5, lon := 5, text := ("b"), votes := 1 }]

/-- The texts of the tags that bucket into grid coordinate `k`, in input-list
order (the bucketing uses exactly the index arithmetic of `create_base_grid`). -/
def bucketTexts (tags : List Tag) (b : Boundaries) (delta : ℚ) (k : Coord) : List String :=
  tags.filterMap (fun t => if tagKey b delta t = k then some t.text else none)

/-- The `"; "`-join of a list of fragments (the claim-side reading of the
source's repeated `combined_tag += "; " + text`). -/
def sepJoin : List String → String
  | [] => ("")
  | [s] => s
  | s :: rest => s ++ ("; ") ++ sepJoin rest

/-- Drop the longest prefix of empty texts (the fragments the source's
truthiness test `if grid[...].combined_tag:` silently discards). -/
def dropLeadingEmpty : List String → List String
  | [] => []
  | s :: rest => if s = ("") then dropLeadingEmpty rest else s :: rest

/-- A cell with its `combined_tag` erased; two cells agree on every other
field iff their erasures are equal. -/
def eraseTag (c : GridCell) : GridCell := { c with combined_tag := .str ("") }

/-- Pointwise relation between two levels: same keys, and each stored cell
unchanged except possibly its `combined_tag` (what a summarization pass does). -/
def TagRefines (lvl lvl' : Level) : Prop :=
  ∀ k : Coord, (alookup lvl' k).map eraseTag = (alookup lvl k).map eraseTag

/-- Two serialized cells with identical bounds (only `combined_tag` free). -/
def sameBounds (c c' : CellDoc) : Prop :=
  c'.min_lat = c.min_lat ∧ c'.max_lat = c.max_lat ∧
  c'.min_lon = c.min_lon ∧ c'.max_lon = c.max_lon

/-- Pointwise relation between two serialized levels: same keys, and each
stored cell with unchanged bounds (only `combined_tag` may differ). -/
def DocTagRefines (lvl lvl' : DocLevel) : Prop :=
  ∀ k : String,
    (alookup lvl' k).map (fun c => { c with combined_tag := CombinedTag.str ("") }) =
    (alookup lvl k).map (fun c => { c with combined_tag := CombinedTag.str ("") })

/-! ## Basic lemmas: association lists -/

theorem alookup_aset_self {κ ν : Type} [DecidableEq κ] (l : List (κ × ν)) (k : κ) (v : ν) :
    alookup (aset l k v) k = some v := by
  induction l with
  | nil => simp [aset, alookup]
  | cons kv rest ih =>
    obtain ⟨k0, v0⟩ := kv
    by_cases h : k = k0
    · simp [aset, alookup, h]
    · simp [aset, alookup, h, ih]

theorem alookup_aset_ne {κ ν : Type} [DecidableEq κ] (l : List (κ × ν)) (k k' : κ) (v : ν)
    (h : k' ≠ k) : alookup (aset l k v) k' = alookup l k' := by
  induction l with
  | nil => simp [aset, alookup, h]
  | cons kv rest ih =>
    obtain ⟨k0, v0⟩ := kv
    by_cases h0 : k = k0
    · subst h0
      simp [aset, alookup, h]
    · by_cases h1 : k' = k0 <;> simp [aset, alookup, h0, h1, ih]

theorem keys_aset_present {κ ν : Type} [DecidableEq κ] (l : List (κ × ν)) (k : κ) (v : ν)
    (h : (alookup l k).isSome) : (aset l k v).map Prod.fst = l.map Prod.fst := by
  induction l with
  | nil => simp [alookup] at h
  | cons kv rest ih =>
    obtain ⟨k0, v0⟩ := kv
    by_cases h0 : k = k0
    · simp [aset, h0]
    · simp only [alookup, if_neg (by simpa [eq_comm] using h0)] at h
      simp [aset, h0, ih h]

theorem aset_fresh_eq_append {κ ν : Type} [DecidableEq κ] (l : List (κ × ν)) (k : κ) (v : ν)
    (h : alookup l k = none) : aset l k v = l ++ [(k, v)] := by
  induction l with
  | nil => simp [aset]
  | cons kv rest ih =>
    obtain ⟨k0, v0⟩ := kv
    by_cases h0 : k = k0
    · simp [alookup, h0] at h
    · simp only [alookup, if_neg (by simpa [eq_comm] using Ne.symm (Ne.symm h0))] at h
      simp [aset, h0, ih h]

theorem alookup_amodify_self {κ ν : Type} [DecidableEq κ] (l : List (κ × ν)) (k : κ)
    (f : ν → ν) : alookup (amodify l k f) k = (alookup l k).map f := by
  induction l with
  | nil => simp [amodify, alookup]
  | cons kv rest ih =>
    obtain ⟨k0, v0⟩ := kv
    by_cases h : k = k0
    · simp [amodify, alookup, h]
    · simp [amodify, alookup, h, ih]

theorem alookup_amodify_ne {κ ν : Type} [DecidableEq κ] (l : List (κ × ν)) (k k' : κ)
    (f : ν → ν) (h : k' ≠ k) : alookup (amodify l k f) k' = alookup l k' := by
  induction l with
  | nil => simp [amodify]
  | cons kv rest ih =>
    obtain ⟨k0, v0⟩ := kv
    by_cases h0 : k = k0
    · subst h0
      simp [amodify, alookup, h]
    · by_cases h1 : k' = k0 <;> simp [amodify, alookup, h0, h1, ih]

theorem keys_amodify {κ ν : Type} [DecidableEq κ] (l : List (κ × ν)) (k : κ) (f : ν → ν) :
    (amodify l k f).map Prod.fst = l.map Prod.fst := by
  induction l with
  | nil => simp [amodify]
  | cons kv rest ih =>
    obtain ⟨k0, v0⟩ := kv
    by_cases h : k = k0 <;> simp [amodify, h, ih]

theorem alookup_isSome_iff {κ ν : Type} [DecidableEq κ] (l : List (κ × ν)) (k : κ) :
    (alookup l k).isSome ↔ k ∈ l.map Prod.fst := by
  induction l with
  | nil => simp [alookup]
  | cons kv rest ih =>
    obtain ⟨k0, v0⟩ := kv
    by_cases h : k = k0 <;> simp [alookup, h, ih]

theorem alookup_eq_none_iff {κ ν : Type} [DecidableEq κ] (l : List (κ × ν)) (k : κ) :
    alookup l k = none ↔ k ∉ l.map Prod.fst := by
  rw [← alookup_isSome_iff]
  cases alookup l k <;> simp

theorem mem_of_alookup_eq_some {κ ν : Type} [DecidableEq κ] {l : List (κ × ν)} {k : κ} {v : ν}
    (h : alookup l k = some v) : (k, v) ∈ l := by
  induction l with
  | nil => simp [alookup] at h
  | cons kv rest ih =>
    obtain ⟨k0, v0⟩ := kv
    by_cases h0 : k = k0
    · simp [alookup, h0] at h
      simp [h0, h]
    · simp only [alookup, if_neg h0] at h
      exact List.mem_cons_of_mem _ (ih h)

theorem alookup_eq_some_of_mem {κ ν : Type} [DecidableEq κ] {l : List (κ × ν)} {k : κ} {v : ν}
    (hnd : (l.map Prod.fst).Nodup) (h : (k, v) ∈ l) : alookup l k = some v := by
  induction l with
  | nil => simp at h
  | cons kv rest ih =>
    obtain ⟨k0, v0⟩ := kv
    simp only [List.map_cons, List.nodup_cons] at hnd
    rcases List.mem_cons.mp h with h1 | h1
    · rw [Prod.mk.injEq] at h1
      obtain ⟨rfl, rfl⟩ := h1
      simp [alookup]
    · have hk : k ≠ k0 := by
        rintro rfl
        exact hnd.1 (by simpa using List.mem_map_of_mem Prod.fst h1)
      simp [alookup, hk, ih hnd.2 h1]

theorem alookup_map_value {κ ν ν' : Type} [DecidableEq κ] (l : List (κ × ν)) (f : ν → ν')
    (k : κ) : alookup (l.map (fun kv => (kv.1, f kv.2))) k = (alookup l k).map f := by
  induction l with
  | nil => simp [alookup]
  | cons kv rest ih =>
    obtain ⟨k0, v0⟩ := kv
    by_cases h : k = k0 <;> simp [alookup, h, ih]

/-! ## Basic lemmas: listMin / listMax -/

theorem foldl_min_le_init {α : Type} [LinearOrder α] (xs : List α) (x : α) :
    xs.foldl min x ≤ x := by
  induction xs generalizing x with
  | nil => simp
  | cons a xs ih => exact le_trans (ih (min x a)) (min_le_left x a)

theorem foldl_min_le_mem {α : Type} [LinearOrder α] (xs : List α) (x : α) {y : α}
    (h : y ∈ xs) : xs.foldl min x ≤ y := by
  induction xs generalizing x with
  | nil => simp at h
  | cons a xs ih =>
    rcases List.mem_cons.mp h with rfl | h1
    · exact le_trans (foldl_min_le_init xs (min x y)) (min_le_right x y)
    · exact ih (min x a) h1

theorem foldl_min_mem {α : Type} [LinearOrder α] (xs : List α) (x : α) :
    xs.foldl min x ∈ x :: xs := by
  induction xs generalizing x with
  | nil => simp
  | cons a xs ih =>
    simp only [List.foldl_cons]
    rcases List.mem_cons.mp (ih (min x a)) with h | h
    · rcases min_choice x a with h1 | h1 <;> rw [h, h1] <;> simp
    · simp [h]

theorem listMin_le {α : Type} [Inhabited α] [LinearOrder α] {l : List α} {y : α}
    (h : y ∈ l) : listMin l ≤ y := by
  cases l with
  | nil => simp at h
  | cons x xs =>
    rcases List.mem_cons.mp h with rfl | h1
    · exact foldl_min_le_init xs y
    · exact foldl_min_le_mem xs x h1

theorem listMin_mem {α : Type} [Inhabited α] [LinearOrder α] {l : List α} (h : l ≠ []) :
    listMin l ∈ l := by
  cases l with
  | nil => exact absurd rfl h
  | cons x xs => exact foldl_min_mem xs x

theorem foldl_max_init_le {α : Type} [LinearOrder α] (xs : List α) (x : α) :
    x ≤ xs.foldl max x := by
  induction xs generalizing x with
  | nil => simp
  | cons a xs ih => exact le_trans (le_max_left x a) (ih (max x a))

theorem foldl_max_mem_le {α : Type} [LinearOrder α] (xs : List α) (x : α) {y : α}
    (h : y ∈ xs) : y ≤ xs.foldl max x := by
  induction xs generalizing x with
  | nil => simp at h
  | cons a xs ih =>
    rcases List.mem_cons.mp h with rfl | h1
    · exact le_trans (le_max_right x y) (foldl_max_init_le xs (max x y))
    · exact ih (max x a) h1

theorem foldl_max_mem {α : Type} [LinearOrder α] (xs : List α) (x : α) :
    xs.foldl max x ∈ x :: xs := by
  induction xs generalizing x with
  | nil => simp
  | cons a xs ih =>
    simp only [List.foldl_cons]
    rcases List.mem_cons.mp (ih (max x a)) with h | h
    · rcases max_choice x a with h1 | h1 <;> rw [h, h1] <;> simp
    · simp [h]

theorem le_listMax {α : Type} [Inhabited α] [LinearOrder α] {l : List α} {y : α}
    (h : y ∈ l) : y ≤ listMax l := by
  cases l with
  | nil => simp at h
  | cons x xs =>
    rcases List.mem_cons.mp h with rfl | h1
    · exact foldl_max_init_le xs y
    · exact foldl_max_mem_le xs x h1

theorem listMax_mem {α : Type} [Inhabited α] [LinearOrder α] {l : List α} (h : l ≠ []) :
    listMax l ∈ l := by
  cases l with
  | nil => exact absurd rfl h
  | cons x xs => exact foldl_max_mem xs x

theorem listMin_congr {α : Type} [Inhabited α] [LinearOrder α] {l₁ l₂ : List α}
    (h₁ : l₁ ≠ []) (h₂ : l₂ ≠ []) (h12 : ∀ x ∈ l₁, x ∈ l₂) (h21 : ∀ x ∈ l₂, x ∈ l₁) :
    listMin l₁ = listMin l₂ :=
  le_antisymm (listMin_le (h21 _ (listMin_mem h₂))) (listMin_le (h12 _ (listMin_mem h₁)))

theorem listMax_congr {α : Type} [Inhabited α] [LinearOrder α] {l₁ l₂ : List α}
    (h₁ : l₁ ≠ []) (h₂ : l₂ ≠ []) (h12 : ∀ x ∈ l₁, x ∈ l₂) (h21 : ∀ x ∈ l₂, x ∈ l₁) :
    listMax l₁ = listMax l₂ :=
  le_antisymm (le_listMax (h12 _ (listMax_mem h₁))) (le_listMax (h21 _ (listMax_mem h₂)))

/-! ## Basic lemmas: chunks -/

theorem chunks_nil {α : Type} (bs : ℕ) : chunks bs ([] : List α) = [] := by
  unfold chunks
  by_cases h : bs = 0
  · rw [if_pos h]
  · rw [if_neg h]
    have h2 : (bs - 1) / bs = 0 := Nat.div_eq_of_lt (by omega)
    simp [h2]

theorem chunks_cons_eq {α : Type} (bs : ℕ) (hbs : bs ≠ 0) (l : List α) (hl : l ≠ []) :
    chunks bs l = l.take bs :: chunks bs (l.drop bs) := by
  unfold chunks
  rw [if_neg hbs, if_neg hbs]
  have hlen : 1 ≤ l.length := by
    cases l with
    | nil => exact absurd rfl hl
    | cons a t => simp
  have hn : (l.length + bs - 1) / bs = (l.length - 1) / bs + 1 := by
    have h1 : l.length + bs - 1 = (l.length - 1) + bs := by omega
    rw [h1, Nat.add_div_right _ (Nat.pos_of_ne_zero hbs)]
  have hn' : ((l.drop bs).length + bs - 1) / bs = (l.length - 1) / bs := by
    rw [List.length_drop]
    by_cases hb : bs ≤ l.length
    · have h1 : l.length - bs + bs - 1 = l.length - 1 := by omega
      rw [h1]
    · have h1 : l.length - bs = 0 := by omega
      rw [h1]
      rw [Nat.div_eq_of_lt (by omega), Nat.div_eq_of_lt (by omega)]
  rw [hn, hn', List.range_succ_eq_map]
  simp only [List.map_cons, List.map_map, Nat.zero_mul, List.drop_zero]
  congr 1
  refine List.map_congr_left (fun i _ => ?_)
  simp only [Function.comp_apply, List.drop_drop, Nat.succ_mul]
  ring_nf

theorem chunks_flatten_aux {α : Type} (bs : ℕ) (hbs : bs ≠ 0) :
    ∀ n (l : List α), l.length ≤ n → (chunks bs l).flatten = l := by
  intro n
  induction n with
  | zero =>
    intro l hl
    rw [List.length_eq_zero.mp (Nat.le_zero.mp hl), chunks_nil]
    rfl
  | succ n ih =>
    intro l hl
    cases l with
    | nil => rw [chunks_nil]; rfl
    | cons a t =>
      rw [chunks_cons_eq bs hbs (a :: t) (by simp)]
      simp only [List.flatten_cons]
      rw [ih ((a :: t).drop bs) (by
        simp only [List.length_drop, List.length_cons] at hl ⊢
        omega)]
      exact List.take_append_drop bs (a :: t)

theorem chunks_flatten {α : Type} (bs : ℕ) (hbs : bs ≠ 0) (l : List α) :
    (chunks bs l).flatten = l :=
  chunks_flatten_aux bs hbs l.length l le_rfl

/-! ## Lemmas about the summarization passes -/

theorem tagRefines_refl (lvl : Level) : TagRefines lvl lvl := fun _ => rfl

theorem tagRefines_trans {a b c : Level} (h1 : TagRefines a b) (h2 : TagRefines b c) :
    TagRefines a c := fun k => (h2 k).trans (h1 k)

theorem applyStep_keys (s : Summaries) (acc : Level) (ikc : ℕ × (Coord × GridCell)) :
    (applyStep s acc ikc).map Prod.fst = acc.map Prod.fst := by
  unfold applyStep
  cases s (toString ikc.1) with
  | none => rfl
  | some t => exact keys_amodify acc ikc.2.1 _

theorem applyStep_refines (s : Summaries) (acc : Level) (ikc : ℕ × (Coord × GridCell)) :
    TagRefines acc (applyStep s acc ikc) := by
  unfold applyStep
  cases s (toString ikc.1) with
  | none => exact tagRefines_refl acc
  | some t =>
    intro k
    by_cases hk : k = ikc.2.1
    · subst hk
      rw [alookup_amodify_self]
      cases alookup acc ikc.2.1 <;> simp [eraseTag]
    · rw [alookup_amodify_ne _ _ _ _ hk]

theorem applyStep_lookup_ne (s : Summaries) (acc : Level) (ikc : ℕ × (Coord × GridCell))
    {k : Coord} (hk : k ≠ ikc.2.1) : alookup (applyStep s acc ikc) k = alookup acc k := by
  unfold applyStep
  cases s (toString ikc.1) with
  | none => rfl
  | some t => exact alookup_amodify_ne _ _ _ _ hk

theorem applyFold_keys (s : Summaries) (il : List (ℕ × (Coord × GridCell))) (lvl : Level) :
    (il.foldl (applyStep s) lvl).map Prod.fst = lvl.map Prod.fst := by
  induction il generalizing lvl with
  | nil => rfl
  | cons e il ih => rw [List.foldl_cons, ih, applyStep_keys]

theorem applyFold_refines (s : Summaries) (il : List (ℕ × (Coord × GridCell))) (lvl : Level) :
    TagRefines lvl (il.foldl (applyStep s) lvl) := by
  induction il generalizing lvl with
  | nil => exact tagRefines_refl lvl
  | cons e il ih =>
    exact tagRefines_trans (applyStep_refines s lvl e) (ih (applyStep s lvl e))

theorem applyFold_lookup_notmem (s : Summaries) (il : List (ℕ × (Coord × GridCell)))
    (lvl : Level) {k : Coord} (hk : ∀ e ∈ il, k ≠ e.2.1) :
    alookup (il.foldl (applyStep s) lvl) k = alookup lvl k := by
  induction il generalizing lvl with
  | nil => rfl
  | cons e il ih =>
    rw [List.foldl_cons,
      ih (applyStep s lvl e) (fun e' he' => hk e' (List.mem_cons_of_mem e he')),
      applyStep_lookup_ne s lvl e (hk e (List.mem_cons_self e il))]

theorem applySummaries_keys (s : Summaries) (batch : List (Coord × GridCell)) (lvl : Level) :
    (applySummaries s batch lvl).map Prod.fst = lvl.map Prod.fst :=
  applyFold_keys s batch.enum lvl

theorem applySummaries_refines (s : Summaries) (batch : List (Coord × GridCell)) (lvl : Level) :
    TagRefines lvl (applySummaries s batch lvl) :=
  applyFold_refines s batch.enum lvl

theorem applySummaries_lookup_notmem (s : Summaries) (batch : List (Coord × GridCell))
    (lvl : Level) {k : Coord} (hk : k ∉ batch.map Prod.fst) :
    alookup (applySummaries s batch lvl) k = alookup lvl k := by
  refine applyFold_lookup_notmem s batch.enum lvl (fun e he hke => hk ?_)
  have h2 : e.2 ∈ batch := List.enum_map_snd batch ▸ List.mem_map_of_mem Prod.snd he
  exact hke ▸ List.mem_map_of_mem Prod.fst h2

theorem cellPassBatch_keys (provider : Provider) (lvl : Level)
    (batch : List (Coord × GridCell)) :
    (cellPassBatch provider lvl batch).map Prod.fst = lvl.map Prod.fst := by
  unfold cellPassBatch
  cases provider (cellPassDescriptions batch) (-1) 1 with
  | error _ => rfl
  | ok s => exact applySummaries_keys s batch lvl

theorem cellPassBatch_refines (provider : Provider) (lvl : Level)
    (batch : List (Coord × GridCell)) :
    TagRefines lvl (cellPassBatch provider lvl batch) := by
  unfold cellPassBatch
  cases provider (cellPassDescriptions batch) (-1) 1 with
  | error _ => exact tagRefines_refl lvl
  | ok s => exact applySummaries_refines s batch lvl

theorem cellPassBatch_lookup_notmem (provider : Provider) (lvl : Level)
    (batch : List (Coord × GridCell)) {k : Coord} (hk : k ∉ batch.map Prod.fst) :
    alookup (cellPassBatch provider lvl batch) k = alookup lvl k := by
  unfold cellPassBatch
  cases provider (cellPassDescriptions batch) (-1) 1 with
  | error _ => rfl
  | ok s => exact applySummaries_lookup_notmem s batch lvl hk

theorem levelPassBatch_keys (provider : Provider) (level kernel_size : ℤ) (lvl : Level)
    (batch : List (Coord × GridCell)) :
    (levelPassBatch provider level kernel_size lvl batch).map Prod.fst = lvl.map Prod.fst := by
  unfold levelPassBatch
  cases provider (levelPassDescriptions batch) level kernel_size with
  | error _ => rfl
  | ok s => exact applySummaries_keys s batch lvl

theorem levelPassBatch_refines (provider : Provider) (level kernel_size : ℤ) (lvl : Level)
    (batch : List (Coord × GridCell)) :
    TagRefines lvl (levelPassBatch provider level kernel_size lvl batch) := by
  unfold levelPassBatch
  cases provider (levelPassDescriptions batch) level kernel_size with
  | error _ => exact tagRefines_refl lvl
  | ok s => exact applySummaries_refines s batch lvl

theorem levelPassBatch_lookup_notmem (provider : Provider) (level kernel_size : ℤ)
    (lvl : Level) (batch : List (Coord × GridCell)) {k : Coord}
    (hk : k ∉ batch.map Prod.fst) :
    alookup (levelPassBatch provider level kernel_size lvl batch) k = alookup lvl k := by
  unfold levelPassBatch
  cases provider (levelPassDescriptions batch) level kernel_size with
  | error _ => rfl
  | ok s => exact applySummaries_lookup_notmem s batch lvl hk

theorem chunksFold_keys_gen (step : Level → List (Coord × GridCell) → Level)
    (hkeys : ∀ lvl b, (step lvl b).map Prod.fst = lvl.map Prod.fst) :
    ∀ (cs : List (List (Coord × GridCell))) (lvl : Level),
      (cs.foldl step lvl).map Prod.fst = lvl.map Prod.fst := by
  intro cs
  induction cs with
  | nil => intro lvl; rfl
  | cons c rest ih => intro lvl; rw [List.foldl_cons, ih, hkeys]

theorem chunksFold_refines_gen (step : Level → List (Coord × GridCell) → Level)
    (href : ∀ lvl b, TagRefines lvl (step lvl b)) :
    ∀ (cs : List (List (Coord × GridCell))) (lvl : Level),
      TagRefines lvl (cs.foldl step lvl) := by
  intro cs
  induction cs with
  | nil => intro lvl; exact tagRefines_refl lvl
  | cons c rest ih =>
    intro lvl
    exact tagRefines_trans (href lvl c) (ih (step lvl c))

theorem chunksFold_lookup_notmem_gen (step : Level → List (Coord × GridCell) → Level)
    (k : Coord)
    (hstep : ∀ lvl batch, k ∉ batch.map Prod.fst → alookup (step lvl batch) k = alookup lvl k) :
    ∀ (cs : List (List (Coord × GridCell))) (lvl : Level),
      (∀ c ∈ cs, k ∉ c.map Prod.fst) →
      alookup (cs.foldl step lvl) k = alookup lvl k := by
  intro cs
  induction cs with
  | nil => intro lvl _; rfl
  | cons c rest ih =>
    intro lvl hc
    rw [List.foldl_cons, ih (step lvl c) (fun c' hc' => hc c' (List.mem_cons_of_mem c hc')),
      hstep lvl c (hc c (List.mem_cons_self c rest))]

theorem chunksFold_errorBatch_gen (step : Level → List (Coord × GridCell) → Level)
    (k : Coord) (B : List (Coord × GridCell))
    (hstep : ∀ lvl batch, k ∉ batch.map Prod.fst → alookup (step lvl batch) k = alookup lvl k)
    (hstepB : ∀ lvl, step lvl B = lvl) :
    ∀ (cs : List (List (Coord × GridCell))) (lvl : Level), B ∈ cs →
      List.Pairwise List.Disjoint (cs.map (List.map Prod.fst)) → k ∈ B.map Prod.fst →
      alookup (cs.foldl step lvl) k = alookup lvl k := by
  intro cs
  induction cs with
  | nil => intro lvl hB; simp at hB
  | cons c rest ih =>
    intro lvl hB hpw hkB
    rw [List.map_cons, List.pairwise_cons] at hpw
    rcases List.mem_cons.mp hB with rfl | hBr
    · rw [List.foldl_cons, hstepB lvl]
      refine chunksFold_lookup_notmem_gen step k hstep rest lvl (fun c' hc' hkc' => ?_)
      exact (hpw.1 (c'.map Prod.fst) (List.mem_map_of_mem (List.map Prod.fst) hc')) hkB hkc'
    · have hkc : k ∉ c.map Prod.fst := fun hkc =>
        (hpw.1 (B.map Prod.fst) (List.mem_map_of_mem (List.map Prod.fst) hBr)) hkc hkB
      rw [List.foldl_cons, ih (step lvl c) hBr hpw.2 hkB, hstep lvl c hkc]

theorem levelPassBatch_error (provider : Provider) (level kernel_size : ℤ) (lvl : Level)
    (batch : List (Coord × GridCell))
    (h : provider (levelPassDescriptions batch) level kernel_size = .error ()) :
    levelPassBatch provider level kernel_size lvl batch = lvl := by
  unfold levelPassBatch
  rw [h]

theorem cellPassBatch_error (provider : Provider) (lvl : Level)
    (batch : List (Coord × GridCell))
    (h : provider (cellPassDescriptions batch) (-1) 1 = .error ()) :
    cellPassBatch provider lvl batch = lvl := by
  unfold cellPassBatch
  rw [h]

theorem mem_of_mem_chunks {α : Type} {bs : ℕ} {l : List α} {c : List α} {x : α}
    (hc : c ∈ chunks bs l) (hx : x ∈ c) : x ∈ l := by
  cases bs with
  | zero => simp [chunks] at hc
  | succ b =>
    have hmem : x ∈ (chunks (b + 1) l).flatten := List.mem_flatten.mpr ⟨c, hc, hx⟩
    rwa [chunks_flatten (b + 1) (by omega) l] at hmem

theorem chunks_keys_pairwise_disjoint {bs : ℕ} {el : Level}
    (hnd : (el.map Prod.fst).Nodup) :
    List.Pairwise List.Disjoint ((chunks bs el).map (List.map Prod.fst)) := by
  cases bs with
  | zero => simp [chunks]
  | succ b =>
    have hflat : ((chunks (b + 1) el).map (List.map Prod.fst)).flatten.Nodup := by
      rw [← List.map_flatten, chunks_flatten (b + 1) (by omega) el]
      exact hnd
    exact (List.nodup_flatten.mp hflat).2

theorem batch_summarize_level_keys (provider : Provider) (lvl : Level) (level : ℤ)
    (bs : ℕ) : (batch_summarize_level provider lvl level bs).map Prod.fst = lvl.map Prod.fst := by
  unfold batch_summarize_level
  by_cases h : (lvl.filter (fun kc => has_valid_tag kc.2.combined_tag)).isEmpty = true
  · rw [if_pos h]
  · rw [if_neg h]
    exact chunksFold_keys_gen _ (fun l b => levelPassBatch_keys provider level _ l b) _ lvl

theorem batch_summarize_level_refines (provider : Provider) (lvl : Level) (level : ℤ)
    (bs : ℕ) : TagRefines lvl (batch_summarize_level provider lvl level bs) := by
  unfold batch_summarize_level
  by_cases h : (lvl.filter (fun kc => has_valid_tag kc.2.combined_tag)).isEmpty = true
  · rw [if_pos h]; exact tagRefines_refl lvl
  · rw [if_neg h]
    exact chunksFold_refines_gen _ (fun l b => levelPassBatch_refines provider level _ l b) _ lvl

theorem summarize_cell_tags_keys (provider : Provider) (grid : Level) (bs : ℕ) :
    (summarize_cell_tags provider grid bs).map Prod.fst = grid.map Prod.fst := by
  unfold summarize_cell_tags
  by_cases h : (grid.filter (fun kc => has_multiple_tags kc.2.combined_tag)).isEmpty = true
  · rw [if_pos h]
  · rw [if_neg h]
    exact chunksFold_keys_gen _ (fun l b => cellPassBatch_keys provider l b) _ grid

theorem summarize_cell_tags_refines (provider : Provider) (grid : Level) (bs : ℕ) :
    TagRefines grid (summarize_cell_tags provider grid bs) := by
  unfold summarize_cell_tags
  by_cases h : (grid.filter (fun kc => has_multiple_tags kc.2.combined_tag)).isEmpty = true
  · rw [if_pos h]; exact tagRefines_refl grid
  · rw [if_neg h]
    exact chunksFold_refines_gen _ (fun l b => cellPassBatch_refines provider l b) _ grid

theorem eligible_keys_nodup {lvl : Level} (p : Coord × GridCell → Bool)
    (hnd : (lvl.map Prod.fst).Nodup) : ((lvl.filter p).map Prod.fst).Nodup :=
  ((List.filter_sublist lvl).map Prod.fst).nodup hnd

/-- C3 (amended): in the build passes — the per-level pass and the cell-level
pass — a provider exception on one batch is caught locally: the pass runs to
completion (it is a total function) and every cell of the failed batch keeps
its previous state, in particular its previous combined text.  (In
`update_with_new_tag` there is no such handler; a provider failure there
propagates to the caller, see the counterexample.) -/
theorem c3_build_provider_failure_caught :
    (∀ (provider : Provider) (lvl : Level) (level : ℤ) (bs : ℕ)
        (B : List (Coord × GridCell)) (k : Coord) (c : GridCell),
        (lvl.map Prod.fst).Nodup →
        B ∈ chunks bs (lvl.filter (fun kc => has_valid_tag kc.2.combined_tag)) →
        provider (levelPassDescriptions B) level (levelKernelSize level) = .error () →
        (k, c) ∈ B →
        alookup (batch_summarize_level provider lvl level bs) k = alookup lvl k) ∧
    (∀ (provider : Provider) (grid : Level) (bs : ℕ)
        (B : List (Coord × GridCell)) (k : Coord) (c : GridCell),
        (grid.map Prod.fst).Nodup →
        B ∈ chunks bs (grid.filter (fun kc => has_multiple_tags kc.2.combined_tag)) →
        provider (cellPassDescriptions B) (-1) 1 = .error () →
        (k, c) ∈ B →
        alookup (summarize_cell_tags provider grid bs) k = alookup grid k) := by
  constructor
  · intro provider lvl level bs B k c hnd hB herr hkc
    unfold batch_summarize_level
    have hne : ¬((lvl.filter (fun kc => has_valid_tag kc.2.combined_tag)).isEmpty = true) := by
      intro hemp
      rw [List.isEmpty_iff.mp hemp, chunks_nil] at hB
      simp at hB
    rw [if_neg hne]
    refine chunksFold_errorBatch_gen _ k B
      (fun l b hk => levelPassBatch_lookup_notmem provider level _ l b hk)
      (fun l => levelPassBatch_error provider level _ l B herr) _ lvl hB
      (chunks_keys_pairwise_disjoint (eligible_keys_nodup _ hnd))
      (List.mem_map_of_mem Prod.fst hkc)
  · intro provider grid bs B k c hnd hB herr hkc
    unfold summarize_cell_tags
    have hne : ¬((grid.filter (fun kc => has_multiple_tags kc.2.combined_tag)).isEmpty = true) := by
      intro hemp
      rw [List.isEmpty_iff.mp hemp, chunks_nil] at hB
      simp at hB
    rw [if_neg hne]
    refine chunksFold_errorBatch_gen _ k B
      (fun l b hk => cellPassBatch_lookup_notmem provider l b hk)
      (fun l => cellPassBatch_error provider l B herr) _ grid hB
      (chunks_keys_pairwise_disjoint (eligible_keys_nodup _ hnd))
      (List.mem_map_of_mem Prod.fst hkc)

/-- Witness for C3: a concrete one-cell level whose only batch fails; the cell
keeps its previous combined text `"x; y"`. -/
theorem c3_build_provider_failure_caught_witness :
    ((xyLevel.map Prod.fst).Nodup ∧
      [((0, 0), xyCell)] ∈
        chunks 30 (xyLevel.filter (fun kc => has_valid_tag kc.2.combined_tag)) ∧
      provFail (levelPassDescriptions [((0, 0), xyCell)]) 0 (levelKernelSize 0) = .error () ∧
      ((0, 0), xyCell) ∈ [((0, 0), xyCell)]) ∧
    alookup (batch_summarize_level provFail xyLevel 0 30) (0, 0) = alookup xyLevel (0, 0) :=
  ⟨⟨by with_unfolding_all decide, by with_unfolding_all decide, rfl,
      by with_unfolding_all decide⟩,
    c3_build_provider_failure_caught.1 provFail xyLevel 0 30 [((0, 0), xyCell)] (0, 0) xyCell
      (by with_unfolding_all decide) (by with_unfolding_all decide) rfl
      (by with_unfolding_all decide)⟩

/-- Counterexample for C3 as stated: in an update, a provider failure on the
single re-summarization call is NOT caught — `update_with_new_tag` raises to
its caller (the merged text `"a; t"` has two fragments, so the unguarded
provider call at lines 528-534 runs and its exception propagates). -/
theorem c3_update_provider_failure_propagates :
    update_with_new_tag provFail (1/2) (1/2) ("t") docD = .error () := by
  with_unfolding_all rfl

/-- C5 (amended): in the cell-level pass (`summarize_cell_tags`) a cell whose
combined text contains no `';'` character is never selected into any batch, so
no provider ever sees or changes it — for every provider the cell passes
through completely unchanged.  (The bare `';'` check of `_has_multiple_tags`,
not the two-character `"; "` separator; and the per-level pass
`batch_summarize_level` does NOT behave this way — it sends every cell with
non-blank text to the provider, see the counterexample.) -/
theorem c5_cell_pass_single_fragment_unchanged :
    ∀ (provider : Provider) (grid : Level) (bs : ℕ) (k : Coord) (c : GridCell),
      (grid.map Prod.fst).Nodup →
      alookup grid k = some c →
      has_multiple_tags c.combined_tag = false →
      alookup (summarize_cell_tags provider grid bs) k = some c := by
  intro provider grid bs k c hnd hkc hmult
  have hkel : k ∉ (grid.filter (fun kc => has_multiple_tags kc.2.combined_tag)).map Prod.fst := by
    intro hk
    rcases List.mem_map.mp hk with ⟨kc, hkcf, hfst⟩
    have hmem := List.mem_filter.mp hkcf
    have : alookup grid k = some kc.2 := by
      refine alookup_eq_some_of_mem hnd ?_
      have : kc = (k, kc.2) := by
        rw [← hfst]
      rw [← this]
      exact hmem.1
    rw [hkc] at this
    rw [show kc.2 = c from (Option.some.injEq .. ▸ this.symm)] at hmem
    rw [hmult] at hmem
    simp at hmem
  unfold summarize_cell_tags
  by_cases hemp : (grid.filter (fun kc => has_multiple_tags kc.2.combined_tag)).isEmpty = true
  · rw [if_pos hemp]
    exact hkc
  · rw [if_neg hemp]
    rw [chunksFold_lookup_notmem_gen _ k
      (fun l b hk => cellPassBatch_lookup_notmem provider l b hk) _ grid
      (fun ch hch hkch => hkel (by
        rcases List.mem_map.mp hkch with ⟨kc, hkcch, hfst⟩
        exact hfst ▸ List.mem_map_of_mem Prod.fst (mem_of_mem_chunks hch hkcch)))]
    exact hkc

/-- Witness for C5: a concrete single-fragment cell (`"park"`), a provider that
would answer `"CHANGED"`: the cell-level pass still leaves the cell untouched. -/
theorem c5_cell_pass_single_fragment_unchanged_witness :
    ((parkLevel.map Prod.fst).Nodup ∧
      alookup parkLevel (0, 0) = some parkCell ∧
      has_multiple_tags parkCell.combined_tag = false) ∧
    alookup (summarize_cell_tags (provZero (.str ("CHANGED"))) parkLevel 30) (0, 0) =
      some parkCell :=
  ⟨⟨by with_unfolding_all decide, by with_unfolding_all decide, by with_unfolding_all decide⟩,
    c5_cell_pass_single_fragment_unchanged (provZero (.str ("CHANGED"))) parkLevel 30 (0, 0)
      parkCell (by with_unfolding_all decide) (by with_unfolding_all decide)
      (by with_unfolding_all decide)⟩

/-- Counterexample for C5 as stated: in the per-level pass
(`batch_summarize_level`, a summarization pass over a level, including level
0), the single-fragment cell `"park"` (no `"; "` separator, not even a bare
`';'`) IS included in a provider call and its text does not pass through
unchanged: a provider answering ordinal 0 rewrites it to `"CHANGED"`. -/
theorem c5_level_pass_rewrites_single_fragment :
    (("park").splitOn ("; ")).length = 1 ∧
    alookup parkLevel (0, 0) = some parkCell ∧
    alookup (batch_summarize_level (provZero (.str ("CHANGED"))) parkLevel 0 30) (0, 0) =
      some { parkCell with combined_tag := .str ("CHANGED") } := by
  refine ⟨by with_unfolding_all decide, by with_unfolding_all decide, ?_⟩
  with_unfolding_all decide

/-! ## Lemmas about the base grid (claims C4 and C9) -/

theorem string_eq_empty_of_length_zero {s : String} (h : s.length = 0) : s = ("") := by
  cases s with
  | mk data =>
    cases data with
    | nil => rfl
    | cons c cs => simp [String.length] at h

theorem sepJoin_cons_ne_empty (s : String) (rest : List String) (hs : s ≠ ("")) :
    sepJoin (s :: rest) ≠ ("") := by
  cases rest with
  | nil => exact hs
  | cons r rest' =>
    intro h
    have hsj : sepJoin (s :: r :: rest') = s ++ ("; ") ++ sepJoin (r :: rest') := rfl
    rw [hsj] at h
    have hlen := congrArg String.length h
    rw [String.length_append, String.length_append] at hlen
    have hz : ("" : String).length = 0 := rfl
    have hsep : ("; " : String).length = 2 := rfl
    rw [hz, hsep] at hlen
    exact hs (string_eq_empty_of_length_zero (by omega))

theorem dropLeadingEmpty_head_ne {l : List String} {s : String} {rest : List String}
    (h : dropLeadingEmpty l = s :: rest) : s ≠ ("") := by
  induction l with
  | nil => simp [dropLeadingEmpty] at h
  | cons a t ih =>
    unfold dropLeadingEmpty at h
    by_cases ha : a = ("")
    · rw [if_pos ha] at h
      exact ih h
    · rw [if_neg ha] at h
      rw [show s = a from (List.cons.injEq .. ▸ h.symm).1]
      exact ha

theorem dropLeadingEmpty_cons (s : String) (x : List String) :
    dropLeadingEmpty (s :: x) = if s = ("") then dropLeadingEmpty x else s :: x := rfl

theorem dropLeadingEmpty_append (l m : List String) :
    dropLeadingEmpty (l ++ m) =
      if dropLeadingEmpty l = [] then dropLeadingEmpty m else dropLeadingEmpty l ++ m := by
  induction l with
  | nil => simp [dropLeadingEmpty]
  | cons a t ih =>
    simp only [List.cons_append, dropLeadingEmpty_cons]
    by_cases ha : a = ("")
    · rw [if_pos ha, if_pos ha, ih]
    · rw [if_neg ha, if_neg ha, if_neg (by simp)]
      simp

theorem sepJoin_append_singleton (l : List String) (t : String) (hl : l ≠ []) :
    sepJoin (l ++ [t]) = sepJoin l ++ ("; ") ++ t := by
  induction l with
  | nil => exact absurd rfl hl
  | cons s rest ih =>
    cases rest with
    | nil => rfl
    | cons r rest' =>
      have h1 : sepJoin ((s :: r :: rest') ++ [t]) =
          s ++ ("; ") ++ sepJoin ((r :: rest') ++ [t]) := rfl
      rw [h1, ih (by simp)]
      have h2 : sepJoin (s :: r :: rest') = s ++ ("; ") ++ sepJoin (r :: rest') := rfl
      rw [h2]
      simp [String.append_assoc]

theorem joinDrop_append_singleton (l : List String) (t : String) :
    sepJoin (dropLeadingEmpty (l ++ [t])) =
      if sepJoin (dropLeadingEmpty l) = ("") then t
      else sepJoin (dropLeadingEmpty l) ++ ("; ") ++ t := by
  rw [dropLeadingEmpty_append]
  cases h : dropLeadingEmpty l with
  | nil =>
    rw [if_pos rfl, if_pos (show sepJoin [] = ("") from rfl), dropLeadingEmpty_cons]
    by_cases ht : t = ("")
    · rw [if_pos ht]
      exact ht.symm ▸ rfl
    · rw [if_neg ht]
      rfl
  | cons s rest =>
    have hs : s ≠ ("") := dropLeadingEmpty_head_ne h
    rw [if_neg (by simp), if_neg (sepJoin_cons_ne_empty s rest hs)]
    exact sepJoin_append_singleton (s :: rest) t (by simp)

theorem bucketTexts_append_singleton (tags : List Tag) (b : Boundaries) (delta : ℚ)
    (t : Tag) (k : Coord) :
    bucketTexts (tags ++ [t]) b delta k =
      bucketTexts tags b delta k ++ (if tagKey b delta t = k then [t.text] else []) := by
  unfold bucketTexts
  rw [List.filterMap_append]
  congr 1
  by_cases h : tagKey b delta t = k
  · rw [if_pos h]
    simp [List.filterMap, h]
  · rw [if_neg h]
    simp [List.filterMap, h]

theorem placeTag_lookup_ne (b : Boundaries) (delta : ℚ) (g : Level) (t : Tag) (k : Coord)
    (hk : k ≠ tagKey b delta t) : alookup (placeTag b delta g t) k = alookup g k := by
  unfold placeTag
  rw [alookup_amodify_ne _ _ _ _ hk]
  by_cases hgkt : (alookup g (tagKey b delta t)).isSome = true
  · rw [if_pos hgkt]
  · rw [if_neg hgkt]
    exact alookup_aset_ne g _ k _ hk

theorem placeTag_lookup_self (b : Boundaries) (delta : ℚ) (g : Level) (t : Tag) :
    alookup (placeTag b delta g t) (tagKey b delta t) =
      some (match alookup g (tagKey b delta t) with
            | some w => { w with combined_tag := appendTagText w.combined_tag t.text }
            | none =>
              { baseCell b delta (tagKey b delta t).1 (tagKey b delta t).2 with
                combined_tag := appendTagText (CombinedTag.str ("")) t.text }) := by
  unfold placeTag
  rw [alookup_amodify_self]
  by_cases hs : (alookup g (tagKey b delta t)).isSome = true
  · obtain ⟨w, hw⟩ := Option.isSome_iff_exists.mp hs
    rw [if_pos hs, hw]
    rfl
  · have hnone : alookup g (tagKey b delta t) = none :=
      Option.not_isSome_iff_eq_none.mp (by simpa using hs)
    rw [if_neg hs, hnone, alookup_aset_self]
    rfl

/-- The shape of every cell of the (pre-normalization) base grid: created from
the grid rectangle of its key, with text the truthiness-mediated fold of the
texts bucketed there. -/
theorem base_fold_lookup (b : Boundaries) (delta : ℚ) (tags : List Tag) (k : Coord) :
    (alookup (tags.foldl (placeTag b delta) []) k = none ↔ bucketTexts tags b delta k = []) ∧
    (∀ cell, alookup (tags.foldl (placeTag b delta) []) k = some cell →
      cell = { baseCell b delta k.1 k.2 with
               combined_tag := .str (sepJoin (dropLeadingEmpty (bucketTexts tags b delta k))) }) := by
  induction tags using List.reverseRecOn with
  | nil =>
    constructor
    · simp [alookup, bucketTexts, List.filterMap]
    · intro cell h
      simp [alookup] at h
  | append_singleton l t ih =>
    rw [List.foldl_append, List.foldl_cons, List.foldl_nil, bucketTexts_append_singleton]
    by_cases hk : tagKey b delta t = k
    · rw [if_pos hk]
      subst hk
      rw [placeTag_lookup_self]
      constructor
      · constructor
        · intro hnone
          simp at hnone
        · intro habs
          have h2 := List.append_eq_nil.mp habs
          simp at h2
      · intro cell hcell
        rw [Option.some.injEq] at hcell
        cases hgkt : alookup (l.foldl (placeTag b delta) []) (tagKey b delta t) with
        | some w =>
          rw [hgkt] at hcell
          have hwshape := ih.2 w hgkt
          have hjoin := joinDrop_append_singleton (bucketTexts l b delta (tagKey b delta t)) t.text
          rw [← hcell, hwshape]
          simp only [appendTagText]
          rw [hjoin]
          by_cases hj : sepJoin (dropLeadingEmpty (bucketTexts l b delta (tagKey b delta t))) = ("")
          · rw [if_pos hj, hj, if_neg (by simp)]
          · rw [if_neg hj, if_pos hj]
        | none =>
          rw [hgkt] at hcell
          have hbt : bucketTexts l b delta (tagKey b delta t) = [] := ih.1.mp hgkt
          rw [← hcell, hbt]
          have hsj : sepJoin (dropLeadingEmpty (([] : List String) ++ [t.text])) = t.text := by
            rw [List.nil_append, dropLeadingEmpty_cons]
            by_cases ht : t.text = ("")
            · rw [if_pos ht]
              exact ht.symm
            · rw [if_neg ht]
              rfl
          rw [hsj]
          show ({ baseCell b delta (tagKey b delta t).1 (tagKey b delta t).2 with
                  combined_tag := appendTagText (CombinedTag.str ("")) t.text }) =
            { baseCell b delta (tagKey b delta t).1 (tagKey b delta t).2 with
              combined_tag := CombinedTag.str t.text }
          rfl
    · rw [if_neg hk, List.append_nil, placeTag_lookup_ne b delta _ t k (fun h => hk h.symm)]
      exact ih

theorem normalizeLevel_cons (kc : Coord × GridCell) (rest : Level) :
    normalizeLevel (kc :: rest) =
      (kc :: rest).map (fun e => (e.1,
        { e.2 with x := e.2.x - listMin ((kc :: rest).map (fun e2 => e2.2.x)),
                   y := e.2.y - listMin ((kc :: rest).map (fun e2 => e2.2.y)) })) := rfl

theorem normalizeLevel_keys (lvl : Level) :
    (normalizeLevel lvl).map Prod.fst = lvl.map Prod.fst := by
  cases lvl with
  | nil => rfl
  | cons kc rest =>
    rw [normalizeLevel_cons, List.map_map]
    rfl

theorem normalizeLevel_lookup (lvl : Level) :
    ∃ dx dy : ℤ, ∀ k, alookup (normalizeLevel lvl) k =
      (alookup lvl k).map (fun c => { c with x := c.x - dx, y := c.y - dy }) := by
  cases lvl with
  | nil => exact ⟨0, 0, fun k => rfl⟩
  | cons kc rest =>
    refine ⟨listMin ((kc :: rest).map (fun e => e.2.x)),
      listMin ((kc :: rest).map (fun e => e.2.y)), fun k => ?_⟩
    rw [normalizeLevel_cons]
    exact alookup_map_value (kc :: rest)
      (fun c => { c with
        x := c.x - listMin ((kc :: rest).map (fun e2 : Coord × GridCell => e2.2.x)),
        y := c.y - listMin ((kc :: rest).map (fun e2 : Coord × GridCell => e2.2.y)) }) k

/-- Shape of every cell of the finished base grid (after normalization):
its `combined_tag`, bounds, center and level are those of the bucket
rectangle; only `x`/`y` are shifted by the normalization. -/
theorem create_base_grid_lookup (tags : List Tag) (b : Boundaries) (delta : ℚ) (k : Coord) :
    (alookup (create_base_grid tags b delta) k = none ↔ bucketTexts tags b delta k = []) ∧
    (∀ cell, alookup (create_base_grid tags b delta) k = some cell →
      cell.combined_tag = .str (sepJoin (dropLeadingEmpty (bucketTexts tags b delta k))) ∧
      cell.min_lat = b.min_lat + (k.1 : ℚ) * delta ∧
      cell.max_lat = b.min_lat + ((k.1 : ℚ) + 1) * delta ∧
      cell.min_lon = b.min_lon + (k.2 : ℚ) * delta ∧
      cell.max_lon = b.min_lon + ((k.2 : ℚ) + 1) * delta ∧
      cell.lat = b.min_lat + ((k.1 : ℚ) + 1/2) * delta ∧
      cell.lon = b.min_lon + ((k.2 : ℚ) + 1/2) * delta ∧
      cell.level = 0 ∧ cell.kernel_size = 1) := by
  obtain ⟨dx, dy, hnorm⟩ := normalizeLevel_lookup (tags.foldl (placeTag b delta) [])
  have hbase := base_fold_lookup b delta tags k
  constructor
  · rw [show create_base_grid tags b delta =
        normalizeLevel (tags.foldl (placeTag b delta) []) from rfl, hnorm k]
    rw [← hbase.1]
    cases alookup (tags.foldl (placeTag b delta) []) k with
    | none => exact Iff.rfl
    | some c =>
      constructor
      · intro h
        exact Option.noConfusion h
      · intro h
        exact Option.noConfusion h
  · intro cell hcell
    rw [show create_base_grid tags b delta =
        normalizeLevel (tags.foldl (placeTag b delta) []) from rfl, hnorm k] at hcell
    cases hfold : alookup (tags.foldl (placeTag b delta) []) k with
    | none => exact Option.noConfusion (hfold ▸ hcell)
    | some cell0 =>
      rw [hfold] at hcell
      have hcell2 : cell0.combined_tag = cell.combined_tag ∧
          cell0.min_lat = cell.min_lat ∧ cell0.max_lat = cell.max_lat ∧
          cell0.min_lon = cell.min_lon ∧ cell0.max_lon = cell.max_lon ∧
          cell0.lat = cell.lat ∧ cell0.lon = cell.lon ∧
          cell0.level = cell.level ∧ cell0.kernel_size = cell.kernel_size := by
        have h2 := Option.some.inj hcell
        rw [← h2]
        exact ⟨rfl, rfl, rfl, rfl, rfl, rfl, rfl, rfl, rfl⟩
      have hshape := hbase.2 cell0 hfold
      obtain ⟨e1, e2, e3, e4, e5, e6, e7, e8, e9⟩ := hcell2
      rw [← e1, ← e2, ← e3, ← e4, ← e5, ← e6, ← e7, ← e8, ← e9, hshape]
      exact ⟨rfl, rfl, rfl, rfl, rfl, rfl, rfl, rfl, rfl⟩

/-! ## Lemmas about `pyInt` (Python `int()` truncation) versus `floor` -/

theorem pyInt_eq_floor_of_nonneg {q : ℚ} (h : 0 ≤ q) : pyInt q = ⌊q⌋ := by
  unfold pyInt
  rw [Int.tdiv_eq_ediv (Rat.num_nonneg.mpr h) (Int.natCast_nonneg _), Rat.floor_def]

theorem pyInt_neg (q : ℚ) : pyInt (-q) = -pyInt q := by
  unfold pyInt
  rw [Rat.neg_num, show (-q).den = q.den from rfl, Int.neg_tdiv]

theorem pyInt_eq_neg_floor_neg_of_nonpos {q : ℚ} (h : q ≤ 0) : pyInt q = -⌊-q⌋ := by
  rw [show q = -(-q) from (neg_neg q).symm, pyInt_neg,
    pyInt_eq_floor_of_nonneg (by linarith), neg_neg]

/-- C4 (amended): the level-0 grid index is Python `int()` — truncation toward
zero — of `(coord - min_coord) / delta`, not its floor.  Every tag is placed at
the key given by that truncation; the truncation agrees with
`floor((coord - min_coord)/delta)` whenever the coordinate is at or above the
minimum boundary, but for a coordinate strictly below the minimum it is
`-⌊-(coord - min_coord)/delta⌋` (rounding toward zero), which differs from the
floor whenever the quotient is not an integer. -/
theorem c4_grid_index_is_truncation :
    ∀ (tags : List Tag) (b : Boundaries) (delta : ℚ) (t : Tag), t ∈ tags → 0 < delta →
      (tagKey b delta t ∈ (create_base_grid tags b delta).map Prod.fst) ∧
      (∀ coord min_coord : ℚ, min_coord ≤ coord →
        gridIndex coord min_coord delta = ⌊(coord - min_coord) / delta⌋) ∧
      (∀ coord min_coord : ℚ, coord < min_coord →
        gridIndex coord min_coord delta = -⌊-((coord - min_coord) / delta)⌋) := by
  intro tags b delta t ht hdelta
  refine ⟨?_, ?_, ?_⟩
  · have hbucket : bucketTexts tags b delta (tagKey b delta t) ≠ [] := by
      intro habs
      have hmem : t.text ∈ bucketTexts tags b delta (tagKey b delta t) :=
        List.mem_filterMap.mpr ⟨t, ht, by rw [if_pos rfl]⟩
      rw [habs] at hmem
      simp at hmem
    have hlook := (create_base_grid_lookup tags b delta (tagKey b delta t)).1
    rw [← alookup_isSome_iff]
    cases hcase : alookup (create_base_grid tags b delta) (tagKey b delta t) with
    | none => exact absurd (hlook.mp hcase) hbucket
    | some cell => rfl
  · intro coord min_coord hmin
    exact pyInt_eq_floor_of_nonneg
      (div_nonneg (by linarith) (le_of_lt hdelta))
  · intro coord min_coord hlt
    exact pyInt_eq_neg_floor_neg_of_nonpos
      (div_nonpos_of_nonpos_of_nonneg (by linarith) (le_of_lt hdelta))

/-- Witness for C4: the below-minimum tag of `tagsBelow` is placed at the
truncated index pair `(0, 0)` of the unit boundary grid. -/
theorem c4_grid_index_is_truncation_witness :
    ({ lat := -1/2, lon := 1/2, text := ("a"), votes := 1 } ∈ tagsBelow ∧ (0 : ℚ) < 1) ∧
    (tagKey unitBoundary 1 { lat := -1/2, lon := 1/2, text := ("a"), votes := 1 } ∈
      (create_base_grid tagsBelow unitBoundary 1).map Prod.fst) :=
  ⟨⟨by with_unfolding_all decide, by with_unfolding_all decide⟩,
    (c4_grid_index_is_truncation tagsBelow unitBoundary 1
      { lat := -1/2, lon := 1/2, text := ("a"), votes := 1 }
      (by with_unfolding_all decide) (by with_unfolding_all decide)).1⟩

/-- Counterexample for C4 as stated: a tag `1/2` of a cell below the minimum
boundary is bucketed at index `0` (truncation toward zero), while
`floor((coord - min)/delta) = -1`: the computed index is NOT the floor, hence
not "the correct negative integer". -/
theorem c4_below_minimum_index_is_not_floor :
    (create_base_grid tagsBelow unitBoundary 1).map Prod.fst = [(0, 0)] ∧
    gridIndex (-1/2) 0 1 = 0 ∧
    ⌊(((-1/2 : ℚ)) - 0) / 1⌋ = -1 := by
  refine ⟨by with_unfolding_all decide, by with_unfolding_all decide, ?_⟩
  norm_num

/-- C9 (amended): a level-0 cell exists exactly for the non-empty buckets (no
cell is ever materialized for an empty bucket), its rectangle and center are
those of its grid coordinate (fixed by the first tag that created it), and its
combined text is the `"; "`-join of the texts of the tags bucketed there in
input-list order — after dropping the longest leading run of EMPTY texts,
which the source's truthiness test `if grid[...].combined_tag:` silently
swallows (for tags with non-empty texts this is exactly the plain join). -/
theorem c9_base_grid_joins_bucket_texts :
    ∀ (tags : List Tag) (b : Boundaries) (delta : ℚ) (k : Coord),
      (alookup (create_base_grid tags b delta) k = none ↔ bucketTexts tags b delta k = []) ∧
      (∀ cell, alookup (create_base_grid tags b delta) k = some cell →
        cell.combined_tag =
          .str (sepJoin (dropLeadingEmpty (bucketTexts tags b delta k))) ∧
        cell.min_lat = b.min_lat + (k.1 : ℚ) * delta ∧
        cell.max_lat = b.min_lat + ((k.1 : ℚ) + 1) * delta ∧
        cell.min_lon = b.min_lon + (k.2 : ℚ) * delta ∧
        cell.max_lon = b.min_lon + ((k.2 : ℚ) + 1) * delta) :=
  fun tags b delta k =>
    ⟨(create_base_grid_lookup tags b delta k).1,
     fun cell hcell =>
       ⟨((create_base_grid_lookup tags b delta k).2 cell hcell).1,
        ((create_base_grid_lookup tags b delta k).2 cell hcell).2.1,
        ((create_base_grid_lookup tags b delta k).2 cell hcell).2.2.1,
        ((create_base_grid_lookup tags b delta k).2 cell hcell).2.2.2.1,
        ((create_base_grid_lookup tags b delta k).2 cell hcell).2.2.2.2.1⟩⟩

/-- Witness for C9: two same-bucket tags `"a"`, `"b"` produce one cell with
combined text `"a; b"` and the unit-square bounds of bucket `(0, 0)`. -/
theorem c9_base_grid_joins_bucket_texts_witness :
    (alookup (create_base_grid tagsAB unitBoundary 1) (0, 0) =
      some { lat := 1/2, lon := 1/2, combined_tag := .str ("a; b"), level := 0,
             kernel_size := 1, min_lat := 0, max_lat := 1, min_lon := 0, max_lon := 1,
             x := 0, y := 0 }) ∧
    ({ lat := 1/2, lon := 1/2, combined_tag := .str ("a; b"), level := 0,
       kernel_size := 1, min_lat := 0, max_lat := 1, min_lon := 0, max_lon := 1,
       x := 0, y := 0 } : GridCell).combined_tag =
      .str (sepJoin (dropLeadingEmpty (bucketTexts tagsAB unitBoundary 1 (0, 0)))) :=
  ⟨by with_unfolding_all decide,
    ((c9_base_grid_joins_bucket_texts tagsAB unitBoundary 1 (0, 0)).2 _
      (by with_unfolding_all decide)).1⟩

/-- Counterexample for C9 as stated: with a first tag of empty text the stored
combined text is `"b"`, but the plain `"; "`-join of the bucket's texts in
input order is `"; b"` — the claim's unconditional join equality fails. -/
theorem c9_empty_first_text_breaks_plain_join :
    (alookup (create_base_grid tagsEmptyFirst unitBoundary 1) (0, 0)).map
        (fun c => get_tag_text c.combined_tag) = some ("b") ∧
    bucketTexts tagsEmptyFirst unitBoundary 1 (0, 0) = [(""), ("b")] ∧
    sepJoin [(""), ("b")] = ("; b") ∧
    ("b") ≠ ("; b") := by
  refine ⟨by with_unfolding_all decide, by with_unfolding_all decide, rfl,
    by with_unfolding_all decide⟩

/-! ## Lemmas for the JSON round trip (claim C8) -/

theorem list_mapM_option_id {α γ : Type} (enc : α → γ) (dec : γ → Option α) (l : List α)
    (h : ∀ a ∈ l, dec (enc a) = some a) : (l.map enc).mapM dec = some l := by
  induction l with
  | nil => rfl
  | cons a rest ih =>
    rw [List.map_cons, List.mapM_cons, h a (List.mem_cons_self a rest),
      ih (fun a' ha' => h a' (List.mem_cons_of_mem a ha'))]
    rfl

theorem jsonToCT_ctToJson (ct : CombinedTag) : jsonToCT (ctToJson ct) = some ct := by
  cases ct with
  | str s => rfl
  | dict summary confidence =>
    show (if ("summary" : String) = ("summary") ∧ ("confidence" : String) = ("confidence")
          then some (CombinedTag.dict summary confidence) else none) =
      some (CombinedTag.dict summary confidence)
    rw [if_pos ⟨rfl, rfl⟩]

theorem jsonToCell_cellToJson (c : CellDoc) : jsonToCell (cellToJson c) = some c := by
  show (if ("kernel_boundaries" : String) = ("kernel_boundaries") ∧
          ("combined_tag" : String) = ("combined_tag") ∧
          ("min_lat" : String) = ("min_lat") ∧ ("max_lat" : String) = ("max_lat") ∧
          ("min_lon" : String) = ("min_lon") ∧ ("max_lon" : String) = ("max_lon")
        then (jsonToCT (ctToJson c.combined_tag)).map (fun ct =>
          { min_lat := c.min_lat, max_lat := c.max_lat, min_lon := c.min_lon,
            max_lon := c.max_lon, combined_tag := ct })
        else none) = some c
  rw [if_pos ⟨rfl, rfl, rfl, rfl, rfl, rfl⟩, jsonToCT_ctToJson]
  rfl

theorem jsonToLevel_levelToJson (lvl : DocLevel) :
    jsonToLevel (Json.obj (lvl.map (fun kc => (kc.1, cellToJson kc.2)))) = some lvl := by
  show (lvl.map (fun kc => (kc.1, cellToJson kc.2))).mapM
      (fun kj => (jsonToCell kj.2).map (fun c => (kj.1, c))) = some lvl
  rw [list_mapM_option_id _ _ lvl (fun kc _ => by rw [jsonToCell_cellToJson]; rfl)]

/-- C8: decoding the JSON document value produced by encoding a pyramid
document yields the document back, all fields included — the schema loses
nothing.  Numbers are exact rationals here: the binary-float-to-decimal layer
of `json.dump`/`json.load` is abstracted (Python's `json` round-trips finite
floats exactly). -/
theorem c8_document_json_round_trip (d : Document) : jsonToDoc (docToJson d) = some d := by
  show (if ("metadata" : String) = ("metadata") ∧ ("levels" : String) = ("levels") ∧
          ("grid_delta" : String) = ("grid_delta") ∧
          ("total_levels" : String) = ("total_levels") ∧
          0 ≤ ((d.metadata.total_levels : ℚ)).num ∧
          ((d.metadata.total_levels : ℚ)).den = 1
        then ((d.levels.map (fun nl =>
                (nl.1, Json.obj (nl.2.map (fun kc => (kc.1, cellToJson kc.2)))))).mapM
              (fun nj => (jsonToLevel nj.2).map (fun l => (nj.1, l)))).map
            (fun lvls =>
              { metadata := { grid_delta := d.metadata.grid_delta,
                              total_levels := ((d.metadata.total_levels : ℚ)).num.toNat }
                levels := lvls })
        else none) = some d
  rw [if_pos ⟨rfl, rfl, rfl, rfl, by rw [Rat.num_natCast]; exact Int.natCast_nonneg _,
    Rat.den_natCast _⟩]
  rw [list_mapM_option_id
      (fun nl : String × DocLevel =>
        (nl.1, Json.obj (nl.2.map (fun kc => (kc.1, cellToJson kc.2)))))
      (fun nj => (jsonToLevel nj.2).map (fun l => (nj.1, l)))
      d.levels
      (fun nl _ => by
        show (jsonToLevel (Json.obj (nl.2.map (fun kc => (kc.1, cellToJson kc.2))))).map
          (fun l => (nl.1, l)) = some nl
        rw [jsonToLevel_levelToJson]
        rfl)]
  show some { metadata := { grid_delta := d.metadata.grid_delta,
                            total_levels := ((d.metadata.total_levels : ℚ)).num.toNat },
              levels := d.levels } = some d
  rw [Rat.num_natCast, Int.toNat_natCast]

/-! ## Decimal rendering of naturals is injective (`str(level)` keys) -/

theorem digitChar_toNat_sub {m : ℕ} (h : m < 10) : (Nat.digitChar m).toNat - 48 = m := by
  interval_cases m <;> rfl

theorem toDigitsCore_acc (b : ℕ) :
    ∀ (f n : ℕ) (acc : List Char),
      Nat.toDigitsCore b f n acc = Nat.toDigitsCore b f n [] ++ acc := by
  intro f
  induction f with
  | zero => intro n acc; rfl
  | succ f ih =>
    intro n acc
    show (if n / b = 0 then Nat.digitChar (n % b) :: acc
          else Nat.toDigitsCore b f (n / b) (Nat.digitChar (n % b) :: acc)) = _
    by_cases h : n / b = 0
    · rw [if_pos h]
      show _ = (if n / b = 0 then Nat.digitChar (n % b) :: ([] : List Char)
                else Nat.toDigitsCore b f (n / b) [Nat.digitChar (n % b)]) ++ acc
      rw [if_pos h]
      rfl
    · rw [if_neg h]
      show _ = (if n / b = 0 then Nat.digitChar (n % b) :: ([] : List Char)
                else Nat.toDigitsCore b f (n / b) [Nat.digitChar (n % b)]) ++ acc
      rw [if_neg h, ih (n / b) (Nat.digitChar (n % b) :: acc),
        ih (n / b) [Nat.digitChar (n % b)], List.append_assoc]
      rfl

theorem strToNat_toDigitsCore :
    ∀ (f n : ℕ), n < f → strToNat (Nat.toDigitsCore 10 f n []) = n := by
  intro f
  induction f with
  | zero => intro n h; omega
  | succ f ih =>
    intro n hn
    show strToNat (if n / 10 = 0 then Nat.digitChar (n % 10) :: ([] : List Char)
                   else Nat.toDigitsCore 10 f (n / 10) [Nat.digitChar (n % 10)]) = n
    by_cases h : n / 10 = 0
    · rw [if_pos h]
      show 0 * 10 + ((Nat.digitChar (n % 10)).toNat - 48) = n
      rw [Nat.zero_mul, Nat.zero_add, digitChar_toNat_sub (Nat.mod_lt n (by omega))]
      omega
    · rw [if_neg h, toDigitsCore_acc 10 f (n / 10) [Nat.digitChar (n % 10)]]
      show (Nat.toDigitsCore 10 f (n / 10) [] ++ [Nat.digitChar (n % 10)]).foldl
        (fun a c => a * 10 + (c.toNat - 48)) 0 = n
      rw [List.foldl_append]
      have hdiv : n / 10 < f := by
        have h1 : n / 10 < n := Nat.div_lt_self (by omega) (by omega)
        omega
      have hih := ih (n / 10) hdiv
      show strToNat (Nat.toDigitsCore 10 f (n / 10) []) * 10 +
        ((Nat.digitChar (n % 10)).toNat - 48) = n
      rw [hih, digitChar_toNat_sub (Nat.mod_lt n (by omega))]
      omega

theorem strToNat_repr (n : ℕ) : strToNat (Nat.repr n).data = n := by
  show strToNat (Nat.toDigitsCore 10 (n + 1) n []) = n
  exact strToNat_toDigitsCore (n + 1) n (Nat.lt_succ_self n)

theorem toString_nat_injective {m n : ℕ} (h : toString m = toString n) : m = n := by
  have h2 : strToNat (Nat.repr m).data = strToNat (Nat.repr n).data := by
    show strToNat (toString m).data = strToNat (toString n).data
    rw [h]
  rwa [strToNat_repr, strToNat_repr] at h2

/-! ## Lemmas about the incremental updater -/

theorem docTagRefines_refl (lvl : DocLevel) : DocTagRefines lvl lvl := fun _ => rfl

theorem docTagRefines_trans {a b c : DocLevel} (h1 : DocTagRefines a b)
    (h2 : DocTagRefines b c) : DocTagRefines a c := fun k => (h2 k).trans (h1 k)

theorem docTagRefines_amodify (lvl : DocLevel) (k : String) (s : CombinedTag) :
    DocTagRefines lvl (amodify lvl k (fun c => { c with combined_tag := s })) := by
  intro k'
  by_cases hk : k' = k
  · subst hk
    rw [alookup_amodify_self]
    cases alookup lvl k' <;> rfl
  · rw [alookup_amodify_ne _ _ _ _ hk]

theorem docTagRefines_sameBounds {a b : DocLevel} (h : DocTagRefines a b) {k : String}
    {ca cb : CellDoc} (ha : alookup a k = some ca) (hb : alookup b k = some cb) :
    sameBounds ca cb := by
  have h2 := h k
  rw [ha, hb] at h2
  have h3 : ({ cb with combined_tag := CombinedTag.str ("") } : CellDoc) =
      { ca with combined_tag := CombinedTag.str ("") } := Option.some.inj h2
  have h4 := congrArg CellDoc.min_lat h3
  have h5 := congrArg CellDoc.max_lat h3
  have h6 := congrArg CellDoc.min_lon h3
  have h7 := congrArg CellDoc.max_lon h3
  exact ⟨h4, h5, h6, h7⟩

theorem updateLevelStep_cases (provider : Provider) (lat lon : ℚ) (nx ny : ℤ)
    (level_0 : DocLevel) (levels : List (String × DocLevel)) (q : ℕ)
    (levels' : List (String × DocLevel))
    (h : updateLevelStep provider lat lon nx ny level_0 levels q = .ok levels') :
    levels' = levels ∨
    ∃ lvl s, alookup levels (toString q) = some lvl ∧
      levels' = aset levels (toString q)
        (amodify lvl (upperKernelKey q nx ny) (fun c => { c with combined_tag := s })) := by
  unfold updateLevelStep at h
  cases hlvl : alookup levels (toString q) with
  | none =>
    simp only [hlvl] at h
    exact Or.inl (Except.ok.inj h).symm
  | some level_data =>
    simp only [hlvl] at h
    cases hker : alookup level_data (upperKernelKey q nx ny) with
    | none =>
      simp only [hker] at h
      exact Or.inl (Except.ok.inj h).symm
    | some kcell =>
      simp only [hker] at h
      by_cases hkc : (kernelCellsOf level_0 q nx ny).isEmpty = true
      · rw [if_pos hkc] at h
        exact Or.inl (Except.ok.inj h).symm
      · rw [if_neg hkc] at h
        cases hj : pyJoinComma (kernelCellsOf level_0 q nx ny) with
        | error e =>
          simp only [hj] at h
          exact Except.noConfusion h
        | ok body =>
          simp only [hj] at h
          cases hp : provider
              [("Cell 1 (lat: ") ++ fmt3 lat ++ (", lon: ") ++ fmt3 lon ++ ("): ") ++ body]
              (q : ℤ) (2 ^ q : ℤ) with
          | error e =>
            simp only [hp] at h
            exact Except.noConfusion h
          | ok summaries =>
            simp only [hp] at h
            cases hs : summaries ("0") with
            | some s =>
              simp only [hs] at h
              exact Or.inr ⟨level_data, s, rfl, (Except.ok.inj h).symm⟩
            | none =>
              simp only [hs] at h
              exact Or.inl (Except.ok.inj h).symm

theorem updateLevelStep_miss (provider : Provider) (lat lon : ℚ) (nx ny : ℤ)
    (level_0 : DocLevel) (levels : List (String × DocLevel)) (q : ℕ) (lvl : DocLevel)
    (hlvl : alookup levels (toString q) = some lvl)
    (hmiss : alookup lvl (upperKernelKey q nx ny) = none) :
    updateLevelStep provider lat lon nx ny level_0 levels q = .ok levels := by
  unfold updateLevelStep
  simp only [hlvl, hmiss]

theorem updateLevelsLoop_frame (provider : Provider) (lat lon : ℚ) (nx ny : ℤ)
    (level_0 : DocLevel) :
    ∀ (qs : List ℕ) (levels levels' : List (String × DocLevel)),
      updateLevelsLoop provider lat lon nx ny level_0 qs levels = .ok levels' →
      levels'.map Prod.fst = levels.map Prod.fst ∧
      ∀ name lvl, alookup levels name = some lvl →
        ∃ lvl', alookup levels' name = some lvl' ∧
          DocTagRefines lvl lvl' ∧
          ∀ k, (∀ q ∈ qs, name = toString q → k ≠ upperKernelKey q nx ny) →
            alookup lvl' k = alookup lvl k := by
  intro qs
  induction qs with
  | nil =>
    intro levels levels' h
    rw [(Except.ok.inj h).symm]
    exact ⟨rfl, fun name lvl hl =>
      ⟨lvl, hl, docTagRefines_refl lvl, fun k _ => rfl⟩⟩
  | cons q rest ih =>
    intro levels levels' h
    unfold updateLevelsLoop at h
    cases hstep : updateLevelStep provider lat lon nx ny level_0 levels q with
    | error e =>
      simp only [hstep] at h
      exact Except.noConfusion h
    | ok levels1 =>
      simp only [hstep] at h
      obtain ⟨hkeys1, hrest⟩ := ih levels1 levels' h
      rcases updateLevelStep_cases provider lat lon nx ny level_0 levels q levels1 hstep with
        hsame | ⟨lvlq, s, hlvlq, hset⟩
      · subst hsame
        refine ⟨hkeys1, fun name lvl hl => ?_⟩
        obtain ⟨lvl', hl', href, hframe⟩ := hrest name lvl hl
        exact ⟨lvl', hl', href, fun k hk =>
          hframe k (fun q' hq' => hk q' (List.mem_cons_of_mem q hq'))⟩
      · subst hset
        constructor
        · rw [hkeys1, keys_aset_present]
          rw [hlvlq]
          rfl
        · intro name lvl hl
          by_cases hname : name = toString q
          · subst hname
            have hlvl_eq : lvl = lvlq := by
              rw [hl] at hlvlq
              exact Option.some.inj hlvlq
            subst hlvl_eq
            have hl1 : alookup (aset levels (toString q)
                (amodify lvl (upperKernelKey q nx ny)
                  (fun c => { c with combined_tag := s }))) (toString q) =
                some (amodify lvl (upperKernelKey q nx ny)
                  (fun c => { c with combined_tag := s })) := alookup_aset_self _ _ _
            obtain ⟨lvl', hl', href, hframe⟩ := hrest (toString q) _ hl1
            refine ⟨lvl', hl', docTagRefines_trans (docTagRefines_amodify lvl _ s) href,
              fun k hk => ?_⟩
            rw [hframe k (fun q' hq' => hk q' (List.mem_cons_of_mem q hq')),
              alookup_amodify_ne _ _ _ _ (hk q (List.mem_cons_self q rest) rfl)]
          · have hl1 : alookup (aset levels (toString q)
                (amodify lvlq (upperKernelKey q nx ny)
                  (fun c => { c with combined_tag := s }))) name = some lvl := by
              rw [alookup_aset_ne _ _ _ _ hname]
              exact hl
            obtain ⟨lvl', hl', href, hframe⟩ := hrest name lvl hl1
            exact ⟨lvl', hl', href, fun k hk =>
              hframe k (fun q' hq' => hk q' (List.mem_cons_of_mem q hq'))⟩

theorem updateLevelsLoop_miss_invariant (provider : Provider) (lat lon : ℚ) (nx ny : ℤ)
    (level_0 : DocLevel) (p : ℕ) (lvl : DocLevel)
    (hmiss : alookup lvl (upperKernelKey p nx ny) = none) :
    ∀ (qs : List ℕ) (levels levels' : List (String × DocLevel)),
      updateLevelsLoop provider lat lon nx ny level_0 qs levels = .ok levels' →
      alookup levels (toString p) = some lvl →
      alookup levels' (toString p) = some lvl := by
  intro qs
  induction qs with
  | nil =>
    intro levels levels' h hl
    rw [(Except.ok.inj h).symm]
    exact hl
  | cons q rest ih =>
    intro levels levels' h hl
    unfold updateLevelsLoop at h
    by_cases hq : toString q = toString p
    · have hqp : q = p := toString_nat_injective hq
      subst hqp
      simp only [updateLevelStep_miss provider lat lon nx ny level_0 levels q lvl
        (hq ▸ hl) (hmiss)] at h
      exact ih levels levels' h hl
    · cases hstep : updateLevelStep provider lat lon nx ny level_0 levels q with
      | error e =>
        simp only [hstep] at h
        exact Except.noConfusion h
      | ok levels1 =>
        simp only [hstep] at h
        rcases updateLevelStep_cases provider lat lon nx ny level_0 levels q levels1 hstep with
          hsame | ⟨lvlq, s, hlvlq, hset⟩
        · exact ih levels1 levels' h (hsame ▸ hl)
        · refine ih levels1 levels' h ?_
          rw [hset, alookup_aset_ne _ _ _ _ (fun hc => hq hc.symm)]
          exact hl

theorem updatePlaceCell_lookup_ne (grid_delta lat lon : ℚ) (tag_text : String)
    (level_0 : DocLevel) (k : String)
    (hk : k ≠ updatePlaceKey grid_delta lat lon level_0) :
    alookup (updatePlaceCell grid_delta lat lon tag_text level_0).1 k =
      alookup level_0 k := by
  unfold updatePlaceCell
  rw [alookup_amodify_ne _ _ _ _ hk]
  cases hc : alookup level_0 (updatePlaceKey grid_delta lat lon level_0) with
  | some c => rfl
  | none => exact alookup_aset_ne _ _ _ _ hk

theorem updateSummarizeCell_lookup_ne (provider : Provider) (lat lon : ℚ)
    (cell_key : String) (combined_tag : String) (level_0 l0' : DocLevel)
    (h : updateSummarizeCell provider lat lon cell_key combined_tag level_0 = .ok l0')
    (k : String) (hk : k ≠ cell_key) : alookup l0' k = alookup level_0 k := by
  unfold updateSummarizeCell at h
  by_cases hsep : combined_tag.data.contains (';') = true
  · rw [if_pos hsep] at h
    cases hp : provider
        [("Cell 1 (lat: ") ++ fmt3 lat ++ (", lon: ") ++ fmt3 lon ++ ("): ") ++ combined_tag]
        (-1) 1 with
    | error e =>
      simp only [hp] at h
      exact Except.noConfusion h
    | ok summaries =>
      simp only [hp] at h
      cases hs : summaries ("0") with
      | some s =>
        simp only [hs] at h
        rw [← Except.ok.inj h]
        exact alookup_amodify_ne _ _ _ _ hk
      | none =>
        simp only [hs] at h
        rw [← Except.ok.inj h]
  · rw [if_neg hsep] at h
    rw [← Except.ok.inj h]

theorem updateSummarizeCell_refines (provider : Provider) (lat lon : ℚ)
    (cell_key : String) (combined_tag : String) (level_0 l0' : DocLevel)
    (h : updateSummarizeCell provider lat lon cell_key combined_tag level_0 = .ok l0') :
    DocTagRefines level_0 l0' := by
  unfold updateSummarizeCell at h
  by_cases hsep : combined_tag.data.contains (';') = true
  · rw [if_pos hsep] at h
    cases hp : provider
        [("Cell 1 (lat: ") ++ fmt3 lat ++ (", lon: ") ++ fmt3 lon ++ ("): ") ++ combined_tag]
        (-1) 1 with
    | error e =>
      simp only [hp] at h
      exact Except.noConfusion h
    | ok summaries =>
      simp only [hp] at h
      cases hs : summaries ("0") with
      | some s =>
        simp only [hs] at h
        rw [← Except.ok.inj h]
        exact docTagRefines_amodify level_0 cell_key s
      | none =>
        simp only [hs] at h
        rw [← Except.ok.inj h]
        exact docTagRefines_refl level_0
  · rw [if_neg hsep] at h
    rw [← Except.ok.inj h]
    exact docTagRefines_refl level_0

theorem update_ok_decompose (provider : Provider) (lat lon : ℚ) (tag_text : String)
    (doc doc' : Document)
    (h : update_with_new_tag provider lat lon tag_text doc = .ok doc') :
    ∃ level_0 final_l0,
      alookup doc.levels ("0") = some level_0 ∧
      ¬ level_0.isEmpty = true ∧
      updateSummarizeCell provider lat lon
        (keyStr (locateInLevel0 doc.metadata.grid_delta lat lon level_0).1
          (locateInLevel0 doc.metadata.grid_delta lat lon level_0).2)
        (updatePlaceCell doc.metadata.grid_delta lat lon tag_text level_0).2
        (updatePlaceCell doc.metadata.grid_delta lat lon tag_text level_0).1 = .ok final_l0 ∧
      updateLevelsLoop provider lat lon
        (locateInLevel0 doc.metadata.grid_delta lat lon level_0).1
        (locateInLevel0 doc.metadata.grid_delta lat lon level_0).2
        final_l0
        (List.range' 1 ((aset doc.levels ("0") final_l0).length - 1))
        (aset doc.levels ("0") final_l0) = .ok doc'.levels ∧
      doc'.metadata = doc.metadata := by
  unfold update_with_new_tag at h
  cases hl0 : alookup doc.levels ("0") with
  | none =>
    simp only [hl0] at h
    exact Except.noConfusion h
  | some level_0 =>
    simp only [hl0] at h
    by_cases hemp : level_0.isEmpty = true
    · rw [if_pos hemp] at h
      exact Except.noConfusion h
    · rw [if_neg hemp] at h
      cases hsum : updateSummarizeCell provider lat lon
          (keyStr (locateInLevel0 doc.metadata.grid_delta lat lon level_0).1
            (locateInLevel0 doc.metadata.grid_delta lat lon level_0).2)
          (updatePlaceCell doc.metadata.grid_delta lat lon tag_text level_0).2
          (updatePlaceCell doc.metadata.grid_delta lat lon tag_text level_0).1 with
      | error e =>
        simp only [hsum] at h
        exact Except.noConfusion h
      | ok final_l0 =>
        simp only [hsum] at h
        cases hloop : updateLevelsLoop provider lat lon
            (locateInLevel0 doc.metadata.grid_delta lat lon level_0).1
            (locateInLevel0 doc.metadata.grid_delta lat lon level_0).2
            final_l0
            (List.range' 1 ((aset doc.levels ("0") final_l0).length - 1))
            (aset doc.levels ("0") final_l0) with
        | error e =>
          simp only [hloop] at h
          exact Except.noConfusion h
        | ok levelsFin =>
          simp only [hloop] at h
          have hdoc : ({ doc with levels := levelsFin } : Document) = doc' := Except.ok.inj h
          refine ⟨level_0, final_l0, rfl, hemp, hsum, ?_, ?_⟩
          · rw [← hdoc]
            exact hloop
          · rw [← hdoc]

theorem located_cell_eq (doc : Document) (lat lon : ℚ) (level_0 : DocLevel)
    (hl0 : alookup doc.levels ("0") = some level_0) :
    located_cell doc lat lon = locateInLevel0 doc.metadata.grid_delta lat lon level_0 := by
  unfold located_cell
  simp only [hl0]

theorem upperKernelKey_zero (nx ny : ℤ) : upperKernelKey 0 nx ny = keyStr nx ny := by
  unfold upperKernelKey
  norm_num

/-- **C1** (frame part, amended): an accepted incremental update leaves the
document metadata and the set and order of level names unchanged, and at most
one cell per level is touched: every cell whose key differs from the affected
level-0 coordinate's ancestor-chain key at its level (`ancestorKey` — the
located key at level 0, the kernel key `(nx / 2^p, ny / 2^p)` at level `p`) is
byte-identical to its state before the update.  The "exactly one cell per
level" half of the claim fails when a level's kernel cell is absent. -/
theorem c1_update_frame (provider : Provider) (lat lon : ℚ) (tag_text : String)
    (doc doc' : Document)
    (h : update_with_new_tag provider lat lon tag_text doc = .ok doc') :
    doc'.metadata = doc.metadata ∧
    doc'.levels.map Prod.fst = doc.levels.map Prod.fst ∧
    ∀ p : ℕ, ∀ lvl lvl', alookup doc.levels (toString p) = some lvl →
      alookup doc'.levels (toString p) = some lvl' →
      ∀ k, k ≠ ancestorKey doc lat lon p → alookup lvl' k = alookup lvl k := by
  obtain ⟨level_0, final_l0, hl0, hemp, hsum, hloop, hmeta⟩ :=
    update_ok_decompose provider lat lon tag_text doc doc' h
  obtain ⟨hkeys, hframe⟩ := updateLevelsLoop_frame provider lat lon
    (locateInLevel0 doc.metadata.grid_delta lat lon level_0).1
    (locateInLevel0 doc.metadata.grid_delta lat lon level_0).2
    final_l0 _ _ _ hloop
  have hloc := located_cell_eq doc lat lon level_0 hl0
  have hkeys0 : (aset doc.levels ("0") final_l0).map Prod.fst =
      doc.levels.map Prod.fst := by
    refine keys_aset_present _ _ _ ?_
    rw [hl0]
    rfl
  refine ⟨hmeta, by rw [hkeys, hkeys0], ?_⟩
  intro p lvl lvl' hp hp' k hk
  have hstr0 : (toString (0:ℕ)) = ("0") := rfl
  by_cases hp0 : p = 0
  · subst hp0
    rw [hstr0] at hp hp'
    have hlvl_eq : lvl = level_0 := by
      rw [hp] at hl0
      exact Option.some.inj hl0
    subst hlvl_eq
    have hstart : alookup (aset doc.levels ("0") final_l0) ("0") = some final_l0 :=
      alookup_aset_self _ _ _
    obtain ⟨lvlF, hF, _, hframeF⟩ := hframe ("0") final_l0 hstart
    have hlvl'_eq : lvl' = lvlF := by
      rw [hp'] at hF
      exact Option.some.inj hF
    subst hlvl'_eq
    have hanc0 : ancestorKey doc lat lon 0 =
        keyStr (locateInLevel0 doc.metadata.grid_delta lat lon lvl).1
          (locateInLevel0 doc.metadata.grid_delta lat lon lvl).2 := by
      unfold ancestorKey
      rw [hloc, upperKernelKey_zero]
    have hcond : ∀ q ∈ List.range' 1 ((aset doc.levels ("0") final_l0).length - 1),
        ("0") = toString q →
        k ≠ upperKernelKey q (locateInLevel0 doc.metadata.grid_delta lat lon lvl).1
          (locateInLevel0 doc.metadata.grid_delta lat lon lvl).2 := by
      intro q hq hqs
      have h1 : 1 ≤ q := (List.mem_range'_1.mp hq).1
      have h0q : (0:ℕ) = q := toString_nat_injective (by rw [hstr0, ← hqs])
      exact absurd h0q (by omega)
    rw [hframeF k hcond]
    rw [hanc0] at hk
    rw [updateSummarizeCell_lookup_ne provider lat lon _ _ _ _ hsum k hk]
    exact updatePlaceCell_lookup_ne doc.metadata.grid_delta lat lon tag_text lvl k hk
  · have hne0 : toString p ≠ ("0") := by
      intro hc
      exact hp0 (toString_nat_injective (hc.trans hstr0.symm))
    have hstart : alookup (aset doc.levels ("0") final_l0) (toString p) = some lvl := by
      rw [alookup_aset_ne _ _ _ _ hne0]
      exact hp
    obtain ⟨lvlF, hF, _, hframeF⟩ := hframe (toString p) lvl hstart
    have hlvl'_eq : lvl' = lvlF := by
      rw [hp'] at hF
      exact Option.some.inj hF
    subst hlvl'_eq
    have hanc : ancestorKey doc lat lon p =
        upperKernelKey p (locateInLevel0 doc.metadata.grid_delta lat lon level_0).1
          (locateInLevel0 doc.metadata.grid_delta lat lon level_0).2 := by
      unfold ancestorKey
      rw [hloc]
    have hcond : ∀ q ∈ List.range' 1 ((aset doc.levels ("0") final_l0).length - 1),
        toString p = toString q →
        k ≠ upperKernelKey q (locateInLevel0 doc.metadata.grid_delta lat lon level_0).1
          (locateInLevel0 doc.metadata.grid_delta lat lon level_0).2 := by
      intro q hq hqs
      have hpq : p = q := toString_nat_injective hqs
      subst hpq
      rw [hanc] at hk
      exact hk
    exact hframeF k hcond

/-- Witness for C1 on the concrete two-level document `docA`: the update at
`(1/2, 1/2)` is accepted and the frame properties hold. -/
theorem c1_update_frame_witness :
    docARes.metadata = docA.metadata ∧
    docARes.levels.map Prod.fst = docA.levels.map Prod.fst ∧
    ∀ p : ℕ, ∀ lvl lvl', alookup docA.levels (toString p) = some lvl →
      alookup docARes.levels (toString p) = some lvl' →
      ∀ k, k ≠ ancestorKey docA (1/2) (1/2) p → alookup lvl' k = alookup lvl k :=
  c1_update_frame (provZero (.str ("A"))) (1/2) (1/2) ("t") docA docARes
    (by with_unfolding_all rfl)

/-- Counterexample to the "exactly one cell per level is touched" half of C1:
on `docB` the update at `(41/4, 1/2)` is accepted and modifies level `"2"`,
yet level `"1"` is byte-identical to its prior state — no cell of that level
was touched, because its kernel cell `5_0` is absent. -/
theorem c1_not_every_level_touched :
    update_with_new_tag (provZero (.str ("UPDATED"))) (41/4) (1/2) ("new") docB
      = .ok docBRes ∧
    alookup docBRes.levels ("1") = alookup docB.levels ("1") ∧
    alookup docBRes.levels ("2") ≠ alookup docB.levels ("2") := by
  refine ⟨by with_unfolding_all rfl, by with_unfolding_all rfl, ?_⟩
  with_unfolding_all decide

/-- **C6** (amended): during upward propagation, a level `p ≥ 1` whose kernel
cell at the affected coordinate's ancestor key is absent is itself left
byte-identical and the miss is non-fatal — the propagation step at that level
returns its input unchanged instead of raising — but the loop does NOT stop
climbing: levels above the miss are still visited (and can change, see the
counterexample). -/
theorem c6_missing_kernel_level_untouched (provider : Provider) (lat lon : ℚ)
    (tag_text : String) (doc doc' : Document) (p : ℕ) (lvl : DocLevel)
    (hp1 : 1 ≤ p)
    (hlvl : alookup doc.levels (toString p) = some lvl)
    (hmiss : alookup lvl (ancestorKey doc lat lon p) = none)
    (h : update_with_new_tag provider lat lon tag_text doc = .ok doc') :
    alookup doc'.levels (toString p) = some lvl ∧
    ∀ level_0 levels, alookup levels (toString p) = some lvl →
      updateLevelStep provider lat lon (located_cell doc lat lon).1
        (located_cell doc lat lon).2 level_0 levels p = .ok levels := by
  obtain ⟨level_0, final_l0, hl0, hemp, hsum, hloop, hmeta⟩ :=
    update_ok_decompose provider lat lon tag_text doc doc' h
  have hloc := located_cell_eq doc lat lon level_0 hl0
  have hanc : ancestorKey doc lat lon p =
      upperKernelKey p (locateInLevel0 doc.metadata.grid_delta lat lon level_0).1
        (locateInLevel0 doc.metadata.grid_delta lat lon level_0).2 := by
    unfold ancestorKey
    rw [hloc]
  rw [hanc] at hmiss
  have hne0 : toString p ≠ ("0") := by
    intro hc
    have : p = 0 := toString_nat_injective (hc.trans (rfl : (toString (0:ℕ)) = ("0")).symm)
    omega
  constructor
  · refine updateLevelsLoop_miss_invariant provider lat lon
      (locateInLevel0 doc.metadata.grid_delta lat lon level_0).1
      (locateInLevel0 doc.metadata.grid_delta lat lon level_0).2
      final_l0 p lvl hmiss
      (List.range' 1 ((aset doc.levels ("0") final_l0).length - 1))
      (aset doc.levels ("0") final_l0) doc'.levels hloop ?_
    rw [alookup_aset_ne _ _ _ _ hne0]
    exact hlvl
  · intro l0 levels hlk
    rw [hloc]
    exact updateLevelStep_miss provider lat lon _ _ l0 levels p lvl hlk hmiss

/-- Witness for C6 on `docB`: the level-1 kernel `5_0` of the located
coordinate `(10, 0)` is absent, the update is accepted, and level `"1"` of
the result is byte-identical. -/
theorem c6_missing_kernel_level_untouched_witness :
    alookup docBRes.levels (toString 1) =
      some [(("0_0"), { min_lat := 0, max_lat := 2, min_lon := 0, max_lon := 1,
                        combined_tag := .str ("u0") }),
            (("1_0"), { min_lat := 2, max_lat := 4, min_lon := 0, max_lon := 1,
                        combined_tag := .str ("u1") }),
            (("2_0"), { min_lat := 4, max_lat := 6, min_lon := 0, max_lon := 1,
                        combined_tag := .str ("u2") }),
            (("3_0"), { min_lat := 6, max_lat := 8, min_lon := 0, max_lon := 1,
                        combined_tag := .str ("u3") }),
            (("8_0"), { min_lat := 16, max_lat := 18, min_lon := 0, max_lon := 1,
                        combined_tag := .str ("u8") })] ∧
    ∀ level_0 levels, alookup levels (toString 1) =
      some [(("0_0"), { min_lat := 0, max_lat := 2, min_lon := 0, max_lon := 1,
                        combined_tag := .str ("u0") }),
            (("1_0"), { min_lat := 2, max_lat := 4, min_lon := 0, max_lon := 1,
                        combined_tag := .str ("u1") }),
            (("2_0"), { min_lat := 4, max_lat := 6, min_lon := 0, max_lon := 1,
                        combined_tag := .str ("u2") }),
            (("3_0"), { min_lat := 6, max_lat := 8, min_lon := 0, max_lon := 1,
                        combined_tag := .str ("u3") }),
            (("8_0"), { min_lat := 16, max_lat := 18, min_lon := 0, max_lon := 1,
                        combined_tag := .str ("u8") })] →
      updateLevelStep (provZero (.str ("UPDATED"))) (41/4) (1/2)
        (located_cell docB (41/4) (1/2)).1 (located_cell docB (41/4) (1/2)).2
        level_0 levels 1 = .ok levels :=
  c6_missing_kernel_level_untouched (provZero (.str ("UPDATED"))) (41/4) (1/2)
    ("new") docB docBRes 1 _ (by decide) (by with_unfolding_all rfl)
    (by with_unfolding_all rfl) (by with_unfolding_all rfl)

/-- Counterexample to the "stops climbing" half of C6: on `docB` the level-1
kernel of the affected coordinate is absent, yet the accepted update still
modifies level `"2"` above the miss — the loop continued climbing. -/
theorem c6_climb_continues_past_missing_kernel :
    (∃ lvl, alookup docB.levels (toString 1) = some lvl ∧
      alookup lvl (ancestorKey docB (41/4) (1/2) 1) = none) ∧
    update_with_new_tag (provZero (.str ("UPDATED"))) (41/4) (1/2) ("new") docB
      = .ok docBRes ∧
    alookup docBRes.levels (toString 2) ≠ alookup docB.levels (toString 2) := by
  refine ⟨⟨_, by with_unfolding_all rfl, by with_unfolding_all rfl⟩,
    by with_unfolding_all rfl, ?_⟩
  with_unfolding_all decide

/-! ## Lemmas about `create_next_level` -/

theorem foldl_foldl_prod {α β γ : Type} (g : γ → α → β → γ) (l₁ : List α) (l₂ : List β)
    (acc : γ) :
    l₁.foldl (fun a x => l₂.foldl (fun a' y => g a' x y) a) acc =
      (l₁.flatMap (fun x => l₂.map (fun y => (x, y)))).foldl (fun a p => g a p.1 p.2) acc := by
  induction l₁ generalizing acc with
  | nil => rfl
  | cons x xs ih =>
    simp only [List.foldl_cons, List.flatMap_cons, List.foldl_append]
    rw [List.foldl_map, ih]

theorem create_next_level_eq (kc : Coord × GridCell) (rest : Level) (n : ℕ) :
    create_next_level (kc :: rest) n =
      normalizeLevel ((windowPairs (kc :: rest) (2 ^ n)).foldl
        (windowStep (kc :: rest) n) []) := by
  unfold create_next_level windowPairs
  refine congrArg normalizeLevel ?_
  rw [foldl_foldl_prod (fun acc start_lat start_lon =>
    windowStep (kc :: rest) n acc (start_lat, start_lon))]

theorem keys_aset_nodup {κ ν : Type} [DecidableEq κ] (l : List (κ × ν)) (k : κ) (v : ν)
    (h : (l.map Prod.fst).Nodup) : ((aset l k v).map Prod.fst).Nodup := by
  by_cases hk : (alookup l k).isSome
  · rw [keys_aset_present l k v hk]
    exact h
  · have hnone : alookup l k = none := by
      cases hx : alookup l k with
      | none => rfl
      | some w => rw [hx] at hk; simp at hk
    rw [aset_fresh_eq_append l k v hnone]
    rw [List.map_append, List.nodup_append]
    refine ⟨h, List.nodup_singleton k, ?_⟩
    intro a ha hb
    have hak : a = k := by simpa using hb
    subst hak
    exact (alookup_eq_none_iff l a).mp hnone ha

theorem windowFold_sound (cur : Level) (n : ℕ) :
    ∀ (l : List (ℤ × ℤ)) (acc : Level) (K : Coord) (cell : GridCell),
      alookup (l.foldl (windowStep cur n) acc) K = some cell →
      (∃ s ∈ l, (kernelWindow cur (2 ^ n) s.1 s.2).isEmpty = false ∧
        K = (s.1 / (2 ^ n : ℤ), s.2 / (2 ^ n : ℤ)) ∧
        cell = mkKernelCell n (2 ^ n) (s.1 / (2 ^ n : ℤ)) (s.2 / (2 ^ n : ℤ))
          (kernelWindow cur (2 ^ n) s.1 s.2)) ∨
      alookup acc K = some cell := by
  intro l
  induction l with
  | nil =>
    intro acc K cell h
    exact Or.inr h
  | cons s ss ih =>
    intro acc K cell h
    rw [List.foldl_cons] at h
    rcases ih _ K cell h with ⟨s', hs', hcond⟩ | hacc
    · exact Or.inl ⟨s', List.mem_cons_of_mem s hs', hcond⟩
    · unfold windowStep at hacc
      by_cases hw : (kernelWindow cur (2 ^ n) s.1 s.2).isEmpty = true
      · rw [if_pos hw] at hacc
        exact Or.inr hacc
      · rw [if_neg hw] at hacc
        by_cases hK : K = (s.1 / (2 ^ n : ℤ), s.2 / (2 ^ n : ℤ))
        · subst hK
          rw [alookup_aset_self] at hacc
          exact Or.inl ⟨s, List.mem_cons_self s ss,
            Bool.eq_false_iff.mpr hw, rfl, (Option.some.inj hacc).symm⟩
        · rw [alookup_aset_ne _ _ _ _ hK] at hacc
          exact Or.inr hacc

theorem windowFold_preserves (cur : Level) (n : ℕ) :
    ∀ (l : List (ℤ × ℤ)) (acc : Level) (K : Coord),
      (alookup acc K).isSome →
      (alookup (l.foldl (windowStep cur n) acc) K).isSome := by
  intro l
  induction l with
  | nil =>
    intro acc K h
    exact h
  | cons s ss ih =>
    intro acc K h
    rw [List.foldl_cons]
    refine ih _ K ?_
    unfold windowStep
    by_cases hw : (kernelWindow cur (2 ^ n) s.1 s.2).isEmpty = true
    · rw [if_pos hw]
      exact h
    · rw [if_neg hw]
      by_cases hK : K = (s.1 / (2 ^ n : ℤ), s.2 / (2 ^ n : ℤ))
      · subst hK
        rw [alookup_aset_self]
        rfl
      · rw [alookup_aset_ne _ _ _ _ hK]
        exact h

theorem windowFold_present (cur : Level) (n : ℕ) :
    ∀ (l : List (ℤ × ℤ)) (acc : Level) (s : ℤ × ℤ), s ∈ l →
      (kernelWindow cur (2 ^ n) s.1 s.2).isEmpty = false →
      (alookup (l.foldl (windowStep cur n) acc)
        (s.1 / (2 ^ n : ℤ), s.2 / (2 ^ n : ℤ))).isSome := by
  intro l
  induction l with
  | nil =>
    intro acc s hs
    simp at hs
  | cons t ts ih =>
    intro acc s hs hw
    rcases List.mem_cons.mp hs with rfl | hs'
    · rw [List.foldl_cons]
      refine windowFold_preserves cur n ts _ _ ?_
      unfold windowStep
      rw [hw]
      simp only [Bool.false_eq_true, if_false]
      rw [alookup_aset_self]
      rfl
    · rw [List.foldl_cons]
      exact ih _ s hs' hw

theorem windowFold_nodup (cur : Level) (n : ℕ) :
    ∀ (l : List (ℤ × ℤ)) (acc : Level), ((acc.map Prod.fst).Nodup) →
      (((l.foldl (windowStep cur n) acc).map Prod.fst).Nodup) := by
  intro l
  induction l with
  | nil =>
    intro acc h
    exact h
  | cons s ss ih =>
    intro acc h
    rw [List.foldl_cons]
    refine ih _ ?_
    unfold windowStep
    by_cases hw : (kernelWindow cur (2 ^ n) s.1 s.2).isEmpty = true
    · rw [if_pos hw]
      exact h
    · rw [if_neg hw]
      exact keys_aset_nodup _ _ _ h

theorem mem_kernelWindow {cur : Level} {ks : ℕ} {slat slon : ℤ} {c : GridCell} :
    c ∈ kernelWindow cur ks slat slon ↔
    ∃ a b : ℕ, a < ks ∧ b < ks ∧ alookup cur (slat + (a : ℤ), slon + (b : ℤ)) = some c := by
  unfold kernelWindow
  constructor
  · intro h
    obtain ⟨i, hi, hmem⟩ := List.mem_flatMap.mp h
    obtain ⟨j, hj, hlook⟩ := List.mem_filterMap.mp hmem
    exact ⟨i, j, List.mem_range.mp hi, List.mem_range.mp hj, hlook⟩
  · rintro ⟨a, b, ha, hb, hlook⟩
    have h1 : c ∈ (List.range ks).filterMap
        (fun j : ℕ => alookup cur (slat + (a : ℤ), slon + (j : ℤ))) :=
      List.mem_filterMap.mpr ⟨b, List.mem_range.mpr hb, hlook⟩
    exact List.mem_flatMap.mpr ⟨a, List.mem_range.mpr ha, h1⟩

theorem mem_startsList {lo hi : ℤ} {ks : ℕ} {s : ℤ} :
    s ∈ startsList lo hi ks ↔
    ∃ i : ℕ, i < (hi - lo).toNat / ks + 1 ∧ s = lo + (ks : ℤ) * i := by
  unfold startsList
  constructor
  · intro h
    obtain ⟨i, hi2, hs⟩ := List.mem_map.mp h
    exact ⟨i, List.mem_range.mp hi2, hs.symm⟩
  · rintro ⟨i, hi2, rfl⟩
    exact List.mem_map.mpr ⟨i, List.mem_range.mpr hi2, rfl⟩

theorem normalizeLevel_length (lvl : Level) : (normalizeLevel lvl).length = lvl.length := by
  cases lvl with
  | nil => rfl
  | cons kc rest =>
    rw [normalizeLevel_cons]
    exact List.length_map _ _

theorem keys_map_fst (cur : Level) :
    (cur.map Prod.fst).map Prod.fst = cur.map (fun kc => kc.1.1) := by
  rw [List.map_map]
  rfl

theorem keys_map_snd (cur : Level) :
    (cur.map Prod.fst).map Prod.snd = cur.map (fun kc => kc.1.2) := by
  rw [List.map_map]
  rfl

theorem mem_windowPairs {cur : Level} {ks : ℕ} {s : ℤ × ℤ} :
    s ∈ windowPairs cur ks ↔
    s.1 ∈ startsList (listMin ((cur.map Prod.fst).map Prod.fst))
        (listMax ((cur.map Prod.fst).map Prod.fst)) ks ∧
    s.2 ∈ startsList (listMin ((cur.map Prod.fst).map Prod.snd))
        (listMax ((cur.map Prod.fst).map Prod.snd)) ks := by
  unfold windowPairs
  constructor
  · intro h
    obtain ⟨a, ha, hmem⟩ := List.mem_flatMap.mp h
    obtain ⟨b, hb, heq⟩ := List.mem_map.mp hmem
    rw [← heq]
    exact ⟨ha, hb⟩
  · rintro ⟨h1, h2⟩
    refine List.mem_flatMap.mpr ⟨s.1, h1, ?_⟩
    have hs : (s.1, s.2) = s := rfl
    exact List.mem_map.mpr ⟨s.2, h2, hs⟩

theorem mem_childCells {cur : Level} {ks : ℕ} {K : Coord} {c : GridCell} :
    c ∈ childCells cur ks K ↔
    ∃ kc, kc ∈ cur ∧ parentCoord (listMin (cur.map (fun kc => kc.1.1)))
      (listMin (cur.map (fun kc => kc.1.2))) ks kc.1 = K ∧ kc.2 = c := by
  unfold childCells
  constructor
  · intro h
    obtain ⟨kc, hkc, hsome⟩ := List.mem_filterMap.mp h
    by_cases hp : parentCoord (listMin (cur.map (fun kc => kc.1.1)))
        (listMin (cur.map (fun kc => kc.1.2))) ks kc.1 = K
    · rw [if_pos hp] at hsome
      exact ⟨kc, hkc, hp, Option.some.inj hsome⟩
    · rw [if_neg hp] at hsome
      exact Option.noConfusion hsome
  · rintro ⟨kc, hkc, hp, rfl⟩
    refine List.mem_filterMap.mpr ⟨kc, hkc, ?_⟩
    rw [if_pos hp]

theorem listMin_map_congr {α β : Type} [Inhabited β] [LinearOrder β] {A B : List α}
    (f : α → β) (hA : A ≠ []) (hB : B ≠ []) (h : ∀ c, c ∈ A ↔ c ∈ B) :
    listMin (A.map f) = listMin (B.map f) := by
  refine listMin_congr (by simpa using hA) (by simpa using hB) ?_ ?_
  · intro x hx
    obtain ⟨c, hc, rfl⟩ := List.mem_map.mp hx
    exact List.mem_map.mpr ⟨c, (h c).mp hc, rfl⟩
  · intro x hx
    obtain ⟨c, hc, rfl⟩ := List.mem_map.mp hx
    exact List.mem_map.mpr ⟨c, (h c).mpr hc, rfl⟩

theorem listMax_map_congr {α β : Type} [Inhabited β] [LinearOrder β] {A B : List α}
    (f : α → β) (hA : A ≠ []) (hB : B ≠ []) (h : ∀ c, c ∈ A ↔ c ∈ B) :
    listMax (A.map f) = listMax (B.map f) := by
  refine listMax_congr (by simpa using hA) (by simpa using hB) ?_ ?_
  · intro x hx
    obtain ⟨c, hc, rfl⟩ := List.mem_map.mp hx
    exact List.mem_map.mpr ⟨c, (h c).mp hc, rfl⟩
  · intro x hx
    obtain ⟨c, hc, rfl⟩ := List.mem_map.mp hx
    exact List.mem_map.mpr ⟨c, (h c).mpr hc, rfl⟩

theorem window_start_ediv (m : ℤ) (ks : ℕ) (i : ℕ) (hks : 0 < ks) :
    (m + (ks : ℤ) * i) / (ks : ℤ) = m / (ks : ℤ) + i :=
  Int.add_mul_ediv_left m (i : ℤ) (by exact_mod_cast hks.ne')

theorem inner_offset_ediv (a : ℤ) (ks : ℕ) (i : ℕ) (hks : 0 < ks)
    (h0 : 0 ≤ a) (h1 : a < ks) : ((ks : ℤ) * i + a) / (ks : ℤ) = i := by
  rw [add_comm, Int.add_mul_ediv_left a (i : ℤ) (by exact_mod_cast hks.ne'),
    Int.ediv_eq_zero_of_lt h0 h1, zero_add]

theorem mem_window_iff_child (cur : Level) (hnd : (cur.map Prod.fst).Nodup)
    (ks : ℕ) (hks : 0 < ks) (i j : ℕ) (c : GridCell) :
    c ∈ kernelWindow cur ks
        (listMin (cur.map (fun kc => kc.1.1)) + (ks : ℤ) * i)
        (listMin (cur.map (fun kc => kc.1.2)) + (ks : ℤ) * j) ↔
      c ∈ childCells cur ks
        ((listMin (cur.map (fun kc => kc.1.1)) + (ks : ℤ) * i) / (ks : ℤ),
         (listMin (cur.map (fun kc => kc.1.2)) + (ks : ℤ) * j) / (ks : ℤ)) := by
  constructor
  · intro h
    obtain ⟨a, b, ha, hb, hlook⟩ := mem_kernelWindow.mp h
    refine mem_childCells.mpr ⟨_, mem_of_alookup_eq_some hlook, ?_, rfl⟩
    unfold parentCoord
    have hx : listMin (cur.map (fun kc => kc.1.1)) + (ks : ℤ) * i + (a : ℤ) -
        listMin (cur.map (fun kc => kc.1.1)) = (ks : ℤ) * i + (a : ℤ) := by ring
    have hy : listMin (cur.map (fun kc => kc.1.2)) + (ks : ℤ) * j + (b : ℤ) -
        listMin (cur.map (fun kc => kc.1.2)) = (ks : ℤ) * j + (b : ℤ) := by ring
    show (_ + ((listMin (cur.map (fun kc => kc.1.1)) + (ks : ℤ) * i + (a : ℤ) -
        listMin (cur.map (fun kc => kc.1.1))) / (ks : ℤ)),
      _ + ((listMin (cur.map (fun kc => kc.1.2)) + (ks : ℤ) * j + (b : ℤ) -
        listMin (cur.map (fun kc => kc.1.2))) / (ks : ℤ))) = _
    rw [hx, hy, inner_offset_ediv _ ks i hks (by positivity) (by exact_mod_cast ha),
      inner_offset_ediv _ ks j hks (by positivity) (by exact_mod_cast hb),
      window_start_ediv _ ks i hks, window_start_ediv _ ks j hks]
  · intro h
    obtain ⟨kc, hkc, hp, rfl⟩ := mem_childCells.mp h
    have hlook : alookup cur kc.1 = some kc.2 := by
      refine alookup_eq_some_of_mem hnd ?_
      cases kc
      exact hkc
    have hgex : listMin (cur.map (fun kc => kc.1.1)) ≤ kc.1.1 :=
      listMin_le (List.mem_map.mpr ⟨kc, hkc, rfl⟩)
    have hgey : listMin (cur.map (fun kc => kc.1.2)) ≤ kc.1.2 :=
      listMin_le (List.mem_map.mpr ⟨kc, hkc, rfl⟩)
    have hksz : (0 : ℤ) < (ks : ℤ) := by exact_mod_cast hks
    unfold parentCoord at hp
    rw [window_start_ediv _ ks i hks, window_start_ediv _ ks j hks] at hp
    have hpx : (kc.1.1 - listMin (cur.map (fun kc => kc.1.1))) / (ks : ℤ) = i := by
      have := congrArg Prod.fst hp
      simpa using this
    have hpy : (kc.1.2 - listMin (cur.map (fun kc => kc.1.2))) / (ks : ℤ) = j := by
      have := congrArg Prod.snd hp
      simpa using this
    have hdx := Int.ediv_add_emod (kc.1.1 - listMin (cur.map (fun kc => kc.1.1))) (ks : ℤ)
    have hdy := Int.ediv_add_emod (kc.1.2 - listMin (cur.map (fun kc => kc.1.2))) (ks : ℤ)
    rw [hpx] at hdx
    rw [hpy] at hdy
    have hrx0 : 0 ≤ (kc.1.1 - listMin (cur.map (fun kc => kc.1.1))) % (ks : ℤ) :=
      Int.emod_nonneg _ hksz.ne'
    have hrx1 : (kc.1.1 - listMin (cur.map (fun kc => kc.1.1))) % (ks : ℤ) < (ks : ℤ) :=
      Int.emod_lt_of_pos _ hksz
    have hry0 : 0 ≤ (kc.1.2 - listMin (cur.map (fun kc => kc.1.2))) % (ks : ℤ) :=
      Int.emod_nonneg _ hksz.ne'
    have hry1 : (kc.1.2 - listMin (cur.map (fun kc => kc.1.2))) % (ks : ℤ) < (ks : ℤ) :=
      Int.emod_lt_of_pos _ hksz
    refine mem_kernelWindow.mpr
      ⟨((kc.1.1 - listMin (cur.map (fun kc => kc.1.1))) % (ks : ℤ)).toNat,
       ((kc.1.2 - listMin (cur.map (fun kc => kc.1.2))) % (ks : ℤ)).toNat,
       ?_, ?_, ?_⟩
    · omega
    · omega
    · have hkey : (listMin (cur.map (fun kc => kc.1.1)) + (ks : ℤ) * i +
          (((kc.1.1 - listMin (cur.map (fun kc => kc.1.1))) % (ks : ℤ)).toNat : ℤ),
          listMin (cur.map (fun kc => kc.1.2)) + (ks : ℤ) * j +
          (((kc.1.2 - listMin (cur.map (fun kc => kc.1.2))) % (ks : ℤ)).toNat : ℤ)) = kc.1 := by
        rw [Int.toNat_of_nonneg hrx0, Int.toNat_of_nonneg hry0]
        have h1 : kc.1.1 = listMin (cur.map (fun kc => kc.1.1)) + (ks : ℤ) * i +
            (kc.1.1 - listMin (cur.map (fun kc => kc.1.1))) % (ks : ℤ) := by
          omega
        have h2 : kc.1.2 = listMin (cur.map (fun kc => kc.1.2)) + (ks : ℤ) * j +
            (kc.1.2 - listMin (cur.map (fun kc => kc.1.2))) % (ks : ℤ) := by
          omega
        rw [← h1, ← h2]
      rw [hkey]
      exact hlook

theorem cast_two_pow (n : ℕ) : ((2 ^ n : ℕ) : ℤ) = (2 ^ n : ℤ) := by
  push_cast
  ring

theorem create_next_level_envelope (cur : Level) (n : ℕ)
    (hnd : (cur.map Prod.fst).Nodup) :
    EnvelopeRel cur (create_next_level cur n) n := by
  cases cur with
  | nil =>
    intro K cell h
    exact absurd h (by simp [create_next_level, alookup])
  | cons kc rest =>
    rw [create_next_level_eq]
    intro K cell h
    obtain ⟨dx, dy, hnorm⟩ := normalizeLevel_lookup
      ((windowPairs (kc :: rest) (2 ^ n)).foldl (windowStep (kc :: rest) n) [])
    rw [hnorm K] at h
    cases hf : alookup ((windowPairs (kc :: rest) (2 ^ n)).foldl
        (windowStep (kc :: rest) n) []) K with
    | none =>
      rw [hf] at h
      exact Option.noConfusion h
    | some cell0 =>
      rw [hf] at h
      have hcell : cell = { cell0 with x := cell0.x - dx, y := cell0.y - dy } :=
        (Option.some.inj h).symm
      rcases windowFold_sound (kc :: rest) n _ [] K cell0 hf with
        ⟨s, hsmem, hw, hK, hc0⟩ | habs
      · obtain ⟨hs1, hs2⟩ := mem_windowPairs.mp hsmem
        obtain ⟨i, hi2, hs1eq⟩ := mem_startsList.mp hs1
        obtain ⟨j, hj2, hs2eq⟩ := mem_startsList.mp hs2
        rw [keys_map_fst, cast_two_pow] at hs1eq
        rw [keys_map_snd, cast_two_pow] at hs2eq
        have hks : 0 < 2 ^ n := Nat.pos_pow_of_pos n (by norm_num)
        have hwne : kernelWindow (kc :: rest) (2 ^ n) s.1 s.2 ≠ [] := by
          intro hnil
          rw [hnil] at hw
          exact Bool.noConfusion hw
        have hiff : ∀ c, c ∈ kernelWindow (kc :: rest) (2 ^ n) s.1 s.2 ↔
            c ∈ childCells (kc :: rest) (2 ^ n) K := by
          intro c
          rw [hK, hs1eq, hs2eq, ← cast_two_pow]
          exact mem_window_iff_child (kc :: rest) hnd (2 ^ n) hks i j c
        have hcne : childCells (kc :: rest) (2 ^ n) K ≠ [] := by
          obtain ⟨c0, hc0mem⟩ := List.exists_mem_of_ne_nil _ hwne
          exact List.ne_nil_of_mem ((hiff c0).mp hc0mem)
        have hminlat : cell0.min_lat =
            listMin ((kernelWindow (kc :: rest) (2 ^ n) s.1 s.2).map GridCell.min_lat) := by
          rw [hc0]
          with_unfolding_all rfl
        have hmaxlat : cell0.max_lat =
            listMax ((kernelWindow (kc :: rest) (2 ^ n) s.1 s.2).map GridCell.max_lat) := by
          rw [hc0]
          with_unfolding_all rfl
        have hminlon : cell0.min_lon =
            listMin ((kernelWindow (kc :: rest) (2 ^ n) s.1 s.2).map GridCell.min_lon) := by
          rw [hc0]
          with_unfolding_all rfl
        have hmaxlon : cell0.max_lon =
            listMax ((kernelWindow (kc :: rest) (2 ^ n) s.1 s.2).map GridCell.max_lon) := by
          rw [hc0]
          with_unfolding_all rfl
        refine ⟨hcne, ?_, ?_, ?_, ?_⟩
        · show cell.min_lat = _
          rw [hcell]
          show cell0.min_lat = _
          rw [hminlat]
          exact listMin_map_congr GridCell.min_lat hwne hcne hiff
        · show cell.max_lat = _
          rw [hcell]
          show cell0.max_lat = _
          rw [hmaxlat]
          exact listMax_map_congr GridCell.max_lat hwne hcne hiff
        · show cell.min_lon = _
          rw [hcell]
          show cell0.min_lon = _
          rw [hminlon]
          exact listMin_map_congr GridCell.min_lon hwne hcne hiff
        · show cell.max_lon = _
          rw [hcell]
          show cell0.max_lon = _
          rw [hmaxlon]
          exact listMax_map_congr GridCell.max_lon hwne hcne hiff
      · exact absurd habs (by simp [alookup])

theorem spanMeasure_eq (lvl : Level) :
    spanMeasure lvl =
      (listMax (lvl.map (fun kc => kc.1.1)) -
        listMin (lvl.map (fun kc => kc.1.1))).toNat +
      (listMax (lvl.map (fun kc => kc.1.2)) -
        listMin (lvl.map (fun kc => kc.1.2))).toNat := rfl

theorem listMin_le_listMax {α : Type} [Inhabited α] [LinearOrder α] {l : List α}
    (h : l ≠ []) : listMin l ≤ listMax l :=
  listMin_le (listMax_mem h)

theorem parentCoord_of_window (m1 m2 : ℤ) (ks : ℕ) (hks : 0 < ks) (i j a b : ℕ)
    (ha : a < ks) (hb : b < ks) :
    parentCoord m1 m2 ks (m1 + (ks : ℤ) * i + (a : ℤ), m2 + (ks : ℤ) * j + (b : ℤ)) =
      ((m1 + (ks : ℤ) * i) / (ks : ℤ), (m2 + (ks : ℤ) * j) / (ks : ℤ)) := by
  unfold parentCoord
  have hx : m1 + (ks : ℤ) * i + (a : ℤ) - m1 = (ks : ℤ) * i + (a : ℤ) := by ring
  have hy : m2 + (ks : ℤ) * j + (b : ℤ) - m2 = (ks : ℤ) * j + (b : ℤ) := by ring
  show (m1 / (ks : ℤ) + (m1 + (ks : ℤ) * i + (a : ℤ) - m1) / (ks : ℤ),
    m2 / (ks : ℤ) + (m2 + (ks : ℤ) * j + (b : ℤ) - m2) / (ks : ℤ)) = _
  rw [hx, hy, inner_offset_ediv _ ks i hks (by positivity) (by exact_mod_cast ha),
    inner_offset_ediv _ ks j hks (by positivity) (by exact_mod_cast hb),
    window_start_ediv _ ks i hks, window_start_ediv _ ks j hks]

theorem startsList_covers {lo hi : ℤ} {ks : ℕ} (hks : 0 < ks) {a : ℤ}
    (h1 : lo ≤ a) (h2 : a ≤ hi) :
    lo + (ks : ℤ) * ((a - lo) / (ks : ℤ)) ∈ startsList lo hi ks := by
  have hksz : (0 : ℤ) < (ks : ℤ) := by exact_mod_cast hks
  have hd0 : 0 ≤ (a - lo) / (ks : ℤ) := Int.ediv_nonneg (by omega) hksz.le
  refine mem_startsList.mpr ⟨((a - lo) / (ks : ℤ)).toNat, ?_, ?_⟩
  · have hmono : (a - lo) / (ks : ℤ) ≤ (hi - lo) / (ks : ℤ) :=
      Int.ediv_le_ediv hksz (by omega)
    have hcast : ((hi - lo).toNat / ks : ℕ) = ((hi - lo) / (ks : ℤ)).toNat := by
      have hhl : 0 ≤ hi - lo := by omega
      have : ((hi - lo).toNat : ℤ) = hi - lo := Int.toNat_of_nonneg hhl
      rw [← this, ← Int.ofNat_ediv]
      exact (Int.toNat_ofNat _).symm
    omega
  · rw [Int.toNat_of_nonneg hd0]

theorem create_next_level_keys_subset (cur : Level) (n : ℕ) :
    ∀ K ∈ (create_next_level cur n).map Prod.fst,
      K ∈ cur.map (fun kc => parentCoord (listMin (cur.map (fun e => e.1.1)))
        (listMin (cur.map (fun e => e.1.2))) (2 ^ n) kc.1) := by
  cases cur with
  | nil =>
    intro K hK
    simp [create_next_level] at hK
  | cons kc rest =>
    intro K hK
    rw [create_next_level_eq, normalizeLevel_keys] at hK
    have hsome := (alookup_isSome_iff _ K).mpr hK
    cases hf : alookup ((windowPairs (kc :: rest) (2 ^ n)).foldl
        (windowStep (kc :: rest) n) []) K with
    | none => rw [hf] at hsome; simp at hsome
    | some cell0 =>
      rcases windowFold_sound (kc :: rest) n _ [] K cell0 hf with
        ⟨s, hsmem, hw, hKeq, _⟩ | habs
      · obtain ⟨hs1, hs2⟩ := mem_windowPairs.mp hsmem
        obtain ⟨i, _, hs1eq⟩ := mem_startsList.mp hs1
        obtain ⟨j, _, hs2eq⟩ := mem_startsList.mp hs2
        rw [keys_map_fst, cast_two_pow] at hs1eq
        rw [keys_map_snd, cast_two_pow] at hs2eq
        have hks : 0 < 2 ^ n := Nat.pos_pow_of_pos n (by norm_num)
        have hwne : kernelWindow (kc :: rest) (2 ^ n) s.1 s.2 ≠ [] := by
          intro hnil
          rw [hnil] at hw
          exact Bool.noConfusion hw
        obtain ⟨c0, hc0mem⟩ := List.exists_mem_of_ne_nil _ hwne
        obtain ⟨a, b, ha, hb, hlook⟩ := mem_kernelWindow.mp hc0mem
        have hmem := mem_of_alookup_eq_some hlook
        refine List.mem_map.mpr ⟨_, hmem, ?_⟩
        show parentCoord _ _ (2 ^ n)
          (s.1 + (a : ℤ), s.2 + (b : ℤ)) = K
        rw [hKeq, hs1eq, hs2eq, ← cast_two_pow]
        exact parentCoord_of_window _ _ (2 ^ n) hks i j a b ha hb
      · exact absurd habs (by simp [alookup])

theorem create_next_level_keys_nodup (cur : Level) (n : ℕ) :
    ((create_next_level cur n).map Prod.fst).Nodup := by
  cases cur with
  | nil => simp [create_next_level]
  | cons kc rest =>
    rw [create_next_level_eq, normalizeLevel_keys]
    exact windowFold_nodup (kc :: rest) n _ [] (by simp)

theorem create_next_level_length_le (cur : Level) (n : ℕ) :
    (create_next_level cur n).length ≤ cur.length := by
  have h1 : (create_next_level cur n).length =
      ((create_next_level cur n).map Prod.fst).length := (List.length_map _ _).symm
  have h2 : ((create_next_level cur n).map Prod.fst).length ≤
      (cur.map (fun kc => parentCoord (listMin (cur.map (fun e => e.1.1)))
        (listMin (cur.map (fun e => e.1.2))) (2 ^ n) kc.1)).length :=
    (List.subperm_of_subset (create_next_level_keys_nodup cur n)
      (create_next_level_keys_subset cur n)).length_le
  rw [h1]
  calc ((create_next_level cur n).map Prod.fst).length ≤ _ := h2
    _ = cur.length := List.length_map _ _

theorem create_next_level_ne_nil (kc : Coord × GridCell) (rest : Level) (n : ℕ)
    (hnd : (((kc :: rest) : Level).map Prod.fst).Nodup) :
    create_next_level (kc :: rest) n ≠ [] := by
  have hks : 0 < 2 ^ n := Nat.pos_pow_of_pos n (by norm_num)
  have hksz : (0 : ℤ) < ((2 ^ n : ℕ) : ℤ) := by exact_mod_cast hks
  set m1 := listMin ((kc :: rest).map (fun e : Coord × GridCell => e.1.1)) with hm1
  set m2 := listMin ((kc :: rest).map (fun e : Coord × GridCell => e.1.2)) with hm2
  have hmem1 : kc.1.1 ∈ (kc :: rest).map (fun e : Coord × GridCell => e.1.1) :=
    List.mem_map.mpr ⟨kc, List.mem_cons_self kc rest, rfl⟩
  have hmem2 : kc.1.2 ∈ (kc :: rest).map (fun e : Coord × GridCell => e.1.2) :=
    List.mem_map.mpr ⟨kc, List.mem_cons_self kc rest, rfl⟩
  have hlo1 : m1 ≤ kc.1.1 := listMin_le hmem1
  have hlo2 : m2 ≤ kc.1.2 := listMin_le hmem2
  have hhi1 : kc.1.1 ≤ listMax ((kc :: rest).map (fun e : Coord × GridCell => e.1.1)) :=
    le_listMax hmem1
  have hhi2 : kc.1.2 ≤ listMax ((kc :: rest).map (fun e : Coord × GridCell => e.1.2)) :=
    le_listMax hmem2
  have hd1 : 0 ≤ (kc.1.1 - m1) / ((2 ^ n : ℕ) : ℤ) := Int.ediv_nonneg (by omega) hksz.le
  have hd2 : 0 ≤ (kc.1.2 - m2) / ((2 ^ n : ℕ) : ℤ) := Int.ediv_nonneg (by omega) hksz.le
  have hicast : ((((kc.1.1 - m1) / ((2 ^ n : ℕ) : ℤ)).toNat : ℕ) : ℤ) =
      (kc.1.1 - m1) / ((2 ^ n : ℕ) : ℤ) := Int.toNat_of_nonneg hd1
  have hjcast : ((((kc.1.2 - m2) / ((2 ^ n : ℕ) : ℤ)).toNat : ℕ) : ℤ) =
      (kc.1.2 - m2) / ((2 ^ n : ℕ) : ℤ) := Int.toNat_of_nonneg hd2
  have hwmem : kc.2 ∈ kernelWindow (kc :: rest) (2 ^ n)
      (m1 + ((2 ^ n : ℕ) : ℤ) * (((kc.1.1 - m1) / ((2 ^ n : ℕ) : ℤ)).toNat : ℕ))
      (m2 + ((2 ^ n : ℕ) : ℤ) * (((kc.1.2 - m2) / ((2 ^ n : ℕ) : ℤ)).toNat : ℕ)) := by
    refine (mem_window_iff_child (kc :: rest) hnd (2 ^ n) hks _ _ kc.2).mpr ?_
    refine mem_childCells.mpr ⟨kc, List.mem_cons_self kc rest, ?_, rfl⟩
    rw [window_start_ediv _ _ _ hks, window_start_ediv _ _ _ hks, hicast, hjcast]
    unfold parentCoord
    rfl
  have hwf : (kernelWindow (kc :: rest) (2 ^ n)
      (m1 + ((2 ^ n : ℕ) : ℤ) * (((kc.1.1 - m1) / ((2 ^ n : ℕ) : ℤ)).toNat : ℕ))
      (m2 + ((2 ^ n : ℕ) : ℤ) * (((kc.1.2 - m2) / ((2 ^ n : ℕ) : ℤ)).toNat : ℕ))).isEmpty
      = false := by
    cases hker : kernelWindow (kc :: rest) (2 ^ n)
        (m1 + ((2 ^ n : ℕ) : ℤ) * (((kc.1.1 - m1) / ((2 ^ n : ℕ) : ℤ)).toNat : ℕ))
        (m2 + ((2 ^ n : ℕ) : ℤ) * (((kc.1.2 - m2) / ((2 ^ n : ℕ) : ℤ)).toNat : ℕ)) with
    | nil => rw [hker] at hwmem; simp at hwmem
    | cons x xs => rfl
  have hsmem : ((m1 + ((2 ^ n : ℕ) : ℤ) * (((kc.1.1 - m1) / ((2 ^ n : ℕ) : ℤ)).toNat : ℕ),
      m2 + ((2 ^ n : ℕ) : ℤ) * (((kc.1.2 - m2) / ((2 ^ n : ℕ) : ℤ)).toNat : ℕ)) : ℤ × ℤ)
      ∈ windowPairs (kc :: rest) (2 ^ n) := by
    refine mem_windowPairs.mpr ⟨?_, ?_⟩
    · rw [keys_map_fst, ← hm1, hicast]
      exact startsList_covers hks hlo1 hhi1
    · rw [keys_map_snd, ← hm2, hjcast]
      exact startsList_covers hks hlo2 hhi2
  rw [create_next_level_eq]
  intro hnil
  have hlen := normalizeLevel_length ((windowPairs (kc :: rest) (2 ^ n)).foldl
    (windowStep (kc :: rest) n) [])
  rw [hnil] at hlen
  have hfold_nil : (windowPairs (kc :: rest) (2 ^ n)).foldl
      (windowStep (kc :: rest) n) [] = [] :=
    List.length_eq_zero.mp hlen.symm
  have hpres := windowFold_present (kc :: rest) n (windowPairs (kc :: rest) (2 ^ n)) []
    _ hsmem hwf
  rw [hfold_nil] at hpres
  simp [alookup] at hpres

theorem spanMeasure_pos (a b : Coord × GridCell) (t : Level)
    (hnd : (((a :: b :: t) : Level).map Prod.fst).Nodup) :
    1 ≤ spanMeasure (a :: b :: t) := by
  have hne : a.1 ≠ b.1 := by
    intro h
    have h1 := (List.nodup_cons.mp hnd).1
    exact h1 (h ▸ List.mem_cons_self b.1 _)
  have hma1 : a.1.1 ≤ listMax ((a :: b :: t).map (fun kc => kc.1.1)) :=
    le_listMax (List.mem_map.mpr ⟨a, List.mem_cons_self a _, rfl⟩)
  have hmb1 : b.1.1 ≤ listMax ((a :: b :: t).map (fun kc => kc.1.1)) :=
    le_listMax (List.mem_map.mpr ⟨b, List.mem_cons_of_mem a (List.mem_cons_self b t), rfl⟩)
  have hna1 : listMin ((a :: b :: t).map (fun kc => kc.1.1)) ≤ a.1.1 :=
    listMin_le (List.mem_map.mpr ⟨a, List.mem_cons_self a _, rfl⟩)
  have hnb1 : listMin ((a :: b :: t).map (fun kc => kc.1.1)) ≤ b.1.1 :=
    listMin_le (List.mem_map.mpr ⟨b, List.mem_cons_of_mem a (List.mem_cons_self b t), rfl⟩)
  have hma2 : a.1.2 ≤ listMax ((a :: b :: t).map (fun kc => kc.1.2)) :=
    le_listMax (List.mem_map.mpr ⟨a, List.mem_cons_self a _, rfl⟩)
  have hmb2 : b.1.2 ≤ listMax ((a :: b :: t).map (fun kc => kc.1.2)) :=
    le_listMax (List.mem_map.mpr ⟨b, List.mem_cons_of_mem a (List.mem_cons_self b t), rfl⟩)
  have hna2 : listMin ((a :: b :: t).map (fun kc => kc.1.2)) ≤ a.1.2 :=
    listMin_le (List.mem_map.mpr ⟨a, List.mem_cons_self a _, rfl⟩)
  have hnb2 : listMin ((a :: b :: t).map (fun kc => kc.1.2)) ≤ b.1.2 :=
    listMin_le (List.mem_map.mpr ⟨b, List.mem_cons_of_mem a (List.mem_cons_self b t), rfl⟩)
  rw [spanMeasure_eq]
  by_cases hx : a.1.1 = b.1.1
  · have hy : a.1.2 ≠ b.1.2 := by
      intro hy
      exact hne (Prod.ext hx hy)
    omega
  · omega

theorem create_next_level_span_lt (cur : Level) (n : ℕ) (hn : 1 ≤ n)
    (hnd : (cur.map Prod.fst).Nodup) (hlen : 2 ≤ cur.length) :
    spanMeasure (create_next_level cur n) < spanMeasure cur := by
  have hpos : 1 ≤ spanMeasure cur := by
    match cur, hlen with
    | a :: b :: t, _ => exact spanMeasure_pos a b t hnd
  have hks : 0 < 2 ^ n := Nat.pos_pow_of_pos n (by norm_num)
  have hksz : (0 : ℤ) < ((2 ^ n : ℕ) : ℤ) := by exact_mod_cast hks
  have hks2 : (2 : ℤ) ≤ ((2 ^ n : ℕ) : ℤ) := by
    have : (2 : ℕ) ≤ 2 ^ n := by
      calc (2 : ℕ) = 2 ^ 1 := rfl
        _ ≤ 2 ^ n := Nat.pow_le_pow_right (by norm_num) hn
    exact_mod_cast this
  cases hnext : create_next_level cur n with
  | nil =>
    have hz : spanMeasure ([] : Level) = 0 := rfl
    omega
  | cons pk pt =>
    rw [← hnext]
    have hcurne : cur ≠ [] := by
      intro hc
      rw [hc] at hlen
      simp at hlen
    have hsub := create_next_level_keys_subset cur n
    have hbound1 : ∀ x ∈ (create_next_level cur n).map (fun kc : Coord × GridCell => kc.1.1),
        listMin (cur.map (fun e => e.1.1)) / ((2 ^ n : ℕ) : ℤ) ≤ x ∧
        x ≤ listMin (cur.map (fun e => e.1.1)) / ((2 ^ n : ℕ) : ℤ) +
          (listMax (cur.map (fun e => e.1.1)) - listMin (cur.map (fun e => e.1.1))) /
            ((2 ^ n : ℕ) : ℤ) := by
      intro x hx
      obtain ⟨kcn, hkcn, rfl⟩ := List.mem_map.mp hx
      have hkey : kcn.1 ∈ (create_next_level cur n).map Prod.fst :=
        List.mem_map.mpr ⟨kcn, hkcn, rfl⟩
      obtain ⟨kc0, hkc0, hKeq⟩ := List.mem_map.mp (hsub kcn.1 hkey)
      have hx1 : kcn.1.1 = listMin (cur.map (fun e => e.1.1)) / ((2 ^ n : ℕ) : ℤ) +
          (kc0.1.1 - listMin (cur.map (fun e => e.1.1))) / ((2 ^ n : ℕ) : ℤ) := by
        rw [← hKeq]
        rfl
      have hge : listMin (cur.map (fun e => e.1.1)) ≤ kc0.1.1 :=
        listMin_le (List.mem_map.mpr ⟨kc0, hkc0, rfl⟩)
      have hle : kc0.1.1 ≤ listMax (cur.map (fun e => e.1.1)) :=
        le_listMax (List.mem_map.mpr ⟨kc0, hkc0, rfl⟩)
      constructor
      · have h0 : 0 ≤ (kc0.1.1 - listMin (cur.map (fun e => e.1.1))) / ((2 ^ n : ℕ) : ℤ) :=
          Int.ediv_nonneg (by omega) hksz.le
        omega
      · have hm : (kc0.1.1 - listMin (cur.map (fun e => e.1.1))) / ((2 ^ n : ℕ) : ℤ) ≤
            (listMax (cur.map (fun e => e.1.1)) - listMin (cur.map (fun e => e.1.1))) /
              ((2 ^ n : ℕ) : ℤ) :=
          Int.ediv_le_ediv hksz (by omega)
        omega
    have hbound2 : ∀ x ∈ (create_next_level cur n).map (fun kc : Coord × GridCell => kc.1.2),
        listMin (cur.map (fun e => e.1.2)) / ((2 ^ n : ℕ) : ℤ) ≤ x ∧
        x ≤ listMin (cur.map (fun e => e.1.2)) / ((2 ^ n : ℕ) : ℤ) +
          (listMax (cur.map (fun e => e.1.2)) - listMin (cur.map (fun e => e.1.2))) /
            ((2 ^ n : ℕ) : ℤ) := by
      intro x hx
      obtain ⟨kcn, hkcn, rfl⟩ := List.mem_map.mp hx
      have hkey : kcn.1 ∈ (create_next_level cur n).map Prod.fst :=
        List.mem_map.mpr ⟨kcn, hkcn, rfl⟩
      obtain ⟨kc0, hkc0, hKeq⟩ := List.mem_map.mp (hsub kcn.1 hkey)
      have hx1 : kcn.1.2 = listMin (cur.map (fun e => e.1.2)) / ((2 ^ n : ℕ) : ℤ) +
          (kc0.1.2 - listMin (cur.map (fun e => e.1.2))) / ((2 ^ n : ℕ) : ℤ) := by
        rw [← hKeq]
        rfl
      have hge : listMin (cur.map (fun e => e.1.2)) ≤ kc0.1.2 :=
        listMin_le (List.mem_map.mpr ⟨kc0, hkc0, rfl⟩)
      have hle : kc0.1.2 ≤ listMax (cur.map (fun e => e.1.2)) :=
        le_listMax (List.mem_map.mpr ⟨kc0, hkc0, rfl⟩)
      constructor
      · have h0 : 0 ≤ (kc0.1.2 - listMin (cur.map (fun e => e.1.2))) / ((2 ^ n : ℕ) : ℤ) :=
          Int.ediv_nonneg (by omega) hksz.le
        omega
      · have hm : (kc0.1.2 - listMin (cur.map (fun e => e.1.2))) / ((2 ^ n : ℕ) : ℤ) ≤
            (listMax (cur.map (fun e => e.1.2)) - listMin (cur.map (fun e => e.1.2))) /
              ((2 ^ n : ℕ) : ℤ) :=
          Int.ediv_le_ediv hksz (by omega)
        omega
    have hnm1 : (create_next_level cur n).map (fun kc : Coord × GridCell => kc.1.1) ≠ [] := by
      rw [hnext]
      simp
    have hnm2 : (create_next_level cur n).map (fun kc : Coord × GridCell => kc.1.2) ≠ [] := by
      rw [hnext]
      simp
    have hminb1 := hbound1 _ (listMin_mem hnm1)
    have hmaxb1 := hbound1 _ (listMax_mem hnm1)
    have hminb2 := hbound2 _ (listMin_mem hnm2)
    have hmaxb2 := hbound2 _ (listMax_mem hnm2)
    have hx2 : 2 * (listMax ((create_next_level cur n).map (fun kc : Coord × GridCell => kc.1.1)) -
        listMin ((create_next_level cur n).map (fun kc : Coord × GridCell => kc.1.1))) ≤
        listMax (cur.map (fun e => e.1.1)) - listMin (cur.map (fun e => e.1.1)) := by
      have hdq : ((2 ^ n : ℕ) : ℤ) *
          ((listMax (cur.map (fun e => e.1.1)) - listMin (cur.map (fun e => e.1.1))) /
            ((2 ^ n : ℕ) : ℤ)) ≤
          listMax (cur.map (fun e => e.1.1)) - listMin (cur.map (fun e => e.1.1)) := by
        rw [mul_comm]
        exact Int.ediv_mul_le _ hksz.ne'
      have hq0 : 0 ≤ (listMax (cur.map (fun e => e.1.1)) -
          listMin (cur.map (fun e => e.1.1))) / ((2 ^ n : ℕ) : ℤ) := by
        refine Int.ediv_nonneg ?_ hksz.le
        have := listMin_le_listMax (l := cur.map (fun e => e.1.1)) (by
          intro hc
          exact hcurne (List.map_eq_nil_iff.mp hc))
        omega
      nlinarith [hminb1.1, hmaxb1.2]
    have hy2 : 2 * (listMax ((create_next_level cur n).map (fun kc : Coord × GridCell => kc.1.2)) -
        listMin ((create_next_level cur n).map (fun kc : Coord × GridCell => kc.1.2))) ≤
        listMax (cur.map (fun e => e.1.2)) - listMin (cur.map (fun e => e.1.2)) := by
      have hdq : ((2 ^ n : ℕ) : ℤ) *
          ((listMax (cur.map (fun e => e.1.2)) - listMin (cur.map (fun e => e.1.2))) /
            ((2 ^ n : ℕ) : ℤ)) ≤
          listMax (cur.map (fun e => e.1.2)) - listMin (cur.map (fun e => e.1.2)) := by
        rw [mul_comm]
        exact Int.ediv_mul_le _ hksz.ne'
      have hq0 : 0 ≤ (listMax (cur.map (fun e => e.1.2)) -
          listMin (cur.map (fun e => e.1.2))) / ((2 ^ n : ℕ) : ℤ) := by
        refine Int.ediv_nonneg ?_ hksz.le
        have := listMin_le_listMax (l := cur.map (fun e => e.1.2)) (by
          intro hc
          exact hcurne (List.map_eq_nil_iff.mp hc))
        omega
      nlinarith [hminb2.1, hmaxb2.2]
    have hmm1 : listMin ((create_next_level cur n).map (fun kc : Coord × GridCell => kc.1.1)) ≤
        listMax ((create_next_level cur n).map (fun kc : Coord × GridCell => kc.1.1)) :=
      listMin_le_listMax hnm1
    have hmm2 : listMin ((create_next_level cur n).map (fun kc : Coord × GridCell => kc.1.2)) ≤
        listMax ((create_next_level cur n).map (fun kc : Coord × GridCell => kc.1.2)) :=
      listMin_le_listMax hnm2
    rw [spanMeasure_eq] at hpos ⊢
    rw [spanMeasure_eq]
    omega

/-! ## Lemmas about the build loop -/

theorem spanMeasure_keys_eq (l l' : Level) (h : l.map Prod.fst = l'.map Prod.fst) :
    spanMeasure l = spanMeasure l' := by
  rw [spanMeasure_eq, spanMeasure_eq, ← keys_map_fst, ← keys_map_fst,
    ← keys_map_snd, ← keys_map_snd, h]

theorem aset_append_last {κ ν : Type} [DecidableEq κ] (l : List (κ × ν)) (k : κ) (v0 v : ν)
    (h : k ∉ l.map Prod.fst) : aset (l ++ [(k, v0)]) k v = l ++ [(k, v)] := by
  induction l with
  | nil =>
    show (if k = k then (k, v) :: [] else (k, v0) :: aset [] k v) = [(k, v)]
    rw [if_pos rfl]
  | cons e t ih =>
    have hke : k ≠ e.1 := by
      intro hc
      apply h
      rw [List.map_cons, hc]
      exact List.mem_cons_self e.1 _
    have ht : k ∉ t.map Prod.fst := by
      intro hc
      exact h (by rw [List.map_cons]; exact List.mem_cons_of_mem e.1 hc)
    show (if k = e.1 then _ else e :: aset (t ++ [(k, v0)]) k v) = e :: (t ++ [(k, v)])
    rw [if_neg hke, ih ht]

theorem chain'_concat {α : Type} (R : α → α → Prop) (l : List α) (a b : α)
    (h : List.Chain' R (l ++ [a])) (hab : R a b) :
    List.Chain' R ((l ++ [a]) ++ [b]) := by
  rw [List.chain'_append]
  refine ⟨h, List.chain'_singleton b, ?_⟩
  intro x hx y hy
  rw [List.getLast?_concat] at hx
  have hxa : a = x := by simpa using hx
  have hyb : b = y := by simpa using hy
  rw [← hxa, ← hyb]
  exact hab

theorem chain'_replace_last {α : Type} (R : α → α → Prop) (l : List α) (a a' : α)
    (h : List.Chain' R (l ++ [a])) (hrep : ∀ x, R x a → R x a') :
    List.Chain' R (l ++ [a']) := by
  rw [List.chain'_append] at h ⊢
  obtain ⟨h1, _, h3⟩ := h
  refine ⟨h1, List.chain'_singleton a', ?_⟩
  intro x hx y hy
  have hya : a' = y := by simpa using hy
  rw [← hya]
  exact hrep x (h3 x hx a (by simp))

theorem eraseTag_sameBounds {c c' : GridCell} (h : eraseTag c = eraseTag c') :
    c.min_lat = c'.min_lat ∧ c.max_lat = c'.max_lat ∧
    c.min_lon = c'.min_lon ∧ c.max_lon = c'.max_lon := by
  have h1 := congrArg GridCell.min_lat h
  have h2 := congrArg GridCell.max_lat h
  have h3 := congrArg GridCell.min_lon h
  have h4 := congrArg GridCell.max_lon h
  exact ⟨h1, h2, h3, h4⟩

theorem envelopeRel_parent_refines {c p p' : Level} {k : ℕ} (href : TagRefines p p')
    (h : EnvelopeRel c p k) : EnvelopeRel c p' k := by
  intro K cell h'
  have h2 := href K
  rw [h'] at h2
  cases hp : alookup p K with
  | none =>
    rw [hp] at h2
    exact Option.noConfusion h2
  | some cell0 =>
    rw [hp] at h2
    have h3 : eraseTag cell = eraseTag cell0 := Option.some.inj h2
    obtain ⟨hb1, hb2, hb3, hb4⟩ := eraseTag_sameBounds h3
    obtain ⟨hne, hmin, hmax, hmin2, hmax2⟩ := h K cell0 hp
    exact ⟨hne, hb1.trans hmin, hb2.trans hmax, hb3.trans hmin2, hb4.trans hmax2⟩

theorem placeTag_keys_nodup (b : Boundaries) (delta : ℚ) :
    ∀ (tags : List Tag) (acc : Level), (acc.map Prod.fst).Nodup →
      ((tags.foldl (placeTag b delta) acc).map Prod.fst).Nodup := by
  intro tags
  induction tags with
  | nil =>
    intro acc h
    exact h
  | cons t ts ih =>
    intro acc h
    rw [List.foldl_cons]
    refine ih _ ?_
    unfold placeTag
    rw [keys_amodify]
    by_cases hl : (alookup acc (tagKey b delta t)).isSome
    · rw [if_pos hl]
      exact h
    · rw [if_neg hl]
      exact keys_aset_nodup _ _ _ h

theorem create_base_grid_keys_nodup (tags : List Tag) (b : Boundaries) (delta : ℚ) :
    ((create_base_grid tags b delta).map Prod.fst).Nodup := by
  unfold create_base_grid
  rw [normalizeLevel_keys]
  exact placeTag_keys_nodup b delta tags [] (by simp)

theorem buildLoop_invariant (provider : Provider) (batch_size : ℕ) :
    ∀ (fuel : ℕ) (rest : List (ℕ × Level)) (cur : Level) (n : ℕ),
      1 ≤ n →
      (rest ++ [(n - 1, cur)]).map Prod.fst = List.range n →
      (cur.map Prod.fst).Nodup →
      List.Chain' (fun a b => b.2.length ≤ a.2.length) (rest ++ [(n - 1, cur)]) →
      List.Chain' (fun a b => EnvelopeRel a.2 b.2 b.1) (rest ++ [(n - 1, cur)]) →
      ∃ rest' cur' n',
        buildLoop provider batch_size fuel (rest ++ [(n - 1, cur)]) cur n =
          (rest' ++ [(n' - 1, cur')], cur', n') ∧
        1 ≤ n' ∧
        (rest' ++ [(n' - 1, cur')]).map Prod.fst = List.range n' ∧
        (cur'.map Prod.fst).Nodup ∧
        List.Chain' (fun a b => b.2.length ≤ a.2.length) (rest' ++ [(n' - 1, cur')]) ∧
        List.Chain' (fun a b => EnvelopeRel a.2 b.2 b.1) (rest' ++ [(n' - 1, cur')]) ∧
        (cur ≠ [] → cur' ≠ []) ∧
        (spanMeasure cur < fuel → cur'.length ≤ 1) := by
  intro fuel
  induction fuel with
  | zero =>
    intro rest cur n hn hkeys hnd hlc hec
    refine ⟨rest, cur, n, rfl, hn, hkeys, hnd, hlc, hec, fun h => h, fun h => ?_⟩
    omega
  | succ fuel ih =>
    intro rest cur n hn hkeys hnd hlc hec
    by_cases hlen : cur.length > 1
    · have hkeys' := batch_summarize_level_keys provider cur ((n : ℤ) - 1) batch_size
      have hnd' : ((batch_summarize_level provider cur ((n : ℤ) - 1) batch_size).map
          Prod.fst).Nodup := by
        rw [hkeys']
        exact hnd
      have hlen' : (batch_summarize_level provider cur ((n : ℤ) - 1) batch_size).length =
          cur.length := by
        calc (batch_summarize_level provider cur ((n : ℤ) - 1) batch_size).length
            = ((batch_summarize_level provider cur ((n : ℤ) - 1) batch_size).map
                Prod.fst).length := (List.length_map _ _).symm
          _ = (cur.map Prod.fst).length := by rw [hkeys']
          _ = cur.length := List.length_map _ _
      have hmapapp : rest.map Prod.fst ++ [n - 1] = List.range n := by
        have h1 := hkeys
        rw [List.map_append] at h1
        simpa using h1
      have hnotmem : (n - 1) ∉ rest.map Prod.fst := by
        have hndr : (rest.map Prod.fst ++ [n - 1]).Nodup := by
          rw [hmapapp]
          exact List.nodup_range n
        rw [List.nodup_append] at hndr
        intro hc
        exact hndr.2.2 hc (by simp)
      have haset1 : aset (rest ++ [(n - 1, cur)]) (n - 1)
          (batch_summarize_level provider cur ((n : ℤ) - 1) batch_size) =
          rest ++ [(n - 1, batch_summarize_level provider cur ((n : ℤ) - 1) batch_size)] :=
        aset_append_last rest (n - 1) cur _ hnotmem
      have hlc' : List.Chain' (fun a b => b.2.length ≤ a.2.length)
          (rest ++ [(n - 1, batch_summarize_level provider cur ((n : ℤ) - 1) batch_size)]) := by
        refine chain'_replace_last _ rest (n - 1, cur) _ hlc ?_
        intro x hx
        show (batch_summarize_level provider cur ((n : ℤ) - 1) batch_size).length ≤ x.2.length
        rw [hlen']
        exact hx
      have hec' : List.Chain' (fun a b => EnvelopeRel a.2 b.2 b.1)
          (rest ++ [(n - 1, batch_summarize_level provider cur ((n : ℤ) - 1) batch_size)]) := by
        refine chain'_replace_last _ rest (n - 1, cur) _ hec ?_
        intro x hx
        exact envelopeRel_parent_refines
          (batch_summarize_level_refines provider cur ((n : ℤ) - 1) batch_size) hx
      have hkeysrep : (rest ++ [(n - 1,
          batch_summarize_level provider cur ((n : ℤ) - 1) batch_size)]).map Prod.fst =
          List.range n := by
        rw [List.map_append]
        simpa using hmapapp
      have hcur'ne : batch_summarize_level provider cur ((n : ℤ) - 1) batch_size ≠ [] := by
        intro hc
        rw [hc] at hlen'
        simp at hlen'
        omega
      have hnextne : create_next_level
          (batch_summarize_level provider cur ((n : ℤ) - 1) batch_size) n ≠ [] := by
        cases hc' : batch_summarize_level provider cur ((n : ℤ) - 1) batch_size with
        | nil => exact absurd hc' hcur'ne
        | cons a t =>
          refine create_next_level_ne_nil a t n ?_
          rw [← hc']
          exact hnd'
      by_cases hnext : (create_next_level
          (batch_summarize_level provider cur ((n : ℤ) - 1) batch_size) n).isEmpty = true
      · exact absurd (List.isEmpty_iff.mp hnext) hnextne
      · have hfree : alookup (rest ++ [(n - 1,
            batch_summarize_level provider cur ((n : ℤ) - 1) batch_size)]) n = none := by
          rw [alookup_eq_none_iff, hkeysrep]
          simp
        have haset2 : aset (rest ++ [(n - 1,
            batch_summarize_level provider cur ((n : ℤ) - 1) batch_size)]) n
            (create_next_level
              (batch_summarize_level provider cur ((n : ℤ) - 1) batch_size) n) =
            (rest ++ [(n - 1,
              batch_summarize_level provider cur ((n : ℤ) - 1) batch_size)]) ++
            [(n, create_next_level
              (batch_summarize_level provider cur ((n : ℤ) - 1) batch_size) n)] :=
          aset_fresh_eq_append _ _ _ hfree
        have hkeys2 : ((rest ++ [(n - 1,
            batch_summarize_level provider cur ((n : ℤ) - 1) batch_size)]) ++
            [(n, create_next_level
              (batch_summarize_level provider cur ((n : ℤ) - 1) batch_size) n)]).map
            Prod.fst = List.range (n + 1) := by
          rw [List.map_append, hkeysrep, List.range_succ]
          simp
        have hlc2 : List.Chain' (fun a b => b.2.length ≤ a.2.length)
            ((rest ++ [(n - 1,
              batch_summarize_level provider cur ((n : ℤ) - 1) batch_size)]) ++
            [(n, create_next_level
              (batch_summarize_level provider cur ((n : ℤ) - 1) batch_size) n)]) := by
          refine chain'_concat _ rest _ _ hlc' ?_
          show (create_next_level
            (batch_summarize_level provider cur ((n : ℤ) - 1) batch_size) n).length ≤ _
          exact create_next_level_length_le _ n
        have hec2 : List.Chain' (fun a b => EnvelopeRel a.2 b.2 b.1)
            ((rest ++ [(n - 1,
              batch_summarize_level provider cur ((n : ℤ) - 1) batch_size)]) ++
            [(n, create_next_level
              (batch_summarize_level provider cur ((n : ℤ) - 1) batch_size) n)]) := by
          refine chain'_concat _ rest _ _ hec' ?_
          exact create_next_level_envelope _ n hnd'
        have hrec := ih (rest ++ [(n - 1,
            batch_summarize_level provider cur ((n : ℤ) - 1) batch_size)])
          (create_next_level
            (batch_summarize_level provider cur ((n : ℤ) - 1) batch_size) n)
          (n + 1) (by omega)
          (by simpa using hkeys2)
          (create_next_level_keys_nodup _ n)
          (by simpa using hlc2)
          (by simpa using hec2)
        obtain ⟨rest', cur'', n', heq, hn', hkeysF, hndF, hlcF, hecF, hneF, hspanF⟩ := hrec
        refine ⟨rest', cur'', n', ?_, hn', hkeysF, hndF, hlcF, hecF, fun _ => hneF hnextne, ?_⟩
        · show buildLoop provider batch_size (fuel + 1) (rest ++ [(n - 1, cur)]) cur n = _
          simp only [buildLoop]
          rw [if_pos hlen, if_neg hnext, haset1, haset2]
          have hsimp : n + 1 - 1 = n := rfl
          rw [← heq]
          rfl
        · intro hspan
          refine hspanF ?_
          have hs1 : spanMeasure (batch_summarize_level provider cur
              ((n : ℤ) - 1) batch_size) = spanMeasure cur :=
            spanMeasure_keys_eq _ _ hkeys'
          have hs2 : spanMeasure (create_next_level
              (batch_summarize_level provider cur ((n : ℤ) - 1) batch_size) n) <
              spanMeasure (batch_summarize_level provider cur ((n : ℤ) - 1) batch_size) :=
            create_next_level_span_lt _ n hn hnd' (by omega)
          omega
    · refine ⟨rest, cur, n, ?_, hn, hkeys, hnd, hlc, hec, fun h => h, fun _ => by omega⟩
      show buildLoop provider batch_size (fuel + 1) (rest ++ [(n - 1, cur)]) cur n = _
      simp only [buildLoop]
      rw [if_neg hlen]

theorem buildLoop_fuel_stable (provider : Provider) (batch_size : ℕ) :
    ∀ (fuel : ℕ) (extra : ℕ) (levels : List (ℕ × Level)) (cur : Level) (n : ℕ),
      1 ≤ n →
      (cur.map Prod.fst).Nodup →
      spanMeasure cur < fuel →
      buildLoop provider batch_size (fuel + extra) levels cur n =
        buildLoop provider batch_size fuel levels cur n := by
  intro fuel
  induction fuel with
  | zero =>
    intro extra levels cur n hn hnd hspan
    exact absurd hspan (by omega)
  | succ fuel ih =>
    intro extra levels cur n hn hnd hspan
    have hfe : fuel + 1 + extra = (fuel + extra) + 1 := by omega
    rw [hfe]
    by_cases hlen : cur.length > 1
    · simp only [buildLoop]
      rw [if_pos hlen, if_pos hlen]
      by_cases hnext : (create_next_level
          (batch_summarize_level provider cur ((n : ℤ) - 1) batch_size) n).isEmpty = true
      · rw [if_pos hnext, if_pos hnext]
      · rw [if_neg hnext, if_neg hnext]
        have hkeys' := batch_summarize_level_keys provider cur ((n : ℤ) - 1) batch_size
        have hnd' : ((batch_summarize_level provider cur ((n : ℤ) - 1) batch_size).map
            Prod.fst).Nodup := by
          rw [hkeys']
          exact hnd
        have hlen' : (batch_summarize_level provider cur ((n : ℤ) - 1) batch_size).length =
            cur.length := by
          calc (batch_summarize_level provider cur ((n : ℤ) - 1) batch_size).length
              = ((batch_summarize_level provider cur ((n : ℤ) - 1) batch_size).map
                  Prod.fst).length := (List.length_map _ _).symm
            _ = (cur.map Prod.fst).length := by rw [hkeys']
            _ = cur.length := List.length_map _ _
        refine ih extra _ _ (n + 1) (by omega) (create_next_level_keys_nodup _ n) ?_
        have hs1 : spanMeasure (batch_summarize_level provider cur
            ((n : ℤ) - 1) batch_size) = spanMeasure cur :=
          spanMeasure_keys_eq _ _ hkeys'
        have hs2 : spanMeasure (create_next_level
            (batch_summarize_level provider cur ((n : ℤ) - 1) batch_size) n) <
            spanMeasure (batch_summarize_level provider cur ((n : ℤ) - 1) batch_size) :=
          create_next_level_span_lt _ n hn hnd' (by omega)
        omega
    · simp only [buildLoop]
      rw [if_neg hlen, if_neg hlen]

theorem amodify_length {κ ν : Type} [DecidableEq κ] (l : List (κ × ν)) (k : κ) (f : ν → ν) :
    (amodify l k f).length = l.length := by
  have hk := keys_amodify l k f
  calc (amodify l k f).length = ((amodify l k f).map Prod.fst).length :=
        (List.length_map _ _).symm
    _ = (l.map Prod.fst).length := by rw [hk]
    _ = l.length := List.length_map _ _

theorem aset_ne_nil {κ ν : Type} [DecidableEq κ] (l : List (κ × ν)) (k : κ) (v : ν) :
    aset l k v ≠ [] := by
  cases l with
  | nil => simp [aset]
  | cons e t =>
    obtain ⟨k0, v0⟩ := e
    show (if k = k0 then (k0, v) :: t else (k0, v0) :: aset t k v) ≠ []
    by_cases h : k = k0
    · rw [if_pos h]
      simp
    · rw [if_neg h]
      simp

theorem placeTag_ne_nil (b : Boundaries) (delta : ℚ) (acc : Level) (t : Tag) :
    placeTag b delta acc t ≠ [] := by
  unfold placeTag
  intro hnil
  have hlen := amodify_length
    (if (alookup acc (tagKey b delta t)).isSome then acc
     else aset acc (tagKey b delta t)
       (baseCell b delta (tagKey b delta t).1 (tagKey b delta t).2))
    (tagKey b delta t)
    (fun c => { c with combined_tag := appendTagText c.combined_tag t.text })
  rw [hnil] at hlen
  by_cases hl : (alookup acc (tagKey b delta t)).isSome
  · rw [if_pos hl] at hlen
    have hacc : acc = [] := List.length_eq_zero.mp hlen.symm
    rw [hacc] at hl
    simp [alookup] at hl
  · rw [if_neg hl] at hlen
    exact aset_ne_nil acc _ _ (List.length_eq_zero.mp hlen.symm)

theorem foldl_placeTag_ne_nil (b : Boundaries) (delta : ℚ) :
    ∀ (ts : List Tag) (acc : Level), acc ≠ [] →
      ts.foldl (placeTag b delta) acc ≠ [] := by
  intro ts
  induction ts with
  | nil =>
    intro acc h
    exact h
  | cons t ts ih =>
    intro acc h
    rw [List.foldl_cons]
    exact ih _ (placeTag_ne_nil b delta acc t)

theorem create_base_grid_ne_nil (t : Tag) (ts : List Tag) (b : Boundaries) (delta : ℚ) :
    create_base_grid (t :: ts) b delta ≠ [] := by
  unfold create_base_grid
  intro hnil
  have hlen := normalizeLevel_length ((t :: ts).foldl (placeTag b delta) [])
  rw [hnil] at hlen
  have hfoldnil : (t :: ts).foldl (placeTag b delta) [] = [] :=
    List.length_eq_zero.mp hlen.symm
  rw [List.foldl_cons] at hfoldnil
  exact foldl_placeTag_ne_nil b delta ts _ (placeTag_ne_nil b delta [] t) hfoldnil

theorem buildBase_ne_nil (provider : Provider) (t : Tag) (ts : List Tag) (grid_delta : ℚ)
    (cb : Option Boundaries) (batch_size : ℕ) :
    buildBase provider (t :: ts) grid_delta cb batch_size ≠ [] := by
  unfold buildBase
  intro hnil
  have hkeys := summarize_cell_tags_keys provider
    (create_base_grid (t :: ts) (define_boundaries grid_delta (t :: ts) cb) grid_delta)
    batch_size
  rw [hnil] at hkeys
  exact create_base_grid_ne_nil t ts _ grid_delta (List.map_eq_nil_iff.mp hkeys.symm)

theorem buildBase_keys_nodup (provider : Provider) (tags : List Tag) (grid_delta : ℚ)
    (cb : Option Boundaries) (batch_size : ℕ) :
    ((buildBase provider tags grid_delta cb batch_size).map Prod.fst).Nodup := by
  unfold buildBase
  rw [summarize_cell_tags_keys]
  exact create_base_grid_keys_nodup tags _ grid_delta

theorem summarizeDataLevels_spec (provider : Provider) (tags : List Tag) (grid_delta : ℚ)
    (cb : Option Boundaries) (batch_size : ℕ) :
    ∃ rest lastLvl N, 1 ≤ N ∧
      summarizeDataLevels provider tags grid_delta cb batch_size =
        rest ++ [(N - 1, lastLvl)] ∧
      (rest ++ [(N - 1, lastLvl)]).map Prod.fst = List.range N ∧
      List.Chain' (fun a b => b.2.length ≤ a.2.length) (rest ++ [(N - 1, lastLvl)]) ∧
      List.Chain' (fun a b => EnvelopeRel a.2 b.2 b.1) (rest ++ [(N - 1, lastLvl)]) ∧
      (buildBase provider tags grid_delta cb batch_size ≠ [] → lastLvl.length = 1) := by
  have hnd0 := buildBase_keys_nodup provider tags grid_delta cb batch_size
  have hinit_keys : (([] : List (ℕ × Level)) ++
      [(1 - 1, buildBase provider tags grid_delta cb batch_size)]).map Prod.fst =
      List.range 1 := by
    simp [List.range_succ]
  obtain ⟨rest', cur', n', heq, hn', hkeysF, hndF, hlcF, hecF, hneF, hspanF⟩ :=
    buildLoop_invariant provider batch_size
      (spanMeasure (buildBase provider tags grid_delta cb batch_size) + 1)
      [] (buildBase provider tags grid_delta cb batch_size) 1
      (le_refl 1) hinit_keys hnd0 (List.chain'_singleton _) (List.chain'_singleton _)
  have hstate : buildState provider tags grid_delta cb batch_size =
      (rest' ++ [(n' - 1, cur')], cur', n') := by
    unfold buildState
    exact heq
  have hlast_le : cur'.length ≤ 1 := hspanF (by omega)
  by_cases hcl : 0 < cur'.length
  · have hnotmem : (n' - 1) ∉ rest'.map Prod.fst := by
      have hmapapp : rest'.map Prod.fst ++ [n' - 1] = List.range n' := by
        have h1 := hkeysF
        rw [List.map_append] at h1
        simpa using h1
      have hndr : (rest'.map Prod.fst ++ [n' - 1]).Nodup := by
        rw [hmapapp]
        exact List.nodup_range n'
      rw [List.nodup_append] at hndr
      intro hc
      exact hndr.2.2 hc (by simp)
    have hsd : summarizeDataLevels provider tags grid_delta cb batch_size =
        aset (rest' ++ [(n' - 1, cur')]) (n' - 1)
          (batch_summarize_level provider cur' ((n' : ℤ) - 1) batch_size) := by
      unfold summarizeDataLevels
      rw [hstate]
      rw [if_pos hcl]
    have haset : aset (rest' ++ [(n' - 1, cur')]) (n' - 1)
        (batch_summarize_level provider cur' ((n' : ℤ) - 1) batch_size) =
        rest' ++ [(n' - 1, batch_summarize_level provider cur' ((n' : ℤ) - 1) batch_size)] :=
      aset_append_last rest' (n' - 1) cur' _ hnotmem
    have hkeysS := batch_summarize_level_keys provider cur' ((n' : ℤ) - 1) batch_size
    have hlenS : (batch_summarize_level provider cur' ((n' : ℤ) - 1) batch_size).length =
        cur'.length := by
      calc (batch_summarize_level provider cur' ((n' : ℤ) - 1) batch_size).length
          = ((batch_summarize_level provider cur' ((n' : ℤ) - 1) batch_size).map
              Prod.fst).length := (List.length_map _ _).symm
        _ = (cur'.map Prod.fst).length := by rw [hkeysS]
        _ = cur'.length := List.length_map _ _
    refine ⟨rest', batch_summarize_level provider cur' ((n' : ℤ) - 1) batch_size, n',
      hn', hsd.trans haset, ?_, ?_, ?_, ?_⟩
    · rw [List.map_append]
      have h1 := hkeysF
      rw [List.map_append] at h1
      simpa using h1
    · refine chain'_replace_last _ rest' (n' - 1, cur') _ hlcF ?_
      intro x hx
      show (batch_summarize_level provider cur' ((n' : ℤ) - 1) batch_size).length ≤ x.2.length
      rw [hlenS]
      exact hx
    · refine chain'_replace_last _ rest' (n' - 1, cur') _ hecF ?_
      intro x hx
      exact envelopeRel_parent_refines
        (batch_summarize_level_refines provider cur' ((n' : ℤ) - 1) batch_size) hx
    · intro _
      omega
  · have hcur'nil : cur' = [] := by
      have : cur'.length = 0 := by omega
      exact List.length_eq_zero.mp this
    have hsd : summarizeDataLevels provider tags grid_delta cb batch_size =
        rest' ++ [(n' - 1, cur')] := by
      unfold summarizeDataLevels
      rw [hstate]
      rw [if_neg hcl]
    refine ⟨rest', cur', n', hn', hsd, hkeysF, hlcF, hecF, ?_⟩
    intro hB
    exact absurd hcur'nil (hneF hB)

theorem save_results_keys (grid_delta : ℚ) (levels : List (ℕ × Level)) :
    (save_results grid_delta levels).levels.map Prod.fst =
      levels.map (fun ld => toString ld.1) := by
  show ((levels.map (fun ld => (toString ld.1,
    ld.2.map (fun kc => (keyStr kc.2.x kc.2.y, cellToDoc kc.2))))).map Prod.fst) = _
  rw [List.map_map]
  rfl

theorem save_results_total (grid_delta : ℚ) (levels : List (ℕ × Level)) :
    (save_results grid_delta levels).metadata.total_levels = levels.length := rfl

theorem save_results_levels_length (grid_delta : ℚ) (levels : List (ℕ × Level)) :
    (save_results grid_delta levels).levels.length = levels.length :=
  List.length_map _ _

/-- **C10**: every document produced by a build has its levels keyed by exactly
the consecutive decimal strings `"0"` through `str(total_levels - 1)`, in that
order, and `metadata.total_levels` equals the number of levels stored — the
layout the incremental updater relies on when iterating levels
`1 .. len(levels) - 1`. -/
theorem c10_levels_canonical (provider : Provider) (tags : List Tag) (grid_delta : ℚ)
    (cb : Option Boundaries) (batch_size : ℕ) :
    (summarize_data provider tags grid_delta cb batch_size).levels.map Prod.fst =
      (List.range
        ((summarize_data provider tags grid_delta cb batch_size).metadata.total_levels)).map
        toString ∧
    (summarize_data provider tags grid_delta cb batch_size).metadata.total_levels =
      (summarize_data provider tags grid_delta cb batch_size).levels.length := by
  obtain ⟨rest, lastLvl, N, hN, hsd, hkeys, _, _, _⟩ :=
    summarizeDataLevels_spec provider tags grid_delta cb batch_size
  have hsdl_keys : (summarizeDataLevels provider tags grid_delta cb batch_size).map
      Prod.fst = List.range N := by
    rw [hsd]
    exact hkeys
  have hsdl_len : (summarizeDataLevels provider tags grid_delta cb batch_size).length = N := by
    have h1 : ((summarizeDataLevels provider tags grid_delta cb batch_size).map
        Prod.fst).length = (List.range N).length := by rw [hsdl_keys]
    rw [List.length_map, List.length_range] at h1
    exact h1
  have hsd2 : summarize_data provider tags grid_delta cb batch_size =
      save_results grid_delta (summarizeDataLevels provider tags grid_delta cb batch_size) :=
    rfl
  rw [hsd2]
  constructor
  · rw [save_results_keys, save_results_total, hsdl_len]
    have hmm : (summarizeDataLevels provider tags grid_delta cb batch_size).map
        (fun ld => toString ld.1) =
        ((summarizeDataLevels provider tags grid_delta cb batch_size).map Prod.fst).map
          toString := by
      rw [List.map_map]
      rfl
    rw [hmm, hsdl_keys]
  · rw [save_results_total, save_results_levels_length]

/-- **C2**: for every tag list the level-construction loop terminates — the
fuel bound `spanMeasure + 1` chosen by `summarizeDataLevels` is sufficient, so
adding any amount of extra fuel does not change the result (the Python `while`
loop never runs past it) — every derived level has at most as many cells as
the level below it, and for a non-empty tag list the last level produced holds
exactly one cell. -/
theorem c2_pyramid_terminates (provider : Provider) (tags : List Tag) (grid_delta : ℚ)
    (cb : Option Boundaries) (batch_size : ℕ) (htags : tags ≠ []) :
    (∀ extra : ℕ,
      buildLoop provider batch_size
        (spanMeasure (buildBase provider tags grid_delta cb batch_size) + 1 + extra)
        [(0, buildBase provider tags grid_delta cb batch_size)]
        (buildBase provider tags grid_delta cb batch_size) 1 =
      buildState provider tags grid_delta cb batch_size) ∧
    List.Chain' (fun a b => b.2.length ≤ a.2.length)
      (summarizeDataLevels provider tags grid_delta cb batch_size) ∧
    ∃ lastLvl,
      (summarizeDataLevels provider tags grid_delta cb batch_size).getLast? =
        some ((summarizeDataLevels provider tags grid_delta cb batch_size).length - 1,
          lastLvl) ∧
      lastLvl.length = 1 := by
  obtain ⟨rest, lastLvl, N, hN, hsd, hkeys, hlc, _, hone⟩ :=
    summarizeDataLevels_spec provider tags grid_delta cb batch_size
  have hBne : buildBase provider tags grid_delta cb batch_size ≠ [] := by
    cases tags with
    | nil => exact absurd rfl htags
    | cons t ts => exact buildBase_ne_nil provider t ts grid_delta cb batch_size
  have hsdl_len : (summarizeDataLevels provider tags grid_delta cb batch_size).length = N := by
    have h1 : ((summarizeDataLevels provider tags grid_delta cb batch_size).map
        Prod.fst).length = (List.range N).length := by rw [hsd]; rw [hkeys]
    rw [List.length_map, List.length_range] at h1
    exact h1
  refine ⟨?_, ?_, lastLvl, ?_, hone hBne⟩
  · intro extra
    exact buildLoop_fuel_stable provider batch_size
      (spanMeasure (buildBase provider tags grid_delta cb batch_size) + 1) extra
      [(0, buildBase provider tags grid_delta cb batch_size)]
      (buildBase provider tags grid_delta cb batch_size) 1
      (le_refl 1) (buildBase_keys_nodup provider tags grid_delta cb batch_size) (by omega)
  · rw [hsd]
    exact hlc
  · rw [hsdl_len, hsd, List.getLast?_concat]

/-- Witness for C2 on the concrete two-tag build `tagsTwo` (unit grid, far
apart tags): the fuel bound is stable, cell counts contract, and the last
level is a single cell. -/
theorem c2_pyramid_terminates_witness :
    (∀ extra : ℕ,
      buildLoop provNone 10
        (spanMeasure (buildBase provNone tagsTwo 1 none 10) + 1 + extra)
        [(0, buildBase provNone tagsTwo 1 none 10)]
        (buildBase provNone tagsTwo 1 none 10) 1 =
      buildState provNone tagsTwo 1 none 10) ∧
    List.Chain' (fun a b => b.2.length ≤ a.2.length)
      (summarizeDataLevels provNone tagsTwo 1 none 10) ∧
    ∃ lastLvl,
      (summarizeDataLevels provNone tagsTwo 1 none 10).getLast? =
        some ((summarizeDataLevels provNone tagsTwo 1 none 10).length - 1, lastLvl) ∧
      lastLvl.length = 1 :=
  c2_pyramid_terminates provNone tagsTwo 1 none 10 (by with_unfolding_all decide)

/-- **C7** (amended): after a build, at every level above 0 each cell's bounds
equal the min/max envelope of the bounds of its present child cells
(`EnvelopeRel` holds between every pair of consecutive stored levels), and an
accepted incremental update never recomputes an upper-level cell's bounds —
every upper-level cell present before and after keeps byte-identical bounds.
The envelope property itself is NOT preserved by updates (see the
counterexample: a new level-0 cell can appear under an existing kernel whose
bounds are left stale). -/
theorem c7_bounds_envelope :
    (∀ (provider : Provider) (tags : List Tag) (grid_delta : ℚ) (cb : Option Boundaries)
        (batch_size : ℕ),
      List.Chain' (fun a b => EnvelopeRel a.2 b.2 b.1)
        (summarizeDataLevels provider tags grid_delta cb batch_size)) ∧
    (∀ (provider : Provider) (lat lon : ℚ) (tag_text : String) (doc doc' : Document)
        (p : ℕ) (lvl lvl' : DocLevel) (k : String) (c c' : CellDoc),
      update_with_new_tag provider lat lon tag_text doc = .ok doc' →
      1 ≤ p →
      alookup doc.levels (toString p) = some lvl →
      alookup doc'.levels (toString p) = some lvl' →
      alookup lvl k = some c →
      alookup lvl' k = some c' →
      sameBounds c c') := by
  constructor
  · intro provider tags grid_delta cb batch_size
    obtain ⟨rest, lastLvl, N, _, hsd, _, _, hec, _⟩ :=
      summarizeDataLevels_spec provider tags grid_delta cb batch_size
    rw [hsd]
    exact hec
  · intro provider lat lon tag_text doc doc' p lvl lvl' k c c' h hp hl hl' hc hc'
    obtain ⟨level_0, final_l0, hl0, hemp, hsum, hloop, hmeta⟩ :=
      update_ok_decompose provider lat lon tag_text doc doc' h
    obtain ⟨_, hframe⟩ := updateLevelsLoop_frame provider lat lon
      (locateInLevel0 doc.metadata.grid_delta lat lon level_0).1
      (locateInLevel0 doc.metadata.grid_delta lat lon level_0).2
      final_l0 _ _ _ hloop
    have hne0 : toString p ≠ ("0") := by
      intro hcon
      have hp0 : p = 0 :=
        toString_nat_injective (hcon.trans (rfl : (toString (0:ℕ)) = ("0")).symm)
      omega
    have hstart : alookup (aset doc.levels ("0") final_l0) (toString p) = some lvl := by
      rw [alookup_aset_ne _ _ _ _ hne0]
      exact hl
    obtain ⟨lvlF, hF, href, _⟩ := hframe (toString p) lvl hstart
    have hlvl'_eq : lvl' = lvlF := by
      rw [hl'] at hF
      exact Option.some.inj hF
    subst hlvl'_eq
    exact docTagRefines_sameBounds href hc hc'

/-- Witness for C7: the envelope chain on the concrete build over `tagsTwo`,
and bounds preservation for the level-1 cell `0_0` of `docA` across the
accepted update at `(1/2, 1/2)` (its combined tag changes to `"A"`, its
bounds do not). -/
theorem c7_bounds_envelope_witness :
    List.Chain' (fun a b => EnvelopeRel a.2 b.2 b.1)
      (summarizeDataLevels provNone tagsTwo 1 none 10) ∧
    sameBounds
      { min_lat := 0, max_lat := 2, min_lon := 0, max_lon := 2,
        combined_tag := .str ("a; b") }
      { min_lat := 0, max_lat := 2, min_lon := 0, max_lon := 2,
        combined_tag := .str ("A") } :=
  ⟨c7_bounds_envelope.1 provNone tagsTwo 1 none 10,
   c7_bounds_envelope.2 (provZero (.str ("A"))) (1/2) (1/2) ("t") docA docARes 1
     [(("0_0"), { min_lat := 0, max_lat := 2, min_lon := 0, max_lon := 2,
                  combined_tag := .str ("a; b") })]
     [(("0_0"), { min_lat := 0, max_lat := 2, min_lon := 0, max_lon := 2,
                  combined_tag := .str ("A") })]
     ("0_0") _ _
     (by with_unfolding_all rfl) (by decide) (by with_unfolding_all rfl)
     (by with_unfolding_all rfl) (by with_unfolding_all rfl) (by with_unfolding_all rfl)⟩

/-- Counterexample to the "preserved by every incremental update" half of C7:
`docC` satisfies the document-level bounds-envelope check, the update at
`(3/2, 1/2)` is accepted and creates the fresh level-0 cell `1_0` under the
existing level-1 kernel `0_0`, whose bounds are left stale — the envelope
check fails afterwards. -/
theorem c7_update_breaks_envelope :
    docEnvelopeB docC = true ∧
    update_with_new_tag provNone (3/2) (1/2) ("b") docC = .ok docCRes ∧
    docEnvelopeB docCRes = false := by
  refine ⟨?_, ?_, ?_⟩
  · with_unfolding_all rfl
  · with_unfolding_all rfl
  · with_unfolding_all rfl
